import Mathlib

/-!
# gocron-ui examples: a verification development

Shallow embedding of the two example programs of the repository,
`examples/basic_auth/main.go` and `examples/getting_started/main.go`.

* Go strings and byte slices are lists of bytes (`GoString`), because a Go
  string may hold any byte sequence.
* The calls a function makes on its collaborators (the HTTP response, the
  wrapped handler, the scheduler, the logger, the process environment) are
  recorded in program order; the answers of the collaborators that the
  repository does not contain are read from a `World`.
* The Go standard library functions the code calls (`crypto/sha256`,
  `crypto/subtle`, `encoding/base64`, `net/http` Basic-Auth parsing,
  `os.LookupEnv`) are embedded from their documented behaviour.
* The scheduler that runs the jobs is a library outside the repository;
  where a property is about it, it is modelled from the specification
  (namespace `spec`), each such definition saying so.
-/

/-- One byte. -/
abbrev Byte := Fin 256

/-- A Go string (or byte slice): any sequence of bytes. -/
abbrev GoString := List Byte

/-- Conversion `byte(n)` of an unsigned integer: the low eight bits. -/
def byte (n : Nat) : Byte := ⟨n % 256, Nat.mod_lt _ (by decide)⟩

/-- The bytes of a string literal (one byte per character code, low eight bits). -/
def ascii (s : String) : GoString := s.toList.map (fun c => byte c.toNat)

/-! ## crypto/sha256 -/

namespace sha256

/-- The digest size in bytes (`sha256.Size`). -/
def Size : Nat := 32

/-- The block size in bytes (`sha256.BlockSize`). -/
def BlockSize : Nat := 64

/-- The sixty-four round constants. -/
def K : List Nat := [
  0x428a2f98, 0x71374491, 0xb5c0fbcf, 0xe9b5dba5, 0x3956c25b, 0x59f111f1, 0x923f82a4, 0xab1c5ed5,
  0xd807aa98, 0x12835b01, 0x243185be, 0x550c7dc3, 0x72be5d74, 0x80deb1fe, 0x9bdc06a7, 0xc19bf174,
  0xe49b69c1, 0xefbe4786, 0x0fc19dc6, 0x240ca1cc, 0x2de92c6f, 0x4a7484aa, 0x5cb0a9dc, 0x76f988da,
  0x983e5152, 0xa831c66d, 0xb00327c8, 0xbf597fc7, 0xc6e00bf3, 0xd5a79147, 0x06ca6351, 0x14292967,
  0x27b70a85, 0x2e1b2138, 0x4d2c6dfc, 0x53380d13, 0x650a7354, 0x766a0abb, 0x81c2c92e, 0x92722c85,
  0xa2bfe8a1, 0xa81a664b, 0xc24b8b70, 0xc76c51a3, 0xd192e819, 0xd6990624, 0xf40e3585, 0x106aa070,
  0x19a4c116, 0x1e376c08, 0x2748774c, 0x34b0bcb5, 0x391c0cb3, 0x4ed8aa4a, 0x5b9cca4f, 0x682e6ff3,
  0x748f82ee, 0x78a5636f, 0x84c87814, 0x8cc70208, 0x90befffa, 0xa4506ceb, 0xbef9a3f7, 0xc67178f2]

/-- Addition of two uint32 values (wraps at 2^32). -/
def add32 (x y : Nat) : Nat := (x + y) % 2 ^ 32

/-- Rotation of a uint32 to the right by n bits (`bits.RotateLeft32(x, -n)`). -/
def rotr (x n : Nat) : Nat := ((x >>> n) ||| (x <<< (32 - n))) % 2 ^ 32

/-- Bitwise complement of a uint32. -/
def not32 (x : Nat) : Nat := 2 ^ 32 - 1 - x % 2 ^ 32

/-- The eight uint32 working variables of the digest. -/
structure State where
  a : Nat
  b : Nat
  c : Nat
  d : Nat
  e : Nat
  f : Nat
  g : Nat
  h : Nat
deriving DecidableEq, Repr

/-- The initial hash value. -/
def init : State :=
  ⟨0x6a09e667, 0xbb67ae85, 0x3c6ef372, 0xa54ff53a, 0x510e527f, 0x9b05688c, 0x1f83d9ab, 0x5be0cd19⟩

/-- The big-endian uint32 words of a run of bytes. -/
def words : List Byte → List Nat
  | b0 :: b1 :: b2 :: b3 :: rest =>
      (b0.val <<< 24 ||| b1.val <<< 16 ||| b2.val <<< 8 ||| b3.val) :: words rest
  | _ => []

/-- The message schedule, extended by n words; `w` holds the words computed
so far with the latest first, so `w[i-2]` is at position 1, `w[i-7]` at 6,
`w[i-15]` at 14 and `w[i-16]` at 15. -/
def schedule : Nat → List Nat → List Nat
  | 0, w => w
  | n + 1, w =>
      let v1 := w.getD 1 0
      let t1 := rotr v1 17 ^^^ rotr v1 19 ^^^ (v1 >>> 10)
      let v2 := w.getD 14 0
      let t2 := rotr v2 7 ^^^ rotr v2 18 ^^^ (v2 >>> 3)
      schedule n (add32 (add32 (add32 t1 (w.getD 6 0)) t2) (w.getD 15 0) :: w)

/-- One round of the compression function. -/
def round (s : State) (k w : Nat) : State :=
  let t1 := add32 (add32 (add32 (add32 s.h (rotr s.e 6 ^^^ rotr s.e 11 ^^^ rotr s.e 25))
    ((s.e &&& s.f) ^^^ (not32 s.e &&& s.g))) k) w
  let t2 := add32 (rotr s.a 2 ^^^ rotr s.a 13 ^^^ rotr s.a 22)
    ((s.a &&& s.b) ^^^ (s.a &&& s.c) ^^^ (s.b &&& s.c))
  ⟨add32 t1 t2, s.a, s.b, s.c, add32 s.d t1, s.e, s.f, s.g⟩

/-- The rounds, one per round constant and schedule word. -/
def rounds : State → List Nat → List Nat → State
  | s, k :: ks, w :: ws => rounds (round s k w) ks ws
  | s, _, _ => s

/-- The compression of one 64-byte block into the digest state. -/
def block (dig : State) (p : List Byte) : State :=
  let w := (schedule 48 (words p).reverse).reverse
  let s := rounds dig K w
  ⟨add32 dig.a s.a, add32 dig.b s.b, add32 dig.c s.c, add32 dig.d s.d,
   add32 dig.e s.e, add32 dig.f s.f, add32 dig.g s.g, add32 dig.h s.h⟩

/-- The compression of n consecutive blocks. -/
def blocks : Nat → State → List Byte → State
  | 0, dig, _ => dig
  | n + 1, dig, p => blocks n (block dig (p.take BlockSize)) (p.drop BlockSize)

/-- A uint32 as four big-endian bytes. -/
def be32 (x : Nat) : List Byte := [byte (x >>> 24), byte (x >>> 16), byte (x >>> 8), byte x]

/-- A uint64 as eight big-endian bytes. -/
def be64 (x : Nat) : List Byte := be32 (x >>> 32) ++ be32 x

/-- The padded message: the data, the byte 0x80, zero bytes up to 56 modulo
64, and the length of the data in bits as a big-endian uint64. -/
def pad (data : List Byte) : List Byte :=
  data ++ byte 0x80 :: List.replicate ((119 - data.length % 64) % 64) (byte 0)
    ++ be64 (data.length * 8 % 2 ^ 64)

/-- The SHA-256 checksum of the data (`sha256.Sum256`). -/
def Sum256 (data : List Byte) : List Byte :=
  let p := pad data
  let s := blocks (p.length / BlockSize) init p
  be32 s.a ++ be32 s.b ++ be32 s.c ++ be32 s.d ++ be32 s.e ++ be32 s.f ++ be32 s.g ++ be32 s.h

end sha256

/-! ## crypto/subtle -/

namespace subtle

/-- Returns 1 if the two uint8 values are equal and 0 otherwise:
`int((uint32(x^y) - 1) >> 31)`. -/
def ConstantTimeByteEq (x y : Nat) : Nat := (((x ^^^ y) + 2 ^ 32 - 1) % 2 ^ 32) >>> 31

/-- The accumulation loop of `ConstantTimeCompare`: `v |= x[i] ^ y[i]`. -/
def accumulate : Nat → List Byte → List Byte → Nat
  | v, a :: x, b :: y => accumulate (v ||| (a.val ^^^ b.val)) x y
  | v, _, _ => v

/-- Returns 1 if the two slices are equal and 0 otherwise; returns 0 at once
when the lengths differ (`subtle.ConstantTimeCompare`). -/
def ConstantTimeCompare (x y : List Byte) : Nat :=
  if x.length ≠ y.length then 0
  else ConstantTimeByteEq (accumulate 0 x y) 0

end subtle

/-! ## encoding/base64 and the Basic-Auth parser of net/http -/

namespace base64

/-- The value of a character of the standard alphabet (`decodeMap`), if it is one. -/
def decodeMap (c : Byte) : Option Nat :=
  if 65 ≤ c.val ∧ c.val ≤ 90 then some (c.val - 65)
  else if 97 ≤ c.val ∧ c.val ≤ 122 then some (c.val - 97 + 26)
  else if 48 ≤ c.val ∧ c.val ≤ 57 then some (c.val - 48 + 52)
  else if c.val = 43 then some 62
  else if c.val = 47 then some 63
  else none

/-- The padding character. -/
def padChar : Byte := 61

/-- Decoding of the quanta of four characters, newlines already dropped.
A full quantum gives three bytes; a final quantum may end in one or two
padding characters and gives two bytes or one; anything else is corrupt. -/
def decodeQuanta : List Byte → Option (List Byte)
  | [] => some []
  | [c0, c1, c2, c3] =>
      match decodeMap c0, decodeMap c1 with
      | some v0, some v1 =>
          match decodeMap c2, decodeMap c3 with
          | some v2, some v3 =>
              let val := v0 <<< 18 ||| v1 <<< 12 ||| v2 <<< 6 ||| v3
              some [byte (val >>> 16), byte (val >>> 8), byte val]
          | some v2, none =>
              if c3 = padChar then
                let val := v0 <<< 18 ||| v1 <<< 12 ||| v2 <<< 6
                some [byte (val >>> 16), byte (val >>> 8)]
              else none
          | none, _ =>
              if c2 = padChar ∧ c3 = padChar then
                let val := v0 <<< 18 ||| v1 <<< 12
                some [byte (val >>> 16)]
              else none
      | _, _ => none
  | c0 :: c1 :: c2 :: c3 :: rest =>
      match decodeMap c0, decodeMap c1, decodeMap c2, decodeMap c3, decodeQuanta rest with
      | some v0, some v1, some v2, some v3, some out =>
          let val := v0 <<< 18 ||| v1 <<< 12 ||| v2 <<< 6 ||| v3
          some (byte (val >>> 16) :: byte (val >>> 8) :: byte val :: out)
      | _, _, _, _, _ => none
  | _ => none

/-- The bytes a padded standard-alphabet string encodes, or none when the
input is corrupt; carriage returns and newlines are skipped
(`base64.StdEncoding.DecodeString`). -/
def DecodeString (s : GoString) : Option GoString :=
  decodeQuanta (s.filter (fun c => c.val ≠ 10 ∧ c.val ≠ 13))

end base64

namespace strings

/-- Slices s around the first sep byte (`strings.Cut` with a one-byte separator). -/
def Cut (s : GoString) (sep : Byte) : GoString × GoString × Bool :=
  match s with
  | [] => ([], [], false)
  | c :: rest =>
      if c = sep then ([], rest, true)
      else
        match Cut rest sep with
        | (before, after, true) => (c :: before, after, true)
        | (_, _, false) => (s, [], false)

end strings

namespace http

/-- An `http.Handler` the program passes around without looking inside it. -/
structure Handler where
  name : String
deriving DecidableEq, Repr

/-- The `http.ResponseWriter` of one request. -/
structure ResponseWriter where
  id : Nat
deriving DecidableEq, Repr

/-- An HTTP request: method, target, header fields (canonical keys, each
with its values) and body. -/
structure Request where
  Method : String
  URL : String
  Header : List (String × List GoString)
  Body : List Byte
deriving DecidableEq, Repr

/-- The first value of the header field with the given key, or the empty
string (`Header.Get`). -/
def Header.Get (h : List (String × List GoString)) (key : String) : GoString :=
  match h.lookup key with
  | some (v :: _) => v
  | _ => []

/-- ASCII lower-casing of one byte. -/
def lower (b : Byte) : Byte := if 65 ≤ b.val ∧ b.val ≤ 90 then byte (b.val + 32) else b

/-- ASCII case-insensitive equality (`ascii.EqualFold`). -/
def EqualFold (s t : GoString) : Bool := s.length = t.length ∧ s.map lower = t.map lower

/-- Parses an HTTP Basic Authentication string: the scheme `Basic `
(any case), then the base64 of `username:password`. -/
def parseBasicAuth (auth : GoString) : GoString × GoString × Bool :=
  let scheme := ascii "Basic "
  if auth.length < scheme.length ∨ ¬ EqualFold (auth.take scheme.length) scheme then ([], [], false)
  else
    match base64.DecodeString (auth.drop scheme.length) with
    | none => ([], [], false)
    | some cs =>
        match strings.Cut cs 58 with
        | (username, password, true) => (username, password, true)
        | (_, _, false) => ([], [], false)

/-- The username and password of the request Authorization header, if the
request uses HTTP Basic Authentication (`Request.BasicAuth`). -/
def Request.BasicAuth (r : Request) : GoString × GoString × Bool :=
  let auth := Header.Get r.Header "Authorization"
  if auth = [] then ([], [], false) else parseBasicAuth auth

/-- The status code `http.StatusUnauthorized`. -/
def StatusUnauthorized : Nat := 401

/-- A call a handler makes on its collaborators. -/
inductive Call
  | Sum256 (data : List Byte)
  | ConstantTimeCompare (x y : List Byte)
  | ServeHTTP (next : Handler) (w : ResponseWriter) (r : Request)
  | HeaderSet (w : ResponseWriter) (key value : String)
  | Error (w : ResponseWriter) (error : String) (code : Nat)
deriving DecidableEq, Repr

/-- A computation that records the calls it makes, in program order. -/
abbrev Exec := StateM (List Call)

/-- Records one call. -/
def call (c : Call) : Exec Unit := modify (fun log => log ++ [c])

/-- The calls a computation makes. -/
def Exec.calls {α : Type} (x : Exec α) : List Call := (StateT.run x []).snd

/-- A function used as a handler (`http.HandlerFunc`). -/
abbrev HandlerFunc := ResponseWriter → Request → Exec Unit

end http

/-! ## The gocron values the examples build -/

namespace time

/-- One second, as a `time.Duration`: a number of nanoseconds. Instants
(`time.Time`) are nanoseconds too. -/
def Second : Int := 1000000000

/-- A day of the week. -/
inductive Weekday
  | Sunday | Monday | Tuesday | Wednesday | Thursday | Friday | Saturday
deriving DecidableEq, Repr

end time

namespace gocron

/-- A time of day (`gocron.NewAtTime(hours, minutes, seconds)`). -/
structure AtTime where
  hours : Nat
  minutes : Nat
  seconds : Nat
deriving DecidableEq, Repr

/-- The collection of at-times (`gocron.NewAtTimes`). -/
def NewAtTimes (atTime : AtTime) (atTimes : List AtTime) : List AtTime := atTime :: atTimes

/-- The collection of weekdays (`gocron.NewWeekdays`). -/
def NewWeekdays (weekday : time.Weekday) (weekdays : List time.Weekday) : List time.Weekday :=
  weekday :: weekdays

/-- How a job is scheduled (`gocron.JobDefinition`), by the constructor the
tables use. -/
inductive JobDefinition
  | DurationJob (duration : Int)
  | DurationRandomJob (minDuration maxDuration : Int)
  | CronJob (crontab : String) (withSeconds : Bool)
  | DailyJob (interval : Nat) (atTimes : List AtTime)
  | WeeklyJob (interval : Nat) (daysOfTheWeek : List time.Weekday) (atTimes : List AtTime)
  | OneTimeJob (startDateTime : Int)
deriving DecidableEq, Repr

/-- A statement of a task function of the tables; a sleep lasts between min and max. -/
inductive Stmt
  | Println (text : String)
  | Printf (format : String) (args : List String)
  | Sleep (min max : Int)
deriving DecidableEq, Repr

/-- A bound argument of a task. -/
inductive Value
  | str (s : String)
  | int (n : Int)
deriving DecidableEq, Repr

/-- A task (`gocron.NewTask(function, parameters...)`): the function, by its
parameter names and statements, and the bound arguments. -/
structure Task where
  params : List String
  body : List Stmt
  parameters : List Value
deriving DecidableEq, Repr

/-- The task of a function and its bound arguments (`gocron.NewTask`). -/
def NewTask (params : List String) (body : List Stmt) (parameters : List Value) : Task :=
  ⟨params, body, parameters⟩

/-- The singleton mode the tables use (`gocron.LimitMode`). -/
inductive LimitMode
  | LimitModeReschedule
deriving DecidableEq, Repr

/-- An event listener, by the statements of its function. -/
inductive EventListener
  | AfterJobRuns (body : List Stmt)
  | BeforeJobRuns (body : List Stmt)
deriving DecidableEq, Repr

/-- The job options the tables use (`gocron.JobOption`). -/
inductive JobOption
  | WithName (name : String)
  | WithTags (tags : List String)
  | WithSingletonMode (mode : LimitMode)
  | WithLimitedRuns (limit : Nat)
  | WithEventListeners (listeners : List EventListener)
deriving DecidableEq, Repr

end gocron

/-! ## The calls of a main function -/

/-- What `http.ListenAndServe` is given as handler. -/
inductive Served
  | handler (h : http.Handler)
  | func (f : http.HandlerFunc)

/-- A call a main function makes, in program order. The statements of the
goroutine that serves HTTP are the body of `Go`. -/
inductive Event
  | LookupEnv (key : String)
  | Fatalf (format : String)
  | Parse
  | NewScheduler
  | NewJob (definition : gocron.JobDefinition) (task : gocron.Task)
      (options : List gocron.JobOption)
  | Printf (format : String)
  | Println (text : String)
  | Start
  | NewServer (port : Int) (title : String)
  | ListenAndServe (addr : String) (handler : Served)
  | Go (body : List Event)
  | Notify
  | Receive
  | Shutdown

/-- How a function stops short of returning: the process exits with a
code (`os.Exit`, also when called from a goroutine, which ends every
goroutine of the process), or the function blocks for good (main waits for a
signal that never comes, the goroutine keeps serving). -/
inductive Stop
  | exit (code : Nat)
  | blocked
deriving DecidableEq, Repr

/-- The answers of everything outside the program. -/
structure World where
  /-- The value of `time.Now()` when the package variables are initialised. -/
  now : Int
  /-- The process environment: the value of each variable that is set. -/
  env : String → Option GoString
  /-- The flags `flag.Parse` reads, port and title, or the exit code when it
  ends the process (bad flag, or help requested). -/
  flags : Except Nat (Int × String)
  /-- The error of `gocron.NewScheduler`, if any. -/
  newScheduler : Option String
  /-- The error of the k-th call of `scheduler.NewJob`, if any. -/
  newJob : Nat → Option String
  /-- The error `http.ListenAndServe` returns, if it returns. Nothing in the
  programs stops a running server, so it returns only when the listener fails,
  which is taken to happen before any signal is delivered. -/
  listen : Option String
  /-- Whether SIGINT or SIGTERM arrives. -/
  signal : Bool
  /-- The error of `scheduler.Shutdown`, if any. -/
  shutdown : Option String

/-- A main function: records its calls and may stop early. -/
abbrev Prog := ExceptT Stop (StateM (List Event))

/-- Records one call. -/
def emit (e : Event) : Prog Unit := modify (fun log => log ++ [e])

/-- Logs the message, then ends the process with exit code 1 (`log.Fatalf`). -/
def Fatalf {α : Type} (format : String) : Prog α := do
  emit (.Fatalf format)
  throw (.exit 1)

/-- The calls a main function makes, and how it ends. -/
def Prog.run (p : Prog Unit) : Except Stop Unit × List Event := StateT.run (ExceptT.run p) []

namespace os

/-- The value of the environment variable and whether it is set; the value
is empty when it is not (`os.LookupEnv`). -/
def LookupEnv (env : String → Option GoString) (key : String) : GoString × Bool :=
  match env key with
  | some value => (value, true)
  | none => ([], false)

end os

/-- The statement list of a range loop over the job table, shared by the two
mains: `scheduler.NewJob(job.definition, job.task, job.options...)` for every
entry, and a log line where it returns an error. The argument k counts the
calls of NewJob made before. -/
def addJobs (newJob : Nat → Option String) :
    Nat → List (gocron.JobDefinition × gocron.Task × List gocron.JobOption) → Prog Unit
  | _, [] => pure ()
  | k, (definition, task, options) :: rest => do
      emit (.NewJob definition task options)
      if (newJob k).isSome then
        emit (.Printf "Error creating job: %v")
      addJobs newJob (k + 1) rest

/-- The line of seventy equals signs, `strings.Repeat("=", 70)`. -/
def rule : String := String.mk (List.replicate 70 '=')

/-- The router of the server, `srv.Router`. -/
def Router : http.Handler := ⟨"srv.Router"⟩

/-! ## examples/basic_auth/main.go -/

namespace basic_auth

open gocron http

def usernameEnv : String := "GOCRON_UI_USERNAME"

def passwordEnv : String := "GOCRON_UI_PASSWORD"

/-- An entry of the job table. -/
structure JobEntry where
  name : String
  definition : JobDefinition
  task : Task
  options : List JobOption
deriving DecidableEq, Repr

/-- The job table. -/
def jobs : List JobEntry := [
  ⟨"simple-10s-interval", .DurationJob (10 * time.Second),
    NewTask [] [.Println "Running 10-second interval job"] [],
    [.WithName "simple-10s-interval", .WithTags ["interval", "simple"]]⟩,
  ⟨"simple-5s-interval", .DurationJob (5 * time.Second),
    NewTask [] [.Println "Running 5-second interval job"] [],
    [.WithName "simple-5s-interval", .WithTags ["interval", "simple"]]⟩,
  ⟨"simple-20s-interval", .DurationJob (20 * time.Second),
    NewTask [] [.Println "Running 20-second interval job"] [],
    [.WithName "simple-20s-interval", .WithTags ["interval", "simple"]]⟩]

/-- The Basic-Auth middleware: forwards the request to next when its
credentials hash to the hashes of the expected ones, and answers 401
otherwise. -/
def basicAuthMiddleware (next : Handler) (expectedUsername expectedPassword : GoString) :
    HandlerFunc :=
  fun w r => do
    let (username, password, ok) := r.BasicAuth
    if ok then
      call (.Sum256 username)
      let usernameHash := sha256.Sum256 username
      call (.Sum256 password)
      let passwordHash := sha256.Sum256 password

      call (.Sum256 expectedUsername)
      let expectedUsernameHash := sha256.Sum256 expectedUsername
      call (.Sum256 expectedPassword)
      let expectedPasswordHash := sha256.Sum256 expectedPassword

      call (.ConstantTimeCompare usernameHash expectedUsernameHash)
      let usernameMatch := subtle.ConstantTimeCompare usernameHash expectedUsernameHash == 1
      call (.ConstantTimeCompare passwordHash expectedPasswordHash)
      let passwordMatch := subtle.ConstantTimeCompare passwordHash expectedPasswordHash == 1

      if usernameMatch && passwordMatch then
        call (.ServeHTTP next w r)
        return

    call (.HeaderSet w "WWW-Authenticate" "Basic realm=\"restricted\", charset=\"UTF-8\"")
    call (.Error w "Unauthorized" StatusUnauthorized)

/-- The condition of the guard of main. -/
def guard (username : GoString) (usernameOK : Bool) (password : GoString) (passwordOK : Bool) :
    Bool :=
  (!usernameOK || !passwordOK) || username == [] || password == []

/-- The statements of the goroutine that serves HTTP. -/
def serve (world : World) (port : Int) (username password : GoString) : Prog Unit := do
  let addr := ":" ++ toString port
  emit (.Println ("\n" ++ rule))
  emit (.Printf "GoCron UI Server Started with Basic Authentication")
  emit (.Println rule)
  emit (.Printf "Web UI:       http://localhost%s")
  emit (.Printf "API:          http://localhost%s/api")
  emit (.Printf "WebSocket:    ws://localhost%s/ws")
  emit (.Printf "Total Jobs:   %d")
  emit (.Println (rule ++ "\n"))

  emit (.ListenAndServe addr (.func (basicAuthMiddleware Router username password)))
  if world.listen.isSome then
    Fatalf "Server failed to start: %v"
  else
    throw .blocked

/-- The main function. The calls of the serving goroutine are nested in the
`Go` call; main goes on to its receive, where it ends with the process when
the goroutine's `log.Fatalf` exits it. -/
def main (world : World) : Prog Unit := do
  emit (.LookupEnv usernameEnv)
  let (username, usernameOK) := os.LookupEnv world.env usernameEnv
  emit (.LookupEnv passwordEnv)
  let (password, passwordOK) := os.LookupEnv world.env passwordEnv

  if guard username usernameOK password passwordOK then
    Fatalf "Environment variables %s and %s must be set for basic authentication"

  emit .Parse
  let (port, title) ←
    match world.flags with
    | .ok flags => pure flags
    | .error code => throw (.exit code)

  -- create the gocron scheduler
  emit .NewScheduler
  if world.newScheduler.isSome then
    Fatalf "Failed to create scheduler: %v"

  -- add jobs to the scheduler
  addJobs world.newJob 0 (jobs.map (fun job => (job.definition, job.task, job.options)))

  -- start the scheduler
  emit .Start
  emit (.Println "Scheduler started with")

  -- create and start the API server with custom title
  emit (.NewServer port title)

  -- start server in a goroutine
  emit (.Go (Prog.run (serve world port username password)).snd)

  -- wait for interrupt signal to gracefully shutdown
  emit .Notify
  emit .Receive
  -- log.Fatalf in the goroutine ends the whole process, main with it
  if let .error (.exit code) := (Prog.run (serve world port username password)).fst then
    throw (.exit code)
  if !world.signal then
    throw .blocked

  emit (.Println "\nShutting down server...")

  -- shutdown scheduler
  emit .Shutdown
  if world.shutdown.isSome then
    emit (.Printf "Error shutting down scheduler: %v")

  emit (.Println "Server stopped gracefully")

end basic_auth

/-! ## examples/getting_started/main.go -/

namespace getting_started

open gocron http

/-- An entry of the job table. -/
structure JobEntry where
  definition : JobDefinition
  task : Task
  options : List JobOption
deriving DecidableEq, Repr

/-- The job table; now is the value of `time.Now()` when the table is built. -/
def jobs (now : Int) : List JobEntry := [
  ⟨.DurationJob (10 * time.Second),
    NewTask [] [.Println "Running 10-second interval job"] [],
    [.WithName "simple-10s-interval", .WithTags ["interval", "simple"]]⟩,
  ⟨.DurationJob (5 * time.Second),
    NewTask [] [.Println "Running 5-second interval job"] [],
    [.WithName "simple-5s-interval", .WithTags ["interval", "simple"]]⟩,

  ⟨.CronJob "* * * * *" false,
    NewTask [] [.Println "Cron job executed (every minute)"] [],
    [.WithName "cron-every-minute", .WithTags ["cron", "periodic"]]⟩,
  ⟨.DailyJob 1 (NewAtTimes ⟨14, 30, 0⟩ []),
    NewTask [] [.Println "Daily job executed at 2:30 PM"] [],
    [.WithName "daily-afternoon-report", .WithTags ["daily", "report"]]⟩,
  ⟨.WeeklyJob 1 (NewWeekdays .Monday [.Wednesday, .Friday]) (NewAtTimes ⟨9, 0, 0⟩ []),
    NewTask [] [.Println "Weekly job executed (Mon, Wed, Fri at 9:00 AM)"] [],
    [.WithName "weekly-mwf-morning", .WithTags ["weekly", "morning", "report"]]⟩,
  ⟨.DurationJob (12 * time.Second),
    NewTask ["name", "count"]
      [.Printf "Job with parameters: name=%s, count=%d" ["name", "count"]]
      [.str "example-job", .int 42],
    [.WithName "parameterized-job", .WithTags ["parameters", "demo"]]⟩,
  ⟨.DurationJob (8 * time.Second),
    NewTask ["ctx"] [.Printf "Job with context executed, context: %v" ["ctx"]] [],
    [.WithName "context-aware-job", .WithTags ["context", "advanced"]]⟩,
  ⟨.DurationRandomJob (5 * time.Second) (15 * time.Second),
    NewTask [] [.Println "Random interval job executed (5-15 seconds)"] [],
    [.WithName "random-interval-job", .WithTags ["random", "variable"]]⟩,
  ⟨.DurationJob (5 * time.Second),
    NewTask []
      [.Println "Singleton job started",
       .Sleep (8 * time.Second) (8 * time.Second),
       .Println "Singleton job completed"] [],
    [.WithName "singleton-mode-job", .WithTags ["singleton", "long-running"],
     .WithSingletonMode .LimitModeReschedule]⟩,
  ⟨.DurationJob (7 * time.Second),
    NewTask [] [.Println "Limited run job executed"] [],
    [.WithName "limited-run-job", .WithTags ["limited", "demo"], .WithLimitedRuns 3]⟩,
  ⟨.DurationJob (15 * time.Second),
    NewTask []
      [.Println "Job with listeners executed",
       .Sleep (1 * time.Second) (3 * time.Second)] [],
    [.WithName "event-listener-job",
     .WithTags ["events", "monitoring"],
     .WithEventListeners [
       .AfterJobRuns [.Printf "   → AfterJobRuns: %s completed" ["jobName"]],
       .BeforeJobRuns [.Printf "   → BeforeJobRuns: %s starting" ["jobName"]]]]⟩,
  ⟨.OneTimeJob (now + 30 * time.Second),
    NewTask [] [.Println "One-time job executed!"] [],
    [.WithName "one-time-job", .WithTags ["onetime", "scheduled"]]⟩,
  ⟨.DurationJob (20 * time.Second),
    NewTask []
      [.Printf "Processing %d items..." ["items"],
       .Sleep (2 * time.Second) (2 * time.Second),
       .Printf "Successfully processed %d items" ["items"]] [],
    [.WithName "data-processor-job", .WithTags ["processing", "batch"]]⟩,
  ⟨.DurationJob (30 * time.Second),
    NewTask [] [.Printf "Health check: System is %s" ["status"]] [],
    [.WithName "health-check-job", .WithTags ["monitoring", "health"]]⟩]

/-- The statements of the goroutine that serves HTTP. -/
def serve (world : World) (port : Int) : Prog Unit := do
  let addr := ":" ++ toString port
  emit (.Println ("\n" ++ rule))
  emit (.Printf "GoCron UI Server Started")
  emit (.Println rule)
  emit (.Printf "Web UI:       http://localhost%s")
  emit (.Printf "API:          http://localhost%s/api")
  emit (.Printf "WebSocket:    ws://localhost%s/ws")
  emit (.Printf "Total Jobs:   %d")
  emit (.Println (rule ++ "\n"))

  emit (.ListenAndServe addr (.handler Router))
  if world.listen.isSome then
    Fatalf "Server failed to start: %v"
  else
    throw .blocked

/-- The main function. The calls of the serving goroutine are nested in the
`Go` call; main goes on to its receive, where it ends with the process when
the goroutine's `log.Fatalf` exits it. -/
def main (world : World) : Prog Unit := do
  emit .Parse
  let (port, title) ←
    match world.flags with
    | .ok flags => pure flags
    | .error code => throw (.exit code)

  -- create the gocron scheduler
  emit .NewScheduler
  if world.newScheduler.isSome then
    Fatalf "Failed to create scheduler: %v"

  -- add jobs to the scheduler
  addJobs world.newJob 0 ((jobs world.now).map (fun job => (job.definition, job.task, job.options)))

  -- start the scheduler
  emit .Start
  emit (.Println "Scheduler started with")

  -- create and start the API server with custom title
  emit (.NewServer port title)

  -- start server in a goroutine
  emit (.Go (Prog.run (serve world port)).snd)

  -- wait for interrupt signal to gracefully shutdown
  emit .Notify
  emit .Receive
  -- log.Fatalf in the goroutine ends the whole process, main with it
  if let .error (.exit code) := (Prog.run (serve world port)).fst then
    throw (.exit code)
  if !world.signal then
    throw .blocked

  emit (.Println "\nShutting down server...")

  -- shutdown scheduler
  emit .Shutdown
  if world.shutdown.isSome then
    emit (.Printf "Error shutting down scheduler: %v")

  emit (.Println "Server stopped gracefully")

end getting_started

/-! ## What is observed of a handler -/

namespace http

/-- Whether the call is made on the wrapped handler or on the response. -/
def Call.observable : Call → Bool
  | .ServeHTTP _ _ _ => true
  | .HeaderSet _ _ _ => true
  | .Error _ _ _ => true
  | _ => false

/-- The two arguments of the call, when it is a call of `ConstantTimeCompare`. -/
def Call.compared : Call → Option (List Byte × List Byte)
  | .ConstantTimeCompare x y => some (x, y)
  | _ => none

end http

namespace basic_auth

open http

/-- The 401 answer of the middleware: the challenge header, then the error. -/
def challenge (w : ResponseWriter) : List Call :=
  [.HeaderSet w "WWW-Authenticate" "Basic realm=\"restricted\", charset=\"UTF-8\"",
   .Error w "Unauthorized" 401]

/-- The request is forwarded: next is invoked once, with w and r, and
nothing is written to the response. -/
def forwarded (next : Handler) (w : ResponseWriter) (r : Request) (calls : List Call) : Prop :=
  calls.filter Call.observable = [.ServeHTTP next w r]

/-- The request is rejected: next is not invoked, and the response is the
401 answer. -/
def rejected (w : ResponseWriter) (calls : List Call) : Prop :=
  calls.filter Call.observable = challenge w

instance (next : Handler) (w : ResponseWriter) (r : Request) (calls : List Call) :
    Decidable (forwarded next w r calls) := by
  unfold forwarded; infer_instance

instance (w : ResponseWriter) (calls : List Call) : Decidable (rejected w calls) := by
  unfold rejected; infer_instance

/-- The credentials the middleware accepts: Basic credentials are present,
and the digests of username and password equal the digests of the expected
ones. -/
def accepts (expectedUsername expectedPassword : GoString) (r : Request) : Prop :=
  r.BasicAuth.2.2 = true ∧
    sha256.Sum256 r.BasicAuth.1 = sha256.Sum256 expectedUsername ∧
    sha256.Sum256 r.BasicAuth.2.1 = sha256.Sum256 expectedPassword

instance (expectedUsername expectedPassword : GoString) (r : Request) :
    Decidable (accepts expectedUsername expectedPassword r) := by
  unfold accepts; infer_instance

end basic_auth

/-! ## What is observed of a main function -/

/-- The arguments of the call, when it is a call of `scheduler.NewJob`. -/
def Event.newJob : Event → Option (gocron.JobDefinition × gocron.Task × List gocron.JobOption)
  | .NewJob definition task options => some (definition, task, options)
  | _ => none

/-- Whether the call logs the error of a job that could not be created. -/
def Event.isJobError : Event → Bool
  | .Printf format => format == "Error creating job: %v"
  | _ => false

/-- Whether the call is `scheduler.Start()`. -/
def Event.isStart : Event → Bool
  | .Start => true
  | _ => false

/-- The environment with one variable set to a value, or unset. -/
def setenv (env : String → Option GoString) (key : String) (value : Option GoString) :
    String → Option GoString :=
  fun k => if k = key then value else env k

/-- The variable is unset, or set to the empty string. -/
def unsetOrEmpty (env : String → Option GoString) (key : String) : Prop :=
  env key = none ∨ env key = some []

namespace basic_auth

/-- The guard on the values alone, without the presence flags: the username
is empty or the password is empty. -/
def guardByValue (username password : GoString) : Bool :=
  username == [] || password == []

end basic_auth

/-- The calls a main makes after it has reached its receive: none when the
`log.Fatalf` of the goroutine ends the process or no signal arrives, the
shutdown calls when a signal does. -/
def lastCalls (world : World) : List Event :=
  if world.listen.isSome then []
  else if world.signal then
    [Event.Println "\nShutting down server...", .Shutdown] ++
      (if world.shutdown.isSome then [Event.Printf "Error shutting down scheduler: %v"]
        else []) ++ [.Println "Server stopped gracefully"]
  else []

/-! ## Sample requests -/

namespace sample

open http

/-- A GET of the UI with the credentials alice:secret. -/
def getRoot : Request :=
  ⟨"GET", "/", [("Authorization", [ascii "Basic YWxpY2U6c2VjcmV0"])], []⟩

/-- A POST to the API with the same credentials, other header fields and a body. -/
def postApi : Request :=
  ⟨"POST", "/api/jobs/1/run",
    [("Accept", [ascii "application/json"]),
     ("Authorization", [ascii "Basic YWxpY2U6c2VjcmV0"]),
     ("Content-Length", [ascii "2"])],
    ascii "[]"⟩

/-- A GET of the websocket with the credentials alice:wrong. -/
def getWrongPassword : Request :=
  ⟨"GET", "/ws", [("Authorization", [ascii "Basic YWxpY2U6d3Jvbmc="])], []⟩

/-- The response writer of a sample request. -/
def w : ResponseWriter := ⟨1⟩

end sample

namespace sample

/-- A world in which both credentials are set, the flags parse, the scheduler
is created, the second NewJob call fails and a signal arrives. -/
def world : World where
  now := 0
  env := fun key =>
    if key = "GOCRON_UI_USERNAME" then some (ascii "alice")
    else if key = "GOCRON_UI_PASSWORD" then some (ascii "secret")
    else none
  flags := .ok (8080, "GoCron Scheduler")
  newScheduler := none
  newJob := fun k => if k = 1 then some "duplicate name" else none
  listen := none
  signal := true
  shutdown := none

/-- The same world with a listener that fails: the port is taken. -/
def worldPortTaken : World :=
  { world with listen := some "listen tcp :8080: bind: address already in use" }

/-- The same world with the password set to the empty string. -/
def worldEmptyPassword : World :=
  { world with env := setenv world.env "GOCRON_UI_PASSWORD" (some []) }

end sample

/-! ## A family of passwords with more members than there are digests -/

namespace family

open http

/-- The three bytes a bit stands for. -/
def bytes (b : Bool) : GoString := [0, 0, if b then 1 else 0]

/-- The base64 quantum of the three bytes of a bit. -/
def quantum (b : Bool) : GoString := if b then ascii "AAAB" else ascii "AAAA"

/-- The password of a list of bits: `aa`, then three bytes per bit. -/
def password (bits : List Bool) : GoString := 97 :: 97 :: bits.flatMap bytes

/-- The request that carries the empty username and the password of the
bits: its Authorization header is `Basic `, then the base64 of `:aa`, then
the quantum of every bit. -/
def request (bits : List Bool) : Request :=
  ⟨"GET", "/", [("Authorization", [ascii "Basic OmFh" ++ bits.flatMap quantum])], []⟩

end family

/-! ## The scheduler of the specification: triggers

The scheduler that runs the jobs is not part of the repository; the
definitions of this section and the next follow the specification. Instants
are nanoseconds since the Unix epoch, in UTC. -/

namespace spec

open time

/-- Modelled from the spec: the Trigger of section 3, whose implementation
(the job definitions of the scheduler library) is missing: a tagged variant,
one of FixedInterval(duration), RandomInterval(min, max), Cron(expression,
enable_seconds), Calendar(interval_units, days_of_week or none,
times_of_day) and OneTime(instant). -/
inductive Trigger
  | FixedInterval (duration : Int)
  | RandomInterval (min max : Int)
  | Cron (expression : String) (enable_seconds : Bool)
  | Calendar (interval_units : Nat) (days_of_week : Option (List Weekday))
      (times_of_day : List gocron.AtTime)
  | OneTime (instant : Int)
deriving DecidableEq, Repr

/-- Modelled from the spec: the Trigger a job definition of the examples
stands for; the library that maps one to the other is missing. DurationJob
is FixedInterval, DurationRandomJob is RandomInterval, CronJob is Cron,
DailyJob is Calendar without a weekday filter ("daily" is the degenerate
case), WeeklyJob is Calendar with one, OneTimeJob is OneTime. -/
def Trigger.ofDefinition : gocron.JobDefinition → Trigger
  | .DurationJob duration => .FixedInterval duration
  | .DurationRandomJob minDuration maxDuration => .RandomInterval minDuration maxDuration
  | .CronJob crontab withSeconds => .Cron crontab withSeconds
  | .DailyJob interval atTimes => .Calendar interval none atTimes
  | .WeeklyJob interval daysOfTheWeek atTimes => .Calendar interval (some daysOfTheWeek) atTimes
  | .OneTimeJob startDateTime => .OneTime startDateTime

/-- One minute. -/
def Minute : Int := 60 * Second

/-- One day. -/
def Day : Int := 86400 * Second

/-- The number of the day an instant falls on, counted from the epoch. -/
def dayOf (t : Int) : Int := t / Day

/-- The number of a weekday, Sunday being 0. -/
def weekdayNumber : Weekday → Int
  | .Sunday => 0
  | .Monday => 1
  | .Tuesday => 2
  | .Wednesday => 3
  | .Thursday => 4
  | .Friday => 5
  | .Saturday => 6

/-- The number of the weekday of a day; day 0, the first of January 1970, is a Thursday. -/
def weekdayOf (day : Int) : Int := (day + 4) % 7

/-- The offset of a time of day from midnight. -/
def offsetOf (a : gocron.AtTime) : Int :=
  ((a.hours : Int) * 3600 + (a.minutes : Int) * 60 + (a.seconds : Int)) * Second

/-- The earliest of a list of instants, if there is one. -/
def earliest : List Int → Option Int
  | [] => none
  | t :: rest =>
      match earliest rest with
      | none => some t
      | some u => some (if t ≤ u then t else u)

/-- Modelled from the spec: the candidate days of the Calendar evaluation of
section 4.1, missing with the scheduler library, seen from day d: without
a weekday filter, d itself and the day one stride later; with a filter, the
matching days of the week of d and of the week one stride later. -/
def calendarDays (interval_units : Nat) (days_of_week : Option (List Weekday)) (d : Int) :
    List Int :=
  match days_of_week with
  | none => [d, d + interval_units]
  | some weekdays =>
      let sunday := d - weekdayOf d
      ((List.range 7).map (fun i => sunday + (i : Int)) ++
        (List.range 7).map (fun i => sunday + 7 * (interval_units : Int) + (i : Int))).filter
        (fun day => weekdays.any (fun w => weekdayNumber w == weekdayOf day))

/-- The year, month and day of the month of a day counted from the epoch
(proleptic Gregorian calendar). -/
def civil (day : Int) : Int × Int × Int :=
  let z := day + 719468
  let era := z / 146097
  let doe := z - era * 146097
  let yoe := (doe - doe / 1460 + doe / 36524 - doe / 146096) / 365
  let doy := doe - (365 * yoe + yoe / 4 - yoe / 100)
  let mp := (5 * doy + 2) / 153
  let d := doy - (153 * mp + 2) / 5 + 1
  let m := if mp < 10 then mp + 3 else mp - 9
  (yoe + era * 400 + (if m ≤ 2 then 1 else 0), m, d)

namespace cron

/-- The pieces of a list of characters between the separators. -/
def split (sep : Char → Bool) : List Char → List (List Char)
  | [] => [[]]
  | c :: rest =>
      if sep c then [] :: split sep rest
      else
        match split sep rest with
        | [] => [[c]]
        | piece :: pieces => (c :: piece) :: pieces

/-- The number a run of decimal digits writes, most significant first. -/
def digits : Nat → List Char → Option Nat
  | n, [] => some n
  | n, c :: rest => if c.isDigit then digits (n * 10 + (c.toNat - 48)) rest else none

/-- A decimal number: at least one digit, and digits only. -/
def number (s : List Char) : Option Nat := if s = [] then none else digits 0 s

/-- One item of a field: the values lo, lo + step, ... up to hi, and whether
the item is written with a star. -/
structure Item where
  lo : Nat
  hi : Nat
  step : Nat
  star : Bool
deriving DecidableEq, Repr

/-- A range: a star (all values from min to max), one value, or lo-hi. -/
def range (min max : Nat) (s : List Char) : Option Item :=
  if s = ['*'] then some ⟨min, max, 1, true⟩
  else
    match split (fun c => c = '-') s with
    | [a] => (number a).map (fun n => ⟨n, n, 1, false⟩)
    | [a, b] =>
        match number a, number b with
        | some lo, some hi => some ⟨lo, hi, 1, false⟩
        | _, _ => none
    | _ => none

/-- An item: a range, or a range and a step after a slash; a single value
with a step runs up to max. The values must lie between min and max. -/
def item (min max : Nat) (s : List Char) : Option Item :=
  let parsed : Option Item :=
    match split (fun c => c = '/') s with
    | [r] => range min max r
    | [r, st] =>
        match range min max r, number st with
        | some i, some n =>
            some ⟨i.lo, if i.lo = i.hi ∧ ¬ i.star then max else i.hi, n, i.star⟩
        | _, _ => none
    | _ => none
  match parsed with
  | some i => if min ≤ i.lo ∧ i.lo ≤ i.hi ∧ i.hi ≤ max ∧ 1 ≤ i.step then some i else none
  | none => none

/-- All the values of a list, if every one is there. -/
def all {α : Type} : List (Option α) → Option (List α)
  | [] => some []
  | none :: _ => none
  | some a :: rest => (all rest).map (fun l => a :: l)

/-- A field: items separated by commas. -/
def field (min max : Nat) (s : List Char) : Option (List Item) :=
  all ((split (fun c => c = ',') s).map (item min max))

/-- A parsed expression: the fields for second, minute, hour, day of the
month, month and day of the week. -/
structure Schedule where
  second : List Item
  minute : List Item
  hour : List Item
  dom : List Item
  month : List Item
  dow : List Item
deriving DecidableEq, Repr

/-- The fields of an expression: the pieces between blanks. -/
def fields (expression : String) : List (List Char) :=
  (split (fun c => c = ' ' ∨ c = '\t') expression.toList).filter (fun piece => piece ≠ [])

/-- Modelled from the spec: the parsing of a Cron expression ("standard 5-
or 6-field cron syntax", sections 3 and 4.1), missing with the scheduler
library: five fields (minute, hour, day of the month,
month, day of the week), or six with the seconds in front when seconds are
enabled; none when the expression is malformed. -/
def parse (expression : String) (enable_seconds : Bool) : Option Schedule :=
  match enable_seconds, fields expression with
  | false, [mi, h, d, mo, w] =>
      match field 0 59 mi, field 0 23 h, field 1 31 d, field 1 12 mo, field 0 6 w with
      | some mi, some h, some d, some mo, some w => some ⟨[⟨0, 0, 1, false⟩], mi, h, d, mo, w⟩
      | _, _, _, _, _ => none
  | true, [s, mi, h, d, mo, w] =>
      match field 0 59 s, field 0 59 mi, field 0 23 h, field 1 31 d, field 1 12 mo,
        field 0 6 w with
      | some s, some mi, some h, some d, some mo, some w => some ⟨s, mi, h, d, mo, w⟩
      | _, _, _, _, _, _ => none
  | _, _ => none

/-- Whether a value is one of the values of a field. -/
def has (f : List Item) (v : Int) : Bool :=
  f.any (fun i => decide ((i.lo : Int) ≤ v ∧ v ≤ (i.hi : Int) ∧ (v - (i.lo : Int)) % (i.step : Int) = 0))

/-- Whether a field is written with a star. -/
def starred (f : List Item) : Bool := f.any (fun i => i.star)

/-- Modelled from the spec: whether a Cron schedule fires at an instant, by
the standard cron rules; missing with the scheduler library. When both the
day of the month and the day of the week are restricted, either may match. -/
def fires (s : Schedule) (t : Int) : Bool :=
  let day := dayOf t
  let inDay := t - day * Day
  let date := civil day
  inDay % Second = 0 ∧
    has s.second (inDay / Second % 60) ∧ has s.minute (inDay / Minute % 60) ∧
    has s.hour (inDay / (60 * Minute)) ∧ has s.month date.2.1 ∧
    (if starred s.dom ∨ starred s.dow then has s.dom date.2.2 ∧ has s.dow (weekdayOf day)
     else has s.dom date.2.2 ∨ has s.dow (weekdayOf day))

/-- The first instant from t on, in steps, at which the schedule fires,
looking n steps ahead. -/
def search (s : Schedule) (step : Int) : Nat → Int → Option Int
  | 0, _ => none
  | n + 1, t => if fires s t then some t else search s step n (t + step)

/-- Modelled from the spec: the evaluation of a Cron trigger (section 4.1),
missing with the scheduler library: the next instant strictly after t at
which the schedule fires, looking eight years ahead: on a whole second when seconds are enabled, on a whole
minute otherwise. -/
def next (s : Schedule) (enable_seconds : Bool) (t : Int) : Option Int :=
  if enable_seconds then search s Second (8 * 366 * 86400) ((t / Second + 1) * Second)
  else search s Minute (8 * 366 * 1440) ((t / Minute + 1) * Minute)

end cron

/-- Modelled from the spec: next_run_at of section 4.1, the evaluation of a
trigger, which is missing with the scheduler library. The argument t is the
time the next run is computed from (the firing time, or the creation time
before the first run); uniform_random min max t is the draw from [min, max]
for RandomInterval. FixedInterval gives t + duration, RandomInterval t plus
the draw, Cron the next instant after t the expression matches, Calendar
the earliest (day, time) strictly after t that passes the weekday filter and
the stride, OneTime the instant while it lies ahead. None means that there
is no next run. -/
def next_run_at (uniform_random : Int → Int → Int → Int) :
    Trigger → Int → Option Int
  | .FixedInterval duration, t => some (t + duration)
  | .RandomInterval min max, t => some (t + uniform_random min max t)
  | .Cron expression enable_seconds, t =>
      match cron.parse expression enable_seconds with
      | some schedule => cron.next schedule enable_seconds t
      | none => none
  | .Calendar interval_units days_of_week times_of_day, t =>
      earliest (((calendarDays interval_units days_of_week (dayOf t)).flatMap
        (fun day => times_of_day.map (fun a => day * Day + offsetOf a))).filter
        (fun u => t < u))
  | .OneTime instant, t => if t < instant then some instant else none

/-- Modelled from the spec: the validation of a trigger at Job creation
(section 3, section 4.1), which is missing with the scheduler library. A
FixedInterval needs a positive duration; a RandomInterval 0 < min < max; a
Cron an expression that parses, with five fields, or six when seconds are
enabled; a Calendar an interval of at least 1, at least one time of day,
every time with hour < 24, minute < 60 and second < 60, and a weekday filter
that is not empty; a OneTime is not held to the invariant. -/
def Trigger.valid : Trigger → Bool
  | .FixedInterval duration => 0 < duration
  | .RandomInterval min max => 0 < min ∧ min < max
  | .Cron expression enable_seconds =>
      (cron.fields expression).length = (if enable_seconds then 6 else 5) ∧
        (cron.parse expression enable_seconds).isSome
  | .Calendar interval_units days_of_week times_of_day =>
      1 ≤ interval_units ∧ times_of_day ≠ [] ∧
        times_of_day.all (fun a => a.hours < 24 ∧ a.minutes < 60 ∧ a.seconds < 60) ∧
        days_of_week ≠ some []
  | .OneTime _ => true

end spec

namespace spec.cron

/-- The schedule of the expression `* * * * *`: every minute, at second 0. -/
def everyMinute : Schedule :=
  ⟨[⟨0, 0, 1, false⟩], [⟨0, 59, 1, true⟩], [⟨0, 23, 1, true⟩], [⟨1, 31, 1, true⟩],
    [⟨1, 12, 1, true⟩], [⟨0, 6, 1, true⟩]⟩

end spec.cron
/-! ## The scheduler of the specification: jobs, executions and the dispatch loop -/

namespace spec

open time

/-- Modelled from the spec: the singleton_mode of a Job (section 3). -/
inductive SingletonMode
  | None
  | SkipIfRunning
  | RescheduleIfRunning
deriving DecidableEq, Repr

/-- Modelled from the spec: the Job of section 3, whose implementation is
missing with the scheduler library: identity (id, name), trigger, task, tags,
singleton_mode, max_runs (none when unbounded), the counter runs_completed
and next_run_at. The listeners are left out: those of the tables only log,
so that none fails and none changes whether or when a task runs. -/
structure Job where
  id : Nat
  name : String
  trigger : Trigger
  task : gocron.Task
  tags : List String
  singleton_mode : SingletonMode
  max_runs : Option Nat
  runs_completed : Nat
  next_run_at : Option Int
deriving DecidableEq, Repr

/-- Modelled from the spec: an in-flight execution (glossary), one that has
started but not yet completed: the id of its job, the firing time at which
it started, and the time at which it completes. -/
structure Execution where
  job : Nat
  started : Int
  completes : Int
deriving DecidableEq, Repr

/-- Modelled from the spec: the Scheduler of section 3, missing with the
scheduler library: the clock, the jobs created so far in order of creation,
the in-flight executions in order of dispatch, and the record of the
executions started (job id and firing time). -/
structure Scheduler where
  now : Int
  jobs : List Job
  in_flight : List Execution
  executions : List (Nat × Int)
deriving DecidableEq, Repr

/-- The time a sleep between min and max lasts when it starts at time t: min
when the two are equal, the draw uniform_random min max t otherwise; none
when that is not positive, for which `time.Sleep` returns at once. -/
def sleep (uniform_random : Int → Int → Int → Int) (t min max : Int) : Int :=
  if min = max then (if 0 ≤ min then min else 0)
  else if 0 ≤ uniform_random min max t then uniform_random min max t
  else 0

/-- The time the statements of a task take when they start at time t: the
time of its sleeps, printing taking none. -/
def duration (uniform_random : Int → Int → Int → Int) (t : Int) : List gocron.Stmt → Int
  | [] => 0
  | .Sleep min max :: rest => sleep uniform_random t min max + duration uniform_random t rest
  | _ :: rest => duration uniform_random t rest

/-- Modelled from the spec: the end of the lifecycle of a Job (section 3):
it is destroyed when runs_completed == max_runs, or when the Trigger is
OneTime and has fired once, that is when an execution of it is on record. -/
def Scheduler.destroyed (s : Scheduler) (j : Job) : Bool :=
  j.max_runs == some j.runs_completed ||
    (match j.trigger with
     | .OneTime _ => s.executions.any (fun e => e.1 == j.id)
     | _ => false)

/-- Modelled from the spec: the read-only listing Jobs() of section 6: the
jobs of the active set, that is those not destroyed, in order of creation. -/
def Scheduler.Jobs (s : Scheduler) : List Job := s.jobs.filter (fun j => !s.destroyed j)

/-- Modelled from the spec: whether the job is running, that is whether an
execution of it is in flight (section 4.2). -/
def Scheduler.busy (s : Scheduler) (id : Nat) : Bool :=
  s.in_flight.any (fun e => e.job == id)

/-- The name a list of options gives a job. -/
def nameOf : List gocron.JobOption → String
  | [] => ""
  | .WithName name :: _ => name
  | _ :: rest => nameOf rest

/-- The tags a list of options gives a job. -/
def tagsOf : List gocron.JobOption → List String
  | [] => []
  | .WithTags tags :: _ => tags
  | _ :: rest => tagsOf rest

/-- The singleton mode a list of options gives a job: LimitModeReschedule
is RescheduleIfRunning. -/
def modeOf : List gocron.JobOption → SingletonMode
  | [] => .None
  | .WithSingletonMode .LimitModeReschedule :: _ => .RescheduleIfRunning
  | _ :: rest => modeOf rest

/-- The run budget a list of options gives a job. -/
def maxRunsOf : List gocron.JobOption → Option Nat
  | [] => none
  | .WithLimitedRuns limit :: _ => some limit
  | _ :: rest => maxRunsOf rest

/-- Modelled from the spec: NewJob of section 6, missing with the scheduler
library: validates the trigger, gives the job the next free id, its task and
its options, computes the initial next_run_at from the current time, and
adds the job; an invalid trigger is a definition error and the job is not
added. -/
def Scheduler.NewJob (uniform_random : Int → Int → Int → Int) (s : Scheduler)
    (definition : gocron.JobDefinition) (task : gocron.Task) (options : List gocron.JobOption) :
    Except String Scheduler :=
  let trigger := Trigger.ofDefinition definition
  if trigger.valid then
    .ok { s with jobs := s.jobs ++ [{
      id := s.jobs.length
      name := nameOf options
      trigger := trigger
      task := task
      tags := tagsOf options
      singleton_mode := modeOf options
      max_runs := maxRunsOf options
      runs_completed := 0
      next_run_at := next_run_at uniform_random trigger s.now }] }
  else .error "invalid trigger"

/-- Modelled from the spec: what the loop of the mains leaves in the
scheduler, whose NewJob is missing: the entries of a job table are
registered in order, and an entry that NewJob rejects is skipped. -/
def Scheduler.register (uniform_random : Int → Int → Int → Int) :
    Scheduler → List (gocron.JobDefinition × gocron.Task × List gocron.JobOption) → Scheduler
  | s, [] => s
  | s, (definition, task, options) :: rest =>
      match s.NewJob uniform_random definition task options with
      | .ok s1 => Scheduler.register uniform_random s1 rest
      | .error _ => Scheduler.register uniform_random s rest

/-- Modelled from the spec: one completed execution of a job (section 4.3):
completion consumes the budget, so runs_completed grows by one; a job that
is destroyed has left the active set and is not counted any more. -/
def Scheduler.count (s : Scheduler) (j : Job) : Job :=
  if s.destroyed j then j else { j with runs_completed := j.runs_completed + 1 }

/-- Modelled from the spec: the completions the dispatch loop is told of by
time t (section 4.3, section 9): every in-flight execution that completes
at t or before leaves the in-flight set and is counted for its job, one
after the other. -/
def Scheduler.completions (t : Int) (s : Scheduler) : Scheduler :=
  { s with
    jobs := s.jobs.map (fun j => Nat.iterate s.count
      (s.in_flight.filter (fun e => e.job == j.id && decide (e.completes ≤ t))).length j)
    in_flight := s.in_flight.filter (fun e => decide (t < e.completes)) }

/-- Modelled from the spec: whether a job is due at time t (section 4.5):
it is in the active set and its next_run_at <= t. -/
def Scheduler.due (s : Scheduler) (t : Int) (j : Job) : Bool :=
  !s.destroyed j &&
    (match j.next_run_at with
     | some a => decide (a ≤ t)
     | none => false)

/-- Modelled from the spec: what the concurrency policy decides for a due
job (section 4.2): execute it now, skip it, or defer it. -/
inductive Decision
  | execute
  | skip
  | defer
deriving DecidableEq, Repr

/-- Modelled from the spec: the concurrency policy of section 4.2. None
always executes; SkipIfRunning skips and RescheduleIfRunning defers when a
previous execution of the job is still in flight, and both execute when none
is. -/
def Scheduler.policy (s : Scheduler) (j : Job) : Decision :=
  match j.singleton_mode with
  | .None => .execute
  | .SkipIfRunning => if s.busy j.id then .skip else .execute
  | .RescheduleIfRunning => if s.busy j.id then .defer else .execute

/-- Whether the job is due at time t and the policy executes it. -/
def Scheduler.executes (s : Scheduler) (t : Int) (j : Job) : Bool :=
  s.due t j && s.policy j == .execute

/-- Modelled from the spec: the firings of the dispatch loop at time t
(section 4.2, section 4.5). Every job whose next_run_at <= t is put to the
policy. A job that executes starts an execution, which is recorded and in
flight until the task is over, and its next_run_at is recomputed from the
trigger with the firing time as last run. A skipped firing is a missed tick:
nothing runs, the firing is not tried again, and the job is next due at the
next time the trigger gives; section 4.2 says of RescheduleIfRunning alone
that next_run_at is not advanced. A deferred firing leaves next_run_at as it
is, so that the job is still due when the loop next evaluates it. -/
def Scheduler.fire (uniform_random : Int → Int → Int → Int) (t : Int) (s : Scheduler) :
    Scheduler :=
  { now := t
    jobs := s.jobs.map (fun j =>
      if s.due t j then
        match s.policy j with
        | .execute => { j with next_run_at := next_run_at uniform_random j.trigger t }
        | .skip => { j with next_run_at := next_run_at uniform_random j.trigger t }
        | .defer => j
      else j)
    in_flight := s.in_flight ++ (s.jobs.filter (s.executes t)).map
      (fun j => ⟨j.id, t, t + duration uniform_random t j.task.body⟩)
    executions := s.executions ++ (s.jobs.filter (s.executes t)).map (fun j => (j.id, t)) }

/-- Modelled from the spec: what the dispatch loop does when it wakes at
time t (section 4.5): it takes in the completions up to t, fires the due
jobs, and takes in the completions of the executions that took no time. -/
def Scheduler.dispatch (uniform_random : Int → Int → Int → Int) (t : Int)
    (s : Scheduler) : Scheduler :=
  ((s.completions t).fire uniform_random t).completions t

/-- Modelled from the spec: whether the firing of the job is deferred
(section 4.2): the job is in RescheduleIfRunning mode, it was due when the
loop last evaluated it and an execution of it is in flight. The loop tries
it again at every tick, to no effect until that execution completes. -/
def Scheduler.deferred (s : Scheduler) (j : Job) : Bool :=
  j.singleton_mode == .RescheduleIfRunning && s.busy j.id &&
    (match j.next_run_at with
     | some a => decide (a ≤ s.now)
     | none => false)

/-- Modelled from the spec: the instant the dispatch loop sleeps until
(section 4.5): the minimum next_run_at across the jobs of the active set,
or the completion of an in-flight execution if that comes first, which the
execution reports back to the loop (section 9). A deferred job does not wake
the loop before its execution completes. -/
def Scheduler.wake (s : Scheduler) : Option Int :=
  earliest ((s.Jobs.filter (fun j => !s.deferred j)).filterMap (fun j => j.next_run_at) ++
    s.in_flight.map (fun e => e.completes))

/-- Modelled from the spec: the dispatch loop of section 4.5, for at most n
wake-ups and up to the time T: it sleeps until the next instant to wake at
and dispatches; it stops when there is nothing left to wait for or the next
instant lies after T. -/
def Scheduler.loop (uniform_random : Int → Int → Int → Int) (T : Int) :
    Nat → Scheduler → Scheduler
  | 0, s => s
  | n + 1, s =>
      match s.wake with
      | none => s
      | some t =>
          if t ≤ T then Scheduler.loop uniform_random T n (s.dispatch uniform_random t)
          else s

/-- Modelled from the spec: the scheduler in the Running state from its
current state to the time T (section 4.5). Every wake-up is later than the
one before, by at least one nanosecond, so the wake-ups allowed are enough. -/
def Scheduler.runUntil (uniform_random : Int → Int → Int → Int) (T : Int)
    (s : Scheduler) : Scheduler :=
  match s.wake with
  | none => s
  | some t => Scheduler.loop uniform_random T ((T - t).toNat + 1) s

/-- The firing times of the executions of the job with the given id, in
order. -/
def Scheduler.runsAt (s : Scheduler) (id : Nat) : List Int :=
  (s.executions.filter (fun e => e.1 == id)).map (fun e => e.2)

/-- The number of executions of the job with the given id. -/
def Scheduler.runs (s : Scheduler) (id : Nat) : Nat := (s.runsAt id).length

/-- Modelled from the spec: the time at which the trigger next fires after
the time t (section 4.1); t itself when it does not fire again. -/
def tick (uniform_random : Int → Int → Int → Int) (trigger : Trigger) (t : Int) : Int :=
  (next_run_at uniform_random trigger t).getD t

/-- Modelled from the spec: the first of the firing times u, the next after
u, the next after that and so on, that is not before c; the number bounds
the firing times tried. -/
def skipTo (uniform_random : Int → Int → Int → Int) (trigger : Trigger) (c : Int) :
    Nat → Int → Int
  | 0, u => u
  | fuel + 1, u =>
      if c ≤ u then u else skipTo uniform_random trigger c fuel (tick uniform_random trigger u)

/-- Modelled from the spec: the time at which a job starts its next
execution, when the one before completes at c and the job is next due at u,
by its singleton mode (section 4.2): without one, at u; in SkipIfRunning
mode, at the first firing time from u on that is not before c, the earlier
ones being missed ticks; in RescheduleIfRunning mode, at u or, when the job
is still running then, at c. -/
def resume (uniform_random : Int → Int → Int → Int) (mode : SingletonMode) (trigger : Trigger)
    (c u : Int) : Int :=
  match mode with
  | .None => u
  | .SkipIfRunning => skipTo uniform_random trigger c (c - u).toNat u
  | .RescheduleIfRunning => if u ≤ c then c else u

/-- Modelled from the spec: the time at which the k-th execution of a job
starts, counting from 0, when the first run is due at a and no two
executions overlap. -/
def startTime (uniform_random : Int → Int → Int → Int) (mode : SingletonMode)
    (trigger : Trigger) (task : gocron.Task) (a : Int) : Nat → Int
  | 0 => a
  | k + 1 =>
      resume uniform_random mode trigger
        (startTime uniform_random mode trigger task a k +
          duration uniform_random (startTime uniform_random mode trigger task a k) task.body)
        (tick uniform_random trigger (startTime uniform_random mode trigger task a k))

/-- Modelled from the spec: the time at which the k-th execution of a job
completes. -/
def completion (uniform_random : Int → Int → Int → Int) (mode : SingletonMode)
    (trigger : Trigger) (task : gocron.Task) (a : Int) (k : Nat) : Int :=
  startTime uniform_random mode trigger task a k +
    duration uniform_random (startTime uniform_random mode trigger task a k) task.body

end spec

namespace sample

/-- The draw that always gives the lower bound. -/
def lowest : Int → Int → Int → Int := fun min _ _ => min

/-- A scheduler created at time 0 in which one job is registered: a OneTime
trigger at 30 seconds, with max_runs = 2. -/
def oneTimeTwice : spec.Scheduler :=
  spec.Scheduler.register lowest ⟨0, [], [], []⟩
    [(.OneTimeJob (30 * time.Second), gocron.NewTask [] [.Println "One-time job executed!"] [],
      [.WithName "one-time-twice", .WithLimitedRuns 2])]

/-- A scheduler created at time 0 in which one job is registered: every
second, a task that takes 5 seconds, with max_runs = 3 and no singleton
mode. -/
def overlapping : spec.Scheduler :=
  spec.Scheduler.register lowest ⟨0, [], [], []⟩
    [(.DurationJob (1 * time.Second),
      gocron.NewTask [] [.Println "started", .Sleep (5 * time.Second) (5 * time.Second)] [],
      [.WithName "overlapping", .WithLimitedRuns 3])]

/-- A scheduler created at time 0 in which one job is registered: every 5
seconds, the task of the singleton-mode-job of getting_started, which takes 8
seconds, in the same singleton mode, with max_runs = 3. -/
def singleton : spec.Scheduler :=
  spec.Scheduler.register lowest ⟨0, [], [], []⟩
    [(.DurationJob (5 * time.Second),
      gocron.NewTask []
        [.Println "Singleton job started",
         .Sleep (8 * time.Second) (8 * time.Second),
         .Println "Singleton job completed"] [],
      [.WithName "singleton-mode-job", .WithSingletonMode .LimitModeReschedule,
       .WithLimitedRuns 3])]

end sample

/-! ## Invariants of the dispatch loop -/

namespace spec

/-- The ids of the jobs are pairwise different, and every trigger keeps
the invariant of section 3: a next run time it gives is strictly greater
than the time it is computed from. -/
def Scheduler.WellFormed (uniform_random : Int → Int → Int → Int) (s : Scheduler) : Prop :=
  (s.jobs.map (fun j => j.id)).Nodup ∧
    ∀ j ∈ s.jobs, ∀ t u, next_run_at uniform_random j.trigger t = some u → t < u

/-- The trigger recurs: from every time it gives a next run time. -/
def Trigger.recurring (uniform_random : Int → Int → Int → Int) (trigger : Trigger) : Prop :=
  ∀ t, ∃ u, next_run_at uniform_random trigger t = some u

/-- The scheduler holds the job with the given id, mode, trigger, task and
max_runs = n after k executions, which started at its first k start times
and are recorded after the earlier ones; the job is next due at u; the last
of the k executions is in flight when busy is set, and all of them are
completed and counted when it is not. -/
def Scheduler.Tracks (uniform_random : Int → Int → Int → Int) (s : Scheduler) (id : Nat)
    (mode : SingletonMode) (trigger : Trigger) (task : gocron.Task) (n : Nat) (a : Int)
    (earlier : List Int) (k : Nat) (busy : Bool) (u : Int) : Prop :=
  ∃ j ∈ s.jobs, j.id = id ∧ j.singleton_mode = mode ∧ j.trigger = trigger ∧ j.task = task ∧
    j.max_runs = some n ∧ j.next_run_at = some u ∧
    j.runs_completed + (if busy then 1 else 0) = k ∧ k ≤ n ∧
    s.in_flight.filter (fun e => e.job == id) =
      (if busy then [⟨id, startTime uniform_random mode trigger task a (k - 1),
        completion uniform_random mode trigger task a (k - 1)⟩] else []) ∧
    s.runsAt id = earlier ++ (List.range k).map (startTime uniform_random mode trigger task a)

/-- The time u at which a tracked job is next due fits its start times: while
its last execution is in flight, the next one starts where the mode resumes
from u; while none is and the budget is not used up, it starts at u. -/
def Pending (uniform_random : Int → Int → Int → Int) (mode : SingletonMode) (trigger : Trigger)
    (task : gocron.Task) (n : Nat) (a : Int) (k : Nat) (busy : Bool) (u : Int) : Prop :=
  if busy then
    startTime uniform_random mode trigger task a k =
      resume uniform_random mode trigger (completion uniform_random mode trigger task a (k - 1)) u
  else k < n → u = startTime uniform_random mode trigger task a k

end spec

namespace spec

/-- The jobs NewJob makes of the entries of a table whose triggers are all
valid, at time now, with the ids from k on. -/
def admitted (uniform_random : Int → Int → Int → Int) (now : Int) :
    Nat → List (gocron.JobDefinition × gocron.Task × List gocron.JobOption) → List Job
  | _, [] => []
  | k, (definition, task, options) :: rest =>
      { id := k
        name := nameOf options
        trigger := Trigger.ofDefinition definition
        task := task
        tags := tagsOf options
        singleton_mode := modeOf options
        max_runs := maxRunsOf options
        runs_completed := 0
        next_run_at := next_run_at uniform_random (Trigger.ofDefinition definition) now } ::
        admitted uniform_random now (k + 1) rest

/-- Modelled from the spec: the scheduler of the main of getting_started
when Start is called, which the scheduler library would build: created at
time now, with every entry of the job table registered. -/
def started (uniform_random : Int → Int → Int → Int) (now : Int) : Scheduler :=
  Scheduler.register uniform_random ⟨now, [], [], []⟩
    ((getting_started.jobs now).map (fun job => (job.definition, job.task, job.options)))

end spec

/-! ## Facts about the library functions -/

namespace sha256

theorem be32_length (x : Nat) : (be32 x).length = 4 := rfl

theorem Sum256_length (data : List Byte) : (Sum256 data).length = Size := by
  simp [Sum256, be32_length, Size]

end sha256

namespace subtle

theorem ConstantTimeByteEq_zero (v : Nat) (hv : v < 256) :
    ConstantTimeByteEq v 0 = if v = 0 then 1 else 0 := by
  unfold ConstantTimeByteEq
  rcases Nat.eq_zero_or_pos v with h | h
  · subst h; decide
  · have h1 : (v ^^^ 0) = v := by simp
    rw [h1, if_neg (by omega)]
    have h2 : (v + 2 ^ 32 - 1) % 2 ^ 32 = v - 1 := by
      have : v + 2 ^ 32 - 1 = (v - 1) + 2 ^ 32 := by omega
      rw [this, Nat.add_mod_right]
      exact Nat.mod_eq_of_lt (by omega)
    rw [h2, Nat.shiftRight_eq_div_pow]
    exact Nat.div_eq_of_lt (by omega)

theorem or_eq_zero {a b : Nat} (h : a ||| b = 0) : a = 0 ∧ b = 0 := by
  constructor <;> apply Nat.eq_of_testBit_eq <;> intro i <;>
    have h1 := congrArg (fun n => Nat.testBit n i) h <;>
    simp only [Nat.testBit_or, Nat.zero_testBit, Bool.or_eq_false_iff] at h1 <;>
    simp [h1]

theorem accumulate_lt : ∀ (x y : List Byte) (v : Nat), v < 256 → accumulate v x y < 256
  | [], _, v, hv => by simpa [accumulate] using hv
  | _ :: _, [], v, hv => by simpa [accumulate] using hv
  | a :: x, b :: y, v, hv => by
      rw [accumulate]
      apply accumulate_lt x y
      have h1 : a.val ^^^ b.val < 2 ^ 8 := Nat.xor_lt_two_pow a.isLt b.isLt
      exact Nat.or_lt_two_pow (n := 8) hv h1

theorem accumulate_eq_zero : ∀ (x y : List Byte) (v : Nat), x.length = y.length →
    (accumulate v x y = 0 ↔ v = 0 ∧ x = y)
  | [], [], v, _ => by simp [accumulate]
  | [], _ :: _, v, h => by simp at h
  | _ :: _, [], v, h => by simp at h
  | a :: x, b :: y, v, h => by
      rw [accumulate, accumulate_eq_zero x y _ (by simpa using h)]
      have hx : a.val ^^^ b.val = 0 ↔ a = b := by
        rw [Nat.xor_eq_zero]
        exact Fin.val_inj
      constructor
      · rintro ⟨h1, h2⟩
        have h3 := or_eq_zero h1
        exact ⟨h3.1, by rw [hx.mp h3.2, h2]⟩
      · rintro ⟨h1, h2⟩
        injection h2 with h3 h4
        subst h1
        exact ⟨by simp [hx.mpr h3], h4⟩

/-- The comparison returns 1 exactly on equal slices. -/
theorem ConstantTimeCompare_eq_one (x y : List Byte) : ConstantTimeCompare x y = 1 ↔ x = y := by
  unfold ConstantTimeCompare
  by_cases h : x.length = y.length
  · rw [if_neg (by simpa using h), ConstantTimeByteEq_zero _ (accumulate_lt x y 0 (by decide))]
    have := accumulate_eq_zero x y 0 h
    by_cases h0 : accumulate 0 x y = 0
    · rw [if_pos h0]; simp [(this.mp h0).2]
    · simp only [if_neg h0]
      constructor
      · intro h1; omega
      · intro h1; exact absurd (this.mpr ⟨rfl, h1⟩) h0
  · rw [if_pos h]
    constructor
    · intro h1; omega
    · intro h1; exact absurd (by rw [h1]) h

end subtle

/-! ## The Basic-Auth middleware -/

namespace basic_auth

open http

/-- The calls of the middleware on any request. -/
theorem calls_basicAuthMiddleware (next : Handler) (U P : GoString) (w : ResponseWriter)
    (r : Request) :
    (basicAuthMiddleware next U P w r).calls =
      if r.BasicAuth.2.2 = true then
        [Call.Sum256 r.BasicAuth.1, .Sum256 r.BasicAuth.2.1, .Sum256 U, .Sum256 P,
          .ConstantTimeCompare (sha256.Sum256 r.BasicAuth.1) (sha256.Sum256 U),
          .ConstantTimeCompare (sha256.Sum256 r.BasicAuth.2.1) (sha256.Sum256 P)] ++
        (if sha256.Sum256 r.BasicAuth.1 = sha256.Sum256 U ∧
            sha256.Sum256 r.BasicAuth.2.1 = sha256.Sum256 P
          then [.ServeHTTP next w r] else challenge w)
      else challenge w := by
  rcases h : r.BasicAuth with ⟨u, p, ok⟩
  cases ok
  · simp [basicAuthMiddleware, h, Exec.calls, call, StateT.run, bind, StateT.bind, modify,
      modifyGet, MonadStateOf.modifyGet, StateT.modifyGet, pure, StateT.pure, challenge,
      StatusUnauthorized]
  · by_cases h1 : sha256.Sum256 u = sha256.Sum256 U <;>
    by_cases h2 : sha256.Sum256 p = sha256.Sum256 P <;>
    simp [basicAuthMiddleware, h, Exec.calls, call, StateT.run, bind, StateT.bind, modify,
      modifyGet, MonadStateOf.modifyGet, StateT.modifyGet, pure, StateT.pure, challenge,
      StatusUnauthorized, subtle.ConstantTimeCompare_eq_one, h1, h2]

end basic_auth

namespace basic_auth

open http

/-- C1: a request whose Basic credentials are the expected username U and
password P is forwarded: the handler invokes next.ServeHTTP exactly once,
with the same w and r, as its last call, and makes no call on the response
(no header is set and no error answer is written). -/
theorem correct_credentials_are_forwarded (next : Handler) (U P : GoString)
    (w : ResponseWriter) (r : Request) (h : r.BasicAuth = (U, P, true)) :
    (basicAuthMiddleware next U P w r).calls =
        [.Sum256 U, .Sum256 P, .Sum256 U, .Sum256 P,
          .ConstantTimeCompare (sha256.Sum256 U) (sha256.Sum256 U),
          .ConstantTimeCompare (sha256.Sum256 P) (sha256.Sum256 P),
          .ServeHTTP next w r] ∧
      forwarded next w r (basicAuthMiddleware next U P w r).calls ∧
      (∀ c ∈ (basicAuthMiddleware next U P w r).calls,
        (∀ w1 key value, c ≠ .HeaderSet w1 key value) ∧ (∀ w1 e code, c ≠ .Error w1 e code) ∧
        (∀ n1 w1 r1, c = .ServeHTTP n1 w1 r1 → n1 = next ∧ w1 = w ∧ r1 = r)) ∧
      (basicAuthMiddleware next U P w r).calls.count (.ServeHTTP next w r) = 1 := by
  have hc : (basicAuthMiddleware next U P w r).calls =
      [.Sum256 U, .Sum256 P, .Sum256 U, .Sum256 P,
        .ConstantTimeCompare (sha256.Sum256 U) (sha256.Sum256 U),
        .ConstantTimeCompare (sha256.Sum256 P) (sha256.Sum256 P),
        .ServeHTTP next w r] := by
    rw [calls_basicAuthMiddleware]; simp [h]
  rw [hc]
  refine ⟨rfl, ?_, ?_, ?_⟩
  · simp [forwarded, Call.observable]
  · intro c hc1
    simp only [List.mem_cons, List.mem_singleton, List.not_mem_nil, or_false] at hc1
    rcases hc1 with h1 | h1 | h1 | h1 | h1 | h1 | h1 <;> subst h1 <;> simp
  · simp [List.count_cons]

/-- Witness of C1 on the sample request with the credentials alice:secret. -/
theorem correct_credentials_are_forwarded_witness :
    sample.getRoot.BasicAuth = (ascii "alice", ascii "secret", true) ∧
      forwarded Router sample.w sample.getRoot
        (basicAuthMiddleware Router (ascii "alice") (ascii "secret") sample.w
          sample.getRoot).calls :=
  ⟨by decide,
    (correct_credentials_are_forwarded Router (ascii "alice") (ascii "secret") sample.w
      sample.getRoot (by decide)).2.1⟩

/-- C4: on every request with ok = true the handler makes exactly two calls
of ConstantTimeCompare, the username comparison and then the password
comparison, whether or not the username matched; the arguments are the
SHA-256 digests of the supplied and the expected value, each of exactly 32
bytes, so the two lengths agree and the comparison does not return early. -/
theorem comparisons_are_on_digests (next : Handler) (U P : GoString)
    (w : ResponseWriter) (r : Request) (hok : r.BasicAuth.2.2 = true) :
    (basicAuthMiddleware next U P w r).calls.filterMap Call.compared =
        [(sha256.Sum256 r.BasicAuth.1, sha256.Sum256 U),
         (sha256.Sum256 r.BasicAuth.2.1, sha256.Sum256 P)] ∧
      (∀ x y, (x, y) ∈ (basicAuthMiddleware next U P w r).calls.filterMap Call.compared →
        x.length = 32 ∧ y.length = 32 ∧ ¬ x.length ≠ y.length ∧
        subtle.ConstantTimeCompare x y =
          subtle.ConstantTimeByteEq (subtle.accumulate 0 x y) 0) := by
  have hc : (basicAuthMiddleware next U P w r).calls.filterMap Call.compared =
      [(sha256.Sum256 r.BasicAuth.1, sha256.Sum256 U),
       (sha256.Sum256 r.BasicAuth.2.1, sha256.Sum256 P)] := by
    rw [calls_basicAuthMiddleware]
    by_cases h : sha256.Sum256 r.BasicAuth.1 = sha256.Sum256 U ∧
        sha256.Sum256 r.BasicAuth.2.1 = sha256.Sum256 P <;>
      simp [hok, h, challenge, Call.compared, List.filterMap_cons]
  rw [hc]
  refine ⟨rfl, ?_⟩
  intro x y hxy
  have hlen : x.length = 32 ∧ y.length = 32 := by
    simp only [List.mem_cons, List.mem_singleton, List.not_mem_nil, or_false, Prod.mk.injEq]
      at hxy
    rcases hxy with ⟨h1, h2⟩ | ⟨h1, h2⟩ <;> subst h1 <;> subst h2 <;>
      exact ⟨sha256.Sum256_length _, sha256.Sum256_length _⟩
  refine ⟨hlen.1, hlen.2, by simp [hlen.1, hlen.2], ?_⟩
  simp [subtle.ConstantTimeCompare, hlen.1, hlen.2]

/-- Witness of C4 on the sample request with a wrong password. -/
theorem comparisons_are_on_digests_witness :
    sample.getWrongPassword.BasicAuth.2.2 = true ∧
      (basicAuthMiddleware Router (ascii "alice") (ascii "secret") sample.w
          sample.getWrongPassword).calls.filterMap Call.compared =
        [(sha256.Sum256 sample.getWrongPassword.BasicAuth.1, sha256.Sum256 (ascii "alice")),
         (sha256.Sum256 sample.getWrongPassword.BasicAuth.2.1,
           sha256.Sum256 (ascii "secret"))] :=
  ⟨by decide,
    (comparisons_are_on_digests Router (ascii "alice") (ascii "secret") sample.w
      sample.getWrongPassword (by decide)).1⟩

end basic_auth

namespace basic_auth

open http

/-- The handler invokes next only with its own arguments, and only on
credentials it accepts. -/
theorem serveHTTP_mem_calls (next : Handler) (U P : GoString) (w : ResponseWriter)
    (r : Request) (n1 : Handler) (w1 : ResponseWriter) (r1 : Request) :
    Call.ServeHTTP n1 w1 r1 ∈ (basicAuthMiddleware next U P w r).calls ↔
      (n1 = next ∧ w1 = w ∧ r1 = r) ∧ accepts U P r := by
  rw [calls_basicAuthMiddleware]
  unfold accepts
  by_cases hok : r.BasicAuth.2.2 = true
  · by_cases h : sha256.Sum256 r.BasicAuth.1 = sha256.Sum256 U ∧
        sha256.Sum256 r.BasicAuth.2.1 = sha256.Sum256 P
    · simp [hok, h]
    · simp only [hok, h, if_true, if_false, challenge]
      simp
  · simp [hok, challenge]

/-- The observable calls of the handler: the forward on accepted
credentials, the 401 answer otherwise. -/
theorem observable_calls (next : Handler) (U P : GoString) (w : ResponseWriter) (r : Request) :
    (basicAuthMiddleware next U P w r).calls.filter Call.observable =
      if accepts U P r then [.ServeHTTP next w r] else challenge w := by
  rw [calls_basicAuthMiddleware]
  unfold accepts
  by_cases hok : r.BasicAuth.2.2 = true
  · by_cases h : sha256.Sum256 r.BasicAuth.1 = sha256.Sum256 U ∧
        sha256.Sum256 r.BasicAuth.2.1 = sha256.Sum256 P
    · simp [hok, h, Call.observable]
    · have h1 : ¬ (r.BasicAuth.2.2 = true ∧ sha256.Sum256 r.BasicAuth.1 = sha256.Sum256 U ∧
          sha256.Sum256 r.BasicAuth.2.1 = sha256.Sum256 P) := fun h2 => h h2.2
      rw [if_pos hok, if_neg h, if_neg h1]
      simp [challenge, Call.observable]
  · have h1 : ¬ (r.BasicAuth.2.2 = true ∧ sha256.Sum256 r.BasicAuth.1 = sha256.Sum256 U ∧
        sha256.Sum256 r.BasicAuth.2.1 = sha256.Sum256 P) := fun h2 => hok h2.1
    rw [if_neg hok, if_neg h1]
    simp [challenge, Call.observable]

/-- Forwarding and rejection in terms of the accepted credentials. -/
theorem forwarded_of_accepts_iff (next : Handler) (U P : GoString) (w : ResponseWriter)
    (r : Request) :
    (forwarded next w r (basicAuthMiddleware next U P w r).calls ↔ accepts U P r) ∧
      (rejected w (basicAuthMiddleware next U P w r).calls ↔ ¬ accepts U P r) := by
  unfold forwarded rejected
  rw [observable_calls]
  by_cases ha : accepts U P r <;> simp [ha, challenge]

/-- C6: the handler invokes next if and only if BasicAuth returns ok = true
and the SHA-256 digests of username and password equal the digests of the
expected ones; in that case the request is forwarded, in every other case
it is rejected with the 401 answer and next is not invoked; exactly one of
the two outcomes happens for every request. -/
theorem forwarded_iff_digests_match (next : Handler) (U P : GoString) (w : ResponseWriter)
    (r : Request) :
    (Call.ServeHTTP next w r ∈ (basicAuthMiddleware next U P w r).calls ↔
        r.BasicAuth.2.2 = true ∧
          sha256.Sum256 r.BasicAuth.1 = sha256.Sum256 U ∧
          sha256.Sum256 r.BasicAuth.2.1 = sha256.Sum256 P) ∧
      (forwarded next w r (basicAuthMiddleware next U P w r).calls ↔ accepts U P r) ∧
      (rejected w (basicAuthMiddleware next U P w r).calls ↔ ¬ accepts U P r) ∧
      (rejected w (basicAuthMiddleware next U P w r).calls ↔
        ∀ n1 w1 r1, Call.ServeHTTP n1 w1 r1 ∉ (basicAuthMiddleware next U P w r).calls) ∧
      (forwarded next w r (basicAuthMiddleware next U P w r).calls ∨
        rejected w (basicAuthMiddleware next U P w r).calls) ∧
      ¬ (forwarded next w r (basicAuthMiddleware next U P w r).calls ∧
        rejected w (basicAuthMiddleware next U P w r).calls) := by
  have hm := serveHTTP_mem_calls next U P w r
  have ho := observable_calls next U P w r
  unfold forwarded rejected
  rw [ho]
  by_cases ha : accepts U P r
  · refine ⟨?_, ?_, ?_, ?_, ?_, ?_⟩
    · rw [hm]; exact ⟨fun _ => ha, fun _ => ⟨⟨rfl, rfl, rfl⟩, ha⟩⟩
    · simp [ha]
    · simp [ha, challenge]
    · simp only [if_pos ha, challenge]
      constructor
      · intro h; simp at h
      · intro h; exact absurd ((hm next w r).mpr ⟨⟨rfl, rfl, rfl⟩, ha⟩) (h next w r)
    · simp [ha]
    · simp [ha, challenge]
  · refine ⟨?_, ?_, ?_, ?_, ?_, ?_⟩
    · rw [hm]
      constructor
      · intro h; exact absurd h.2 ha
      · intro h; exact absurd h ha
    · simp [ha, challenge]
    · simp [ha]
    · simp only [if_neg ha, true_iff]
      intro n1 w1 r1 h
      exact ha ((hm n1 w1 r1).mp h).2
    · simp [ha]
    · simp [ha, challenge]

/-- C9: two requests for which BasicAuth returns the same username,
password and ok get the same decision, whatever their method, path, other
header fields or body: both are forwarded or both are rejected; and the
handler invokes next on no request whose credentials it does not accept. -/
theorem decision_depends_on_credentials_only (next : Handler) (U P : GoString)
    (w1 w2 : ResponseWriter) (r1 r2 : Request) (h : r1.BasicAuth = r2.BasicAuth) :
    (forwarded next w1 r1 (basicAuthMiddleware next U P w1 r1).calls ↔
        forwarded next w2 r2 (basicAuthMiddleware next U P w2 r2).calls) ∧
      (rejected w1 (basicAuthMiddleware next U P w1 r1).calls ↔
        rejected w2 (basicAuthMiddleware next U P w2 r2).calls) ∧
      (∀ n w r, Call.ServeHTTP n w r ∈ (basicAuthMiddleware next U P w1 r1).calls →
        accepts U P r1) ∧
      (¬ accepts U P r1 → rejected w1 (basicAuthMiddleware next U P w1 r1).calls) := by
  have ha : accepts U P r1 ↔ accepts U P r2 := by unfold accepts; rw [h]
  have h1 := forwarded_of_accepts_iff next U P w1 r1
  have h2 := forwarded_of_accepts_iff next U P w2 r2
  refine ⟨?_, ?_, ?_, ?_⟩
  · rw [h1.1, h2.1, ha]
  · rw [h1.2, h2.2, ha]
  · intro n w r hmem
    exact ((serveHTTP_mem_calls next U P w1 r1 n w r).mp hmem).2
  · intro hna
    exact h1.2.mpr hna

/-- Witness of C9 on a GET of the UI and a POST to the API with the same credentials. -/
theorem decision_depends_on_credentials_only_witness :
    sample.getRoot.BasicAuth = sample.postApi.BasicAuth ∧
      sample.getRoot.Method ≠ sample.postApi.Method ∧
      (forwarded Router sample.w sample.getRoot
          (basicAuthMiddleware Router (ascii "alice") (ascii "secret") sample.w
            sample.getRoot).calls ↔
        forwarded Router ⟨2⟩ sample.postApi
          (basicAuthMiddleware Router (ascii "alice") (ascii "secret") ⟨2⟩
            sample.postApi).calls) :=
  ⟨by decide, by decide,
    (decision_depends_on_credentials_only Router (ascii "alice") (ascii "secret") sample.w ⟨2⟩
      sample.getRoot sample.postApi (by decide)).1⟩

end basic_auth

/-! ## Passwords with equal digests -/

namespace family

open http

theorem decodeQuanta_full (c0 c1 c2 c3 : Byte) (v0 v1 v2 v3 : Nat) (rest out : List Byte)
    (h0 : base64.decodeMap c0 = some v0) (h1 : base64.decodeMap c1 = some v1)
    (h2 : base64.decodeMap c2 = some v2) (h3 : base64.decodeMap c3 = some v3)
    (hr : base64.decodeQuanta rest = some out) :
    base64.decodeQuanta (c0 :: c1 :: c2 :: c3 :: rest) =
      some (byte ((v0 <<< 18 ||| v1 <<< 12 ||| v2 <<< 6 ||| v3) >>> 16) ::
        byte ((v0 <<< 18 ||| v1 <<< 12 ||| v2 <<< 6 ||| v3) >>> 8) ::
        byte (v0 <<< 18 ||| v1 <<< 12 ||| v2 <<< 6 ||| v3) :: out) := by
  cases rest with
  | nil =>
      simp only [base64.decodeQuanta] at hr
      injection hr with hr
      subst hr
      simp [base64.decodeQuanta, h0, h1, h2, h3]
  | cons a rest => simp [base64.decodeQuanta, h0, h1, h2, h3, hr]

theorem decodeQuanta_quanta (bits : List Bool) :
    base64.decodeQuanta (bits.flatMap quantum) = some (bits.flatMap bytes) := by
  induction bits with
  | nil => simp [base64.decodeQuanta]
  | cons b bits ih =>
      cases b
      · have hq : quantum false = [65, 65, 65, 65] := by decide
        simp only [List.flatMap_cons, hq, List.cons_append, List.nil_append]
        rw [decodeQuanta_full 65 65 65 65 0 0 0 0 _ _ (by decide) (by decide) (by decide)
          (by decide) ih]
        simp [bytes, byte]
      · have hq : quantum true = [65, 65, 65, 66] := by decide
        simp only [List.flatMap_cons, hq, List.cons_append, List.nil_append]
        rw [decodeQuanta_full 65 65 65 66 0 0 0 1 _ _ (by decide) (by decide) (by decide)
          (by decide) ih]
        simp [bytes, byte]

theorem filter_quanta (bits : List Bool) :
    (bits.flatMap quantum).filter (fun c => decide (c.val ≠ 10 ∧ c.val ≠ 13)) =
      bits.flatMap quantum := by
  rw [List.filter_eq_self]
  intro c hc
  rw [List.mem_flatMap] at hc
  obtain ⟨b, _, hb⟩ := hc
  cases b
  · have hq : quantum false = [65, 65, 65, 65] := by decide
    rw [hq] at hb
    simp at hb
    subst hb
    decide
  · have hq : quantum true = [65, 65, 65, 66] := by decide
    rw [hq] at hb
    simp at hb
    rcases hb with hb | hb <;> subst hb <;> decide

/-- The request of the bits carries the empty username and the password of the bits. -/
theorem BasicAuth_request (bits : List Bool) :
    (request bits).BasicAuth = ([], password bits, true) := by
  have ha : ascii "Basic OmFh" = [66, 97, 115, 105, 99, 32, 79, 109, 70, 104] := by decide
  have hs : ascii "Basic " = [66, 97, 115, 105, 99, 32] := by decide
  have hd : base64.DecodeString (79 :: 109 :: 70 :: 104 :: bits.flatMap quantum) =
      some (58 :: 97 :: 97 :: bits.flatMap bytes) := by
    unfold base64.DecodeString
    have hf : (79 :: 109 :: 70 :: 104 :: bits.flatMap quantum).filter
        (fun c => decide (c.val ≠ 10 ∧ c.val ≠ 13)) =
        79 :: 109 :: 70 :: 104 :: bits.flatMap quantum := by
      rw [List.filter_eq_self]
      intro c hc
      simp only [List.mem_cons] at hc
      rcases hc with h | h | h | h | h
      · subst h; decide
      · subst h; decide
      · subst h; decide
      · subst h; decide
      · exact (List.filter_eq_self.mp (filter_quanta bits)) c h
    rw [hf, decodeQuanta_full 79 109 70 104 14 38 5 33 _ _ (by decide) (by decide) (by decide)
      (by decide) (decodeQuanta_quanta bits)]
    simp [byte]
  unfold Request.BasicAuth request
  simp only [Header.Get, List.lookup, beq_self_eq_true, ha, List.cons_append, List.nil_append]
  rw [if_neg (by simp)]
  unfold parseBasicAuth
  simp only [hs, List.length_cons, List.length_nil, List.take, List.drop]
  rw [if_neg (by simp; decide), hd]
  simp [strings.Cut, password]

theorem flatMap_bytes_injective : ∀ (l1 l2 : List Bool),
    l1.flatMap bytes = l2.flatMap bytes → l1 = l2
  | [], [], _ => rfl
  | [], b :: l2, h => by simp [bytes] at h
  | a :: l1, [], h => by simp [bytes] at h
  | a :: l1, b :: l2, h => by
      simp only [List.flatMap_cons, bytes, List.cons_append, List.nil_append, List.cons.injEq,
        true_and] at h
      have hab : a = b := by
        cases a <;> cases b <;> simp at h <;> rfl
      rw [hab, flatMap_bytes_injective l1 l2 h.2]

theorem password_injective (l1 l2 : List Bool) (h : password l1 = password l2) : l1 = l2 := by
  unfold password at h
  simp only [List.cons.injEq, true_and] at h
  exact flatMap_bytes_injective l1 l2 h

/-- Two different passwords of the family have the same SHA-256 digest:
the family has 2^257 members and there are 2^256 digests. -/
theorem exists_collision :
    ∃ l1 l2 : List Bool, password l1 ≠ password l2 ∧
      sha256.Sum256 (password l1) = sha256.Sum256 (password l2) := by
  let f : (Fin 257 → Bool) → Mathlib.Vector Byte 32 :=
    fun bits => ⟨sha256.Sum256 (password (List.ofFn bits)), sha256.Sum256_length _⟩
  have hcard : Fintype.card (Mathlib.Vector Byte 32) < Fintype.card (Fin 257 → Bool) := by
    rw [card_vector, Fintype.card_fun, Fintype.card_fin, Fintype.card_bool, Fintype.card_fin]
    norm_num
  obtain ⟨b1, b2, hne, heq⟩ := Fintype.exists_ne_map_eq_of_card_lt f hcard
  refine ⟨List.ofFn b1, List.ofFn b2, ?_, ?_⟩
  · intro h
    exact hne (List.ofFn_injective (password_injective _ _ h))
  · exact congrArg Subtype.val heq

end family

namespace basic_auth

open http

/-- Rejection follows the digests, not the passwords: it is not the case
that every request with Basic credentials whose password differs from the
expected password is rejected. Two different passwords with the same SHA-256
digest exist, by counting; with one as the expected password, a request
carrying the other (and the expected username) is forwarded to next. The
proof exhibits no such pair. -/
theorem differing_password_not_always_rejected :
    ¬ ∀ (next : Handler) (U P : GoString) (w : ResponseWriter) (r : Request),
        r.BasicAuth.2.2 = true → r.BasicAuth.2.1 ≠ P →
          (∀ n1 w1 r1, Call.ServeHTTP n1 w1 r1 ∉ (basicAuthMiddleware next U P w r).calls) ∧
            rejected w (basicAuthMiddleware next U P w r).calls := by
  intro h
  obtain ⟨l1, l2, hne, heq⟩ := family.exists_collision
  have hr := family.BasicAuth_request l1
  have h1 := h Router [] (family.password l2) sample.w (family.request l1)
    (by rw [hr]) (by rw [hr]; exact hne)
  refine h1.1 Router sample.w (family.request l1) ?_
  rw [serveHTTP_mem_calls]
  refine ⟨⟨rfl, rfl, rfl⟩, ?_⟩
  unfold accepts
  rw [hr]
  exact ⟨rfl, rfl, heq⟩

end basic_auth

/-! ## The main functions -/

theorem run_emit (e : Event) (log : List Event) :
    StateT.run (ExceptT.run (emit e)) log = (Except.ok (), log ++ [e]) := rfl

theorem run_Fatalf {α : Type} (format : String) (log : List Event) :
    StateT.run (ExceptT.run (Fatalf format : Prog α)) log =
      (Except.error (Stop.exit 1), log ++ [Event.Fatalf format]) := rfl

theorem run_pure {α : Type} (a : α) (log : List Event) :
    StateT.run (ExceptT.run (pure a : Prog α)) log = (Except.ok a, log) := rfl

theorem run_throw {α : Type} (e : Stop) (log : List Event) :
    StateT.run (ExceptT.run (throw e : Prog α)) log = (Except.error e, log) := rfl

theorem run_bind {α β : Type} (x : Prog α) (f : α → Prog β) (log : List Event) :
    StateT.run (ExceptT.run (x >>= f)) log =
      match StateT.run (ExceptT.run x) log with
      | (Except.ok a, log1) => StateT.run (ExceptT.run (f a)) log1
      | (Except.error e, log1) => (Except.error e, log1) := by
  simp only [ExceptT.run_bind, StateT.run_bind]
  rcases h : StateT.run (ExceptT.run x) log with ⟨a | a, log1⟩ <;> simp [h]

/-- The loop over a job table never stops the program: it calls NewJob once
for every entry, in table order, and logs the entries that fail. -/
theorem run_addJobs (newJob : Nat → Option String) :
    ∀ (table : List (gocron.JobDefinition × gocron.Task × List gocron.JobOption)) (k : Nat)
      (log : List Event),
      ∃ events, StateT.run (ExceptT.run (addJobs newJob k table)) log =
          (Except.ok (), log ++ events) ∧
        events.filterMap Event.newJob = table ∧
        events.filter (fun e => !e.isJobError) =
          table.map (fun job => Event.NewJob job.1 job.2.1 job.2.2) ∧
        events.filter Event.isStart = [] ∧
        (∀ e ∈ events, (∃ d t o, e = Event.NewJob d t o) ∨
          e = Event.Printf "Error creating job: %v") ∧
        (events.filter Event.isJobError).length =
          ((List.range table.length).filter (fun i => (newJob (k + i)).isSome)).length
  | [], k, log => ⟨[], by simp [addJobs, run_pure]⟩
  | (definition, task, options) :: rest, k, log => by
      have e1 : Event.isJobError (.NewJob definition task options) = false := rfl
      have e2 : Event.isJobError (.Printf "Error creating job: %v") = true := by decide
      have e3 : Event.isStart (.NewJob definition task options) = false := rfl
      have e4 : Event.isStart (.Printf "Error creating job: %v") = false := rfl
      have e5 : Event.newJob (.NewJob definition task options) =
          some (definition, task, options) := rfl
      have e6 : Event.newJob (.Printf "Error creating job: %v") = none := rfl
      have e7 : ∀ x, k + 1 + x = k + (x + 1) := by intro x; omega
      by_cases h : (newJob k).isSome = true
      · obtain ⟨events, h1, h2, h3, h4, h6, h5⟩ := run_addJobs newJob rest (k + 1)
          (log ++ [Event.NewJob definition task options] ++
            [Event.Printf "Error creating job: %v"])
        refine ⟨Event.NewJob definition task options ::
          Event.Printf "Error creating job: %v" :: events, ?_, ?_, ?_, ?_, ?_, ?_⟩
        · simp only [addJobs, run_bind, run_emit, h, if_true, h1]
          simp
        · simp [List.filterMap_cons, e5, e6, h2]
        · simp [List.filter_cons, e1, e2, h3]
        · simp [List.filter_cons, e3, e4, h4]
        · intro e he
          simp only [List.mem_cons] at he
          rcases he with he | he | he
          · exact Or.inl ⟨_, _, _, he⟩
          · exact Or.inr he
          · exact h6 e he
        · simp only [e7] at h5
          simp [List.filter_cons, e1, e2, h5, List.range_succ_eq_map, List.filter_map, h,
            Function.comp_def]
      · obtain ⟨events, h1, h2, h3, h4, h6, h5⟩ := run_addJobs newJob rest (k + 1)
          (log ++ [Event.NewJob definition task options])
        refine ⟨Event.NewJob definition task options :: events, ?_, ?_, ?_, ?_, ?_, ?_⟩
        · simp only [addJobs, run_bind, run_emit, h, h1]
          simp [run_pure, h1]
        · simp [List.filterMap_cons, e5, h2]
        · simp [List.filter_cons, e1, h3]
        · simp [List.filter_cons, e3, h4]
        · intro e he
          simp only [List.mem_cons] at he
          rcases he with he | he
          · exact Or.inl ⟨_, _, _, he⟩
          · exact h6 e he
        · simp only [e7] at h5
          simp [List.filter_cons, e1, h5, List.range_succ_eq_map, List.filter_map, h,
            Function.comp_def]

/-- The calls of the goroutine of basic_auth: log lines, then ListenAndServe
with the middleware around the router, then nothing but a fatal log. -/
theorem basic_auth.run_serve (world : World) (port : Int) (username password : GoString) :
    ∃ pre post, (Prog.run (basic_auth.serve world port username password)).2 =
        pre ++ Event.ListenAndServe (":" ++ toString port)
          (.func (basic_auth.basicAuthMiddleware Router username password)) :: post ∧
      (∀ e ∈ pre, (∃ t, e = Event.Println t) ∨ ∃ f, e = Event.Printf f) ∧
      (∀ e ∈ post, ∃ f, e = Event.Fatalf f) := by
  refine ⟨[.Println ("\n" ++ rule),
    .Printf "GoCron UI Server Started with Basic Authentication", .Println rule,
    .Printf "Web UI:       http://localhost%s", .Printf "API:          http://localhost%s/api",
    .Printf "WebSocket:    ws://localhost%s/ws", .Printf "Total Jobs:   %d",
    .Println (rule ++ "\n")],
    if world.listen.isSome then [.Fatalf "Server failed to start: %v"] else [], ?_, ?_, ?_⟩
  · unfold Prog.run basic_auth.serve
    by_cases h : world.listen.isSome = true <;>
      simp [h, run_bind, run_emit, run_Fatalf, run_throw]
  · intro e he
    simp only [List.mem_cons, List.not_mem_nil, or_false] at he
    rcases he with he | he | he | he | he | he | he | he <;> subst he <;> simp
  · intro e he
    by_cases h : world.listen.isSome = true
    · rw [if_pos h] at he
      simp only [List.mem_singleton] at he
      exact ⟨_, he⟩
    · rw [if_neg h] at he
      simp at he

/-- The goroutine of basic_auth ends the process with code 1 when
ListenAndServe returns, and keeps serving otherwise. -/
theorem basic_auth.serve_outcome (world : World) (port : Int) (username password : GoString) :
    (Prog.run (basic_auth.serve world port username password)).1 =
      if world.listen.isSome then Except.error (Stop.exit 1) else Except.error Stop.blocked := by
  unfold Prog.run basic_auth.serve
  by_cases h : world.listen.isSome = true <;>
    simp [h, run_bind, run_emit, run_Fatalf, run_throw]

namespace basic_auth

theorem run_main_guard (world : World)
    (hg : guard (os.LookupEnv world.env usernameEnv).1 (os.LookupEnv world.env usernameEnv).2
      (os.LookupEnv world.env passwordEnv).1 (os.LookupEnv world.env passwordEnv).2 = true) :
    Prog.run (main world) = (Except.error (Stop.exit 1),
      [.LookupEnv usernameEnv, .LookupEnv passwordEnv,
       .Fatalf "Environment variables %s and %s must be set for basic authentication"]) := by
  rcases hu : os.LookupEnv world.env usernameEnv with ⟨u, uok⟩
  rcases hp : os.LookupEnv world.env passwordEnv with ⟨p, pok⟩
  rw [hu, hp] at hg
  simp only at hg
  unfold Prog.run main
  simp only [hu, hp, hg, run_bind, run_emit, run_Fatalf, List.nil_append, List.cons_append,
    if_true]

theorem run_main_flags (world : World) (code : Nat)
    (hg : guard (os.LookupEnv world.env usernameEnv).1 (os.LookupEnv world.env usernameEnv).2
      (os.LookupEnv world.env passwordEnv).1 (os.LookupEnv world.env passwordEnv).2 = false)
    (hf : world.flags = .error code) :
    Prog.run (main world) = (Except.error (Stop.exit code),
      [.LookupEnv usernameEnv, .LookupEnv passwordEnv, .Parse]) := by
  rcases hu : os.LookupEnv world.env usernameEnv with ⟨u, uok⟩
  rcases hp : os.LookupEnv world.env passwordEnv with ⟨p, pok⟩
  rw [hu, hp] at hg
  simp only at hg
  unfold Prog.run main
  simp only [hu, hp, hg, hf, run_bind, run_emit, run_Fatalf, run_pure, run_throw,
    List.nil_append, List.cons_append, Bool.false_eq_true, if_false]

theorem run_main_scheduler (world : World) (port : Int) (title : String)
    (hg : guard (os.LookupEnv world.env usernameEnv).1 (os.LookupEnv world.env usernameEnv).2
      (os.LookupEnv world.env passwordEnv).1 (os.LookupEnv world.env passwordEnv).2 = false)
    (hf : world.flags = .ok (port, title)) (hs : world.newScheduler.isSome = true) :
    Prog.run (main world) = (Except.error (Stop.exit 1),
      [.LookupEnv usernameEnv, .LookupEnv passwordEnv, .Parse, .NewScheduler,
       .Fatalf "Failed to create scheduler: %v"]) := by
  rcases hu : os.LookupEnv world.env usernameEnv with ⟨u, uok⟩
  rcases hp : os.LookupEnv world.env passwordEnv with ⟨p, pok⟩
  rw [hu, hp] at hg
  simp only at hg
  unfold Prog.run main
  simp only [hu, hp, hg, hf, hs, run_bind, run_emit, run_Fatalf, run_pure, run_throw,
    List.nil_append, List.cons_append, Bool.false_eq_true, if_false, if_true]

theorem run_main_ok (world : World) (port : Int) (title : String)
    (hg : guard (os.LookupEnv world.env usernameEnv).1 (os.LookupEnv world.env usernameEnv).2
      (os.LookupEnv world.env passwordEnv).1 (os.LookupEnv world.env passwordEnv).2 = false)
    (hf : world.flags = .ok (port, title)) (hs : world.newScheduler = none)
    (events : List Event)
    (h1 : StateT.run (ExceptT.run (addJobs world.newJob 0
        (jobs.map (fun job => (job.definition, job.task, job.options)))))
        [.LookupEnv usernameEnv, .LookupEnv passwordEnv, .Parse, .NewScheduler] =
      (Except.ok (), [.LookupEnv usernameEnv, .LookupEnv passwordEnv, .Parse, .NewScheduler] ++
        events)) :
    Prog.run (main world) =
      (if world.listen.isSome then Except.error (Stop.exit 1)
        else if world.signal then Except.ok () else Except.error Stop.blocked,
       [.LookupEnv usernameEnv, .LookupEnv passwordEnv, .Parse, .NewScheduler] ++ events ++
        [.Start, .Println "Scheduler started with", .NewServer port title,
         .Go (Prog.run (serve world port (os.LookupEnv world.env usernameEnv).1
           (os.LookupEnv world.env passwordEnv).1)).2, .Notify, .Receive] ++
        lastCalls world) := by
  rcases hu : os.LookupEnv world.env usernameEnv with ⟨u, uok⟩
  rcases hp : os.LookupEnv world.env passwordEnv with ⟨p, pok⟩
  rw [hu, hp] at hg
  simp only at hg
  unfold main lastCalls
  simp only [serve_outcome]
  unfold Prog.run
  simp only [hu, hp, hg, hf, hs, run_bind, run_emit, run_Fatalf, run_pure, run_throw,
    List.nil_append, List.cons_append, h1, Option.isSome_none, Bool.false_eq_true, if_false]
  cases world.listen <;> cases world.signal <;> cases world.shutdown <;>
    simp [run_bind, run_emit, run_pure, run_throw, Prog.run]

end basic_auth

namespace basic_auth

theorem guard_eq_true_iff (env : String → Option GoString) :
    guard (os.LookupEnv env usernameEnv).1 (os.LookupEnv env usernameEnv).2
        (os.LookupEnv env passwordEnv).1 (os.LookupEnv env passwordEnv).2 = true ↔
      unsetOrEmpty env usernameEnv ∨ unsetOrEmpty env passwordEnv := by
  unfold guard os.LookupEnv unsetOrEmpty
  rcases hu : env usernameEnv with _ | u <;> rcases hp : env passwordEnv with _ | p <;> simp

/-- Every ListenAndServe of a run of main is given the middleware around
the router, with the two values of the environment. -/
theorem served_handler (world : World) (body : List Event) (addr : String) (handler : Served)
    (hb : Event.Go body ∈ (Prog.run (main world)).2)
    (hl : Event.ListenAndServe addr handler ∈ body) :
    handler = .func (basicAuthMiddleware Router (os.LookupEnv world.env usernameEnv).1
      (os.LookupEnv world.env passwordEnv).1) := by
  by_cases hg : guard (os.LookupEnv world.env usernameEnv).1
      (os.LookupEnv world.env usernameEnv).2 (os.LookupEnv world.env passwordEnv).1
      (os.LookupEnv world.env passwordEnv).2 = true
  · rw [run_main_guard world hg] at hb
    simp at hb
  · have hg1 := Bool.eq_false_iff.mpr hg
    rcases hf : world.flags with code | ⟨port, title⟩
    · rw [run_main_flags world code hg1 hf] at hb
      simp at hb
    · by_cases hs : world.newScheduler.isSome = true
      · rw [run_main_scheduler world port title hg1 hf hs] at hb
        simp at hb
      · have hs1 : world.newScheduler = none := by
          cases h : world.newScheduler <;> simp [h] at hs ⊢
        obtain ⟨events, h1, _, _, _, h6, _⟩ := run_addJobs world.newJob
          (jobs.map (fun job => (job.definition, job.task, job.options))) 0
          [.LookupEnv usernameEnv, .LookupEnv passwordEnv, .Parse, .NewScheduler]
        rw [run_main_ok world port title hg1 hf hs1 events h1] at hb
        have hbody : body = (Prog.run (serve world port (os.LookupEnv world.env usernameEnv).1
            (os.LookupEnv world.env passwordEnv).1)).2 := by
          simp only [List.mem_append, List.mem_cons, List.not_mem_nil, or_false] at hb
          rcases hb with ((hb | hb) | hb) | hb
          · rcases hb with hb | hb | hb | hb <;> cases hb
          · rcases h6 _ hb with ⟨d, t, o, h⟩ | h <;> cases h
          · rcases hb with hb | hb | hb | hb | hb | hb
            · cases hb
            · cases hb
            · cases hb
            · injection hb
            · cases hb
            · cases hb
          · unfold lastCalls at hb
            by_cases hli : world.listen.isSome = true
            · rw [if_pos hli] at hb
              simp at hb
            · rw [if_neg hli] at hb
              by_cases hsig : world.signal = true
              · rw [if_pos hsig] at hb
                by_cases hsh : world.shutdown.isSome = true
                · rw [if_pos hsh] at hb
                  simp at hb
                · rw [if_neg hsh] at hb
                  simp at hb
              · rw [if_neg hsig] at hb
                simp at hb
        obtain ⟨pre, post, h7, h8, h9⟩ := run_serve world port
          (os.LookupEnv world.env usernameEnv).1 (os.LookupEnv world.env passwordEnv).1
        rw [hbody, h7] at hl
        simp only [List.mem_append, List.mem_cons] at hl
        rcases hl with hl | hl | hl
        · rcases h8 _ hl with ⟨t, h⟩ | ⟨f, h⟩ <;> cases h
        · injection hl with _ h
        · obtain ⟨f, h⟩ := h9 _ hl
          cases h

/-- C3: in the main of basic_auth, when GOCRON_UI_USERNAME or
GOCRON_UI_PASSWORD is unset or empty, the run is the two lookups and the
fatal log of the guard, and the process exits with code 1: no scheduler is
created, no job is registered and no listener is started. When both are set
to non-empty strings, the guard does not end the program (the run goes on
to flag.Parse and holds no guard message); if the flags parse and the
scheduler is created, the goroutine calls ListenAndServe with
basicAuthMiddleware(srv.Router, username, password) for exactly those two
values, and no ListenAndServe of the run is given any other handler. -/
theorem main_guard (world : World) :
    ((unsetOrEmpty world.env usernameEnv ∨ unsetOrEmpty world.env passwordEnv) →
      Prog.run (main world) = (Except.error (Stop.exit 1),
        [.LookupEnv usernameEnv, .LookupEnv passwordEnv,
         .Fatalf "Environment variables %s and %s must be set for basic authentication"])) ∧
    (∀ username password : GoString,
      world.env usernameEnv = some username → world.env passwordEnv = some password →
      username ≠ [] → password ≠ [] →
        (Prog.run (main world)).2.take 3 =
            [.LookupEnv usernameEnv, .LookupEnv passwordEnv, .Parse] ∧
          Prog.run (main world) ≠ (Except.error (Stop.exit 1),
            [.LookupEnv usernameEnv, .LookupEnv passwordEnv,
             .Fatalf "Environment variables %s and %s must be set for basic authentication"]) ∧
          (∀ port title, world.flags = .ok (port, title) → world.newScheduler = none →
            ∃ pre post before after, (Prog.run (main world)).2 =
              pre ++ Event.Go (before ++ Event.ListenAndServe (":" ++ toString port)
                (.func (basicAuthMiddleware Router username password)) :: after) :: post) ∧
          (∀ body addr handler, Event.Go body ∈ (Prog.run (main world)).2 →
            Event.ListenAndServe addr handler ∈ body →
            handler = .func (basicAuthMiddleware Router username password))) := by
  constructor
  · intro h
    exact run_main_guard world ((guard_eq_true_iff world.env).mpr h)
  · intro username password hu hp hune hpne
    have hlu : os.LookupEnv world.env usernameEnv = (username, true) := by
      simp [os.LookupEnv, hu]
    have hlp : os.LookupEnv world.env passwordEnv = (password, true) := by
      simp [os.LookupEnv, hp]
    have hg : guard (os.LookupEnv world.env usernameEnv).1
        (os.LookupEnv world.env usernameEnv).2 (os.LookupEnv world.env passwordEnv).1
        (os.LookupEnv world.env passwordEnv).2 = false := by
      rw [hlu, hlp]
      simp [guard, hune, hpne]
    have htake : (Prog.run (main world)).2.take 3 =
        [.LookupEnv usernameEnv, .LookupEnv passwordEnv, .Parse] := by
      rcases hf : world.flags with code | ⟨port, title⟩
      · rw [run_main_flags world code hg hf]; rfl
      · by_cases hs : world.newScheduler.isSome = true
        · rw [run_main_scheduler world port title hg hf hs]; rfl
        · have hs1 : world.newScheduler = none := by
            cases h : world.newScheduler <;> simp [h] at hs ⊢
          obtain ⟨events, h1, _⟩ := run_addJobs world.newJob
            (jobs.map (fun job => (job.definition, job.task, job.options))) 0
            [.LookupEnv usernameEnv, .LookupEnv passwordEnv, .Parse, .NewScheduler]
          rw [run_main_ok world port title hg hf hs1 events h1]
          simp
    refine ⟨htake, ?_, ?_, ?_⟩
    · intro h
      rw [h] at htake
      simp at htake
    · intro port title hf hs
      obtain ⟨events, h1, _⟩ := run_addJobs world.newJob
        (jobs.map (fun job => (job.definition, job.task, job.options))) 0
        [.LookupEnv usernameEnv, .LookupEnv passwordEnv, .Parse, .NewScheduler]
      obtain ⟨before, after, h7, _⟩ := run_serve world port username password
      rw [run_main_ok world port title hg hf hs events h1, hlu, hlp]
      simp only [h7]
      exact ⟨[.LookupEnv usernameEnv, .LookupEnv passwordEnv, .Parse, .NewScheduler] ++ events ++
          [.Start, .Println "Scheduler started with", .NewServer port title],
        [.Notify, .Receive] ++ lastCalls world, before, after, by simp⟩
    · intro body addr handler hb hl
      have := served_handler world body addr handler hb hl
      rw [hlu, hlp] at this
      exact this

/-- Witness of C3: the sample world with an empty password stops at the
guard; the sample world with both credentials set goes on to flag.Parse. -/
theorem main_guard_witness :
    (unsetOrEmpty sample.worldEmptyPassword.env usernameEnv ∨
        unsetOrEmpty sample.worldEmptyPassword.env passwordEnv) ∧
      Prog.run (main sample.worldEmptyPassword) = (Except.error (Stop.exit 1),
        [.LookupEnv usernameEnv, .LookupEnv passwordEnv,
         .Fatalf "Environment variables %s and %s must be set for basic authentication"]) ∧
      sample.world.env usernameEnv = some (ascii "alice") ∧
      sample.world.env passwordEnv = some (ascii "secret") ∧
      (Prog.run (main sample.world)).2.take 3 =
        [.LookupEnv usernameEnv, .LookupEnv passwordEnv, .Parse] :=
  ⟨Or.inr (Or.inr (by decide)),
    (main_guard sample.worldEmptyPassword).1 (Or.inr (Or.inr (by decide))),
    by decide, by decide,
    ((main_guard sample.world).2 (ascii "alice") (ascii "secret") (by decide) (by decide)
      (by decide) (by decide)).1⟩

/-- C10: for every environment the guard of main is true exactly when the
username is empty or the password is empty: the presence flags add nothing,
because LookupEnv returns the empty string for a variable it reports as
absent. A run of main with a variable unset is the run with that variable
set to the empty string. -/
theorem guard_flags_redundant (world : World) :
    guard (os.LookupEnv world.env usernameEnv).1 (os.LookupEnv world.env usernameEnv).2
        (os.LookupEnv world.env passwordEnv).1 (os.LookupEnv world.env passwordEnv).2 =
      guardByValue (os.LookupEnv world.env usernameEnv).1
        (os.LookupEnv world.env passwordEnv).1 ∧
    (∀ key : String,
      (os.LookupEnv world.env key).2 = true ∨ (os.LookupEnv world.env key).1 = []) ∧
    (∀ key : String,
      Prog.run (main { world with env := setenv world.env key none }) =
        Prog.run (main { world with env := setenv world.env key (some []) })) := by
  refine ⟨?_, ?_, ?_⟩
  · unfold guard guardByValue os.LookupEnv
    rcases hu : world.env usernameEnv with _ | u <;>
      rcases hp : world.env passwordEnv with _ | p <;> simp
  · intro key
    unfold os.LookupEnv
    rcases hu : world.env key with _ | u <;> simp
  · intro key
    by_cases hk : usernameEnv = key ∨ passwordEnv = key
    · have h1 : guard (os.LookupEnv (setenv world.env key none) usernameEnv).1
          (os.LookupEnv (setenv world.env key none) usernameEnv).2
          (os.LookupEnv (setenv world.env key none) passwordEnv).1
          (os.LookupEnv (setenv world.env key none) passwordEnv).2 = true := by
        rw [guard_eq_true_iff]
        unfold unsetOrEmpty setenv
        rcases hk with hk | hk
        · exact Or.inl (Or.inl (by simp [hk]))
        · exact Or.inr (Or.inl (by simp [hk]))
      have h2 : guard (os.LookupEnv (setenv world.env key (some [])) usernameEnv).1
          (os.LookupEnv (setenv world.env key (some [])) usernameEnv).2
          (os.LookupEnv (setenv world.env key (some [])) passwordEnv).1
          (os.LookupEnv (setenv world.env key (some [])) passwordEnv).2 = true := by
        rw [guard_eq_true_iff]
        unfold unsetOrEmpty setenv
        rcases hk with hk | hk
        · exact Or.inl (Or.inr (by simp [hk]))
        · exact Or.inr (Or.inr (by simp [hk]))
      rw [run_main_guard _ h1, run_main_guard _ h2]
    · have hk1 : usernameEnv ≠ key := fun h => hk (Or.inl h)
      have hk2 : passwordEnv ≠ key := fun h => hk (Or.inr h)
      have he : ∀ v : Option GoString,
          Prog.run (main { world with env := setenv world.env key v }) =
            Prog.run (main world) := by
        intro v
        unfold Prog.run main os.LookupEnv setenv serve
        simp only [hk1, hk2, if_false]
      rw [he none, he (some [])]

end basic_auth

namespace getting_started

/-- The goroutine of getting_started ends the process with code 1 when
ListenAndServe returns, and keeps serving otherwise. -/
theorem goroutine_outcome (world : World) (port : Int) :
    (Prog.run (serve world port)).1 =
      if world.listen.isSome then Except.error (Stop.exit 1) else Except.error Stop.blocked := by
  unfold Prog.run serve
  by_cases h : world.listen.isSome = true <;>
    simp [h, run_bind, run_emit, run_Fatalf, run_throw]

theorem run_main_of_flags (world : World) (port : Int) (title : String)
    (hf : world.flags = .ok (port, title)) (hs : world.newScheduler = none)
    (events : List Event)
    (h1 : StateT.run (ExceptT.run (addJobs world.newJob 0
        ((jobs world.now).map (fun job => (job.definition, job.task, job.options)))))
        [.Parse, .NewScheduler] = (Except.ok (), [.Parse, .NewScheduler] ++ events)) :
    Prog.run (main world) =
      (if world.listen.isSome then Except.error (Stop.exit 1)
        else if world.signal then Except.ok () else Except.error Stop.blocked,
       [.Parse, .NewScheduler] ++ events ++
        [.Start, .Println "Scheduler started with", .NewServer port title,
         .Go (Prog.run (serve world port)).2, .Notify, .Receive] ++
        lastCalls world) := by
  unfold main lastCalls
  simp only [goroutine_outcome]
  unfold Prog.run
  simp only [hf, hs, run_bind, run_emit, run_Fatalf, run_pure, run_throw,
    List.nil_append, List.cons_append, h1, Option.isSome_none, Bool.false_eq_true, if_false]
  cases world.listen <;> cases world.signal <;> cases world.shutdown <;>
    simp [run_bind, run_emit, run_pure, run_throw, Prog.run]

end getting_started

/-- The calls after the loop of a main hold one Start, first, and no NewJob. -/
theorem after_loop (world : World) (port : Int) (title : String) (body : List Event) :
    ∃ post, ([Event.Start, .Println "Scheduler started with", .NewServer port title,
          .Go body, .Notify, .Receive] ++ lastCalls world) = Event.Start :: post ∧
      post.filterMap Event.newJob = [] ∧ post.filter Event.isStart = [] := by
  refine ⟨_, rfl, ?_, ?_⟩ <;> unfold lastCalls <;>
    cases world.listen <;> cases world.signal <;> cases world.shutdown <;>
    simp [List.filterMap_cons, List.filter_cons, Event.newJob, Event.isStart]

/-- C7: the loop of the mains calls NewJob exactly once for every entry of
any job table, in table order, with the definition, task and options of the
entry, whichever calls return an error; an error only adds a log line and
never stops the loop. In both example mains, once the scheduler is created,
the NewJob calls of the run are the entries of the table in order, all of
them made before the one call of Start, and how the program ends does not
depend on the calls that failed: the process exits with code 1 when
ListenAndServe fails in the goroutine, main returns when a signal arrives,
and waits for good otherwise. -/
theorem newJob_called_for_every_entry (world : World) :
    (∀ (table : List (gocron.JobDefinition × gocron.Task × List gocron.JobOption))
        (k : Nat) (log : List Event),
      ∃ events, StateT.run (ExceptT.run (addJobs world.newJob k table)) log =
          (Except.ok (), log ++ events) ∧
        events.filterMap Event.newJob = table ∧
        (∀ e ∈ events, (∃ d t o, e = Event.NewJob d t o) ∨
          e = Event.Printf "Error creating job: %v") ∧
        (events.filter Event.isJobError).length =
          ((List.range table.length).filter (fun i => (world.newJob (k + i)).isSome)).length) ∧
    (∀ port title,
      basic_auth.guard (os.LookupEnv world.env basic_auth.usernameEnv).1
        (os.LookupEnv world.env basic_auth.usernameEnv).2
        (os.LookupEnv world.env basic_auth.passwordEnv).1
        (os.LookupEnv world.env basic_auth.passwordEnv).2 = false →
      world.flags = .ok (port, title) → world.newScheduler = none →
      ∃ pre post, (Prog.run (basic_auth.main world)).2 = pre ++ Event.Start :: post ∧
        pre.filterMap Event.newJob =
          basic_auth.jobs.map (fun job => (job.definition, job.task, job.options)) ∧
        pre.filter Event.isStart = [] ∧
        post.filterMap Event.newJob = [] ∧ post.filter Event.isStart = [] ∧
        (Prog.run (basic_auth.main world)).1 =
          (if world.listen.isSome then Except.error (Stop.exit 1)
            else if world.signal then Except.ok () else Except.error Stop.blocked)) ∧
    (∀ port title,
      world.flags = .ok (port, title) → world.newScheduler = none →
      ∃ pre post, (Prog.run (getting_started.main world)).2 = pre ++ Event.Start :: post ∧
        pre.filterMap Event.newJob =
          (getting_started.jobs world.now).map
            (fun job => (job.definition, job.task, job.options)) ∧
        pre.filter Event.isStart = [] ∧
        post.filterMap Event.newJob = [] ∧ post.filter Event.isStart = [] ∧
        (Prog.run (getting_started.main world)).1 =
          (if world.listen.isSome then Except.error (Stop.exit 1)
            else if world.signal then Except.ok () else Except.error Stop.blocked)) := by
  refine ⟨?_, ?_, ?_⟩
  · intro table k log
    obtain ⟨events, h1, h2, _, _, h6, h5⟩ := run_addJobs world.newJob table k log
    exact ⟨events, h1, h2, h6, h5⟩
  · intro port title hg hf hs
    obtain ⟨events, h1, h2, _, h4, _, _⟩ := run_addJobs world.newJob
      (basic_auth.jobs.map (fun job => (job.definition, job.task, job.options))) 0
      [.LookupEnv basic_auth.usernameEnv, .LookupEnv basic_auth.passwordEnv, .Parse,
        .NewScheduler]
    obtain ⟨post, hp1, hp2, hp3⟩ := after_loop world port title
      (Prog.run (basic_auth.serve world port
        (os.LookupEnv world.env basic_auth.usernameEnv).1
        (os.LookupEnv world.env basic_auth.passwordEnv).1)).2
    rw [basic_auth.run_main_ok world port title hg hf hs events h1]
    refine ⟨[.LookupEnv basic_auth.usernameEnv, .LookupEnv basic_auth.passwordEnv, .Parse,
      .NewScheduler] ++ events, post, ?_, ?_, ?_, hp2, hp3, rfl⟩
    · simp only [List.append_assoc, hp1]
    · simp [List.filterMap_cons, List.filterMap_append, Event.newJob, h2]
    · simp [List.filter_cons, List.filter_append, Event.isStart, h4]
  · intro port title hf hs
    obtain ⟨events, h1, h2, _, h4, _, _⟩ := run_addJobs world.newJob
      ((getting_started.jobs world.now).map (fun job => (job.definition, job.task, job.options)))
      0 [.Parse, .NewScheduler]
    obtain ⟨post, hp1, hp2, hp3⟩ := after_loop world port title
      (Prog.run (getting_started.serve world port)).2
    rw [getting_started.run_main_of_flags world port title hf hs events h1]
    refine ⟨[.Parse, .NewScheduler] ++ events, post, ?_, ?_, ?_, hp2, hp3, rfl⟩
    · simp only [List.append_assoc, hp1]
    · simp [List.filterMap_cons, List.filterMap_append, Event.newJob, h2]
    · simp [List.filter_cons, List.filter_append, Event.isStart, h4]

/-- Witness of C7 for both mains, on the sample world, in which the second
NewJob call fails and a signal arrives, and on the same world with a listener
that fails, where the process exits with code 1 after the same NewJob calls. -/
theorem newJob_called_for_every_entry_witness :
    sample.world.flags = .ok (8080, "GoCron Scheduler") ∧ sample.world.newScheduler = none ∧
      (sample.world.newJob 1).isSome = true ∧
      basic_auth.guard (os.LookupEnv sample.world.env basic_auth.usernameEnv).1
        (os.LookupEnv sample.world.env basic_auth.usernameEnv).2
        (os.LookupEnv sample.world.env basic_auth.passwordEnv).1
        (os.LookupEnv sample.world.env basic_auth.passwordEnv).2 = false ∧
      (∃ pre post, (Prog.run (basic_auth.main sample.world)).2 = pre ++ Event.Start :: post ∧
        pre.filterMap Event.newJob =
          basic_auth.jobs.map (fun job => (job.definition, job.task, job.options)) ∧
        pre.filter Event.isStart = [] ∧
        post.filterMap Event.newJob = [] ∧ post.filter Event.isStart = [] ∧
        (Prog.run (basic_auth.main sample.world)).1 = Except.ok ()) ∧
      (∃ pre post, (Prog.run (getting_started.main sample.world)).2 = pre ++ Event.Start :: post ∧
        pre.filterMap Event.newJob =
          (getting_started.jobs sample.world.now).map
            (fun job => (job.definition, job.task, job.options)) ∧
        pre.filter Event.isStart = [] ∧
        post.filterMap Event.newJob = [] ∧ post.filter Event.isStart = [] ∧
        (Prog.run (getting_started.main sample.world)).1 = Except.ok ()) ∧
      (∃ pre post, (Prog.run (basic_auth.main sample.worldPortTaken)).2 =
          pre ++ Event.Start :: post ∧
        pre.filterMap Event.newJob =
          basic_auth.jobs.map (fun job => (job.definition, job.task, job.options)) ∧
        pre.filter Event.isStart = [] ∧
        post.filterMap Event.newJob = [] ∧ post.filter Event.isStart = [] ∧
        (Prog.run (basic_auth.main sample.worldPortTaken)).1 = Except.error (Stop.exit 1)) ∧
      ∃ pre post, (Prog.run (getting_started.main sample.worldPortTaken)).2 =
          pre ++ Event.Start :: post ∧
        pre.filterMap Event.newJob =
          (getting_started.jobs sample.worldPortTaken.now).map
            (fun job => (job.definition, job.task, job.options)) ∧
        pre.filter Event.isStart = [] ∧
        post.filterMap Event.newJob = [] ∧ post.filter Event.isStart = [] ∧
        (Prog.run (getting_started.main sample.worldPortTaken)).1 =
          Except.error (Stop.exit 1) :=
  ⟨rfl, rfl, by decide, by decide,
    (newJob_called_for_every_entry sample.world).2.1 8080 "GoCron Scheduler" (by decide) rfl rfl,
    (newJob_called_for_every_entry sample.world).2.2 8080 "GoCron Scheduler" rfl rfl,
    (newJob_called_for_every_entry sample.worldPortTaken).2.1 8080 "GoCron Scheduler"
      (by decide) rfl rfl,
    (newJob_called_for_every_entry sample.worldPortTaken).2.2 8080 "GoCron Scheduler" rfl rfl⟩

/-! ## Triggers -/

namespace spec

open time

theorem earliest_mem : ∀ (l : List Int) (u : Int), earliest l = some u → u ∈ l
  | [], u, h => by simp [earliest] at h
  | t :: rest, u, h => by
      unfold earliest at h
      rcases hr : earliest rest with _ | v
      · rw [hr] at h
        simp only [Option.some.injEq] at h
        simp [h]
      · rw [hr] at h
        simp only [Option.some.injEq] at h
        by_cases htv : t ≤ v
        · rw [if_pos htv] at h
          simp [h]
        · rw [if_neg htv] at h
          have := earliest_mem rest v hr
          rw [h] at this
          exact List.mem_cons_of_mem _ this

theorem earliest_le : ∀ (l : List Int) (u : Int), earliest l = some u → ∀ v ∈ l, u ≤ v
  | [], u, h => by simp [earliest] at h
  | t :: rest, u, h => by
      unfold earliest at h
      intro v hv
      rcases hr : earliest rest with _ | w
      · rw [hr] at h
        simp only [Option.some.injEq] at h
        cases rest with
        | nil =>
            simp only [List.mem_singleton] at hv
            omega
        | cons a rest =>
            unfold earliest at hr
            rcases h2 : earliest rest with _ | x <;> rw [h2] at hr <;> simp at hr
      · rw [hr] at h
        simp only [Option.some.injEq] at h
        have ih := earliest_le rest w hr
        rcases List.mem_cons.mp hv with hv | hv
        · by_cases htw : t ≤ w
          · rw [if_pos htw] at h; omega
          · rw [if_neg htw] at h; omega
        · have := ih v hv
          by_cases htw : t ≤ w
          · rw [if_pos htw] at h; omega
          · rw [if_neg htw] at h; omega

theorem earliest_isSome : ∀ (l : List Int), l ≠ [] → ∃ u, earliest l = some u
  | [], h => absurd rfl h
  | t :: rest, _ => by
      unfold earliest
      rcases earliest rest with _ | v
      · exact ⟨t, rfl⟩
      · exact ⟨_, rfl⟩

/-- A FixedInterval with a positive duration gives a later time. -/
theorem next_FixedInterval (uniform_random : Int → Int → Int → Int)
    (d : Int) (hd : 0 < d) (t : Int) :
    ∃ u, next_run_at uniform_random (.FixedInterval d) t = some u ∧ t < u :=
  ⟨t + d, rfl, by omega⟩

/-- A RandomInterval with a positive lower bound gives a later time, when
the draw lies within the bounds. -/
theorem next_RandomInterval (uniform_random : Int → Int → Int → Int)
    (min max : Int) (hmin : 0 < min) (hmax : min ≤ max)
    (hdraw : ∀ a b t, a ≤ b → a ≤ uniform_random a b t ∧ uniform_random a b t ≤ b)
    (t : Int) :
    ∃ u, next_run_at uniform_random (.RandomInterval min max) t = some u ∧ t < u :=
  ⟨t + uniform_random min max t, rfl, by have := (hdraw min max t hmax).1; omega⟩

/-- What a Calendar trigger gives is later than the time it is computed from. -/
theorem next_Calendar_later (uniform_random : Int → Int → Int → Int)
    (n : Nat) (days : Option (List Weekday)) (times : List gocron.AtTime) (t u : Int)
    (h : next_run_at uniform_random (.Calendar n days times) t = some u) : t < u := by
  unfold next_run_at at h
  have := earliest_mem _ _ h
  rw [List.mem_filter] at this
  simpa using this.2

/-- A Calendar trigger gives a time as soon as one candidate is later than
the time it is computed from. -/
theorem next_Calendar_of_candidate (uniform_random : Int → Int → Int → Int)
    (n : Nat) (days : Option (List Weekday)) (times : List gocron.AtTime) (t : Int)
    (day : Int) (a : gocron.AtTime) (hday : day ∈ calendarDays n days (dayOf t))
    (ha : a ∈ times) (hlater : t < day * Day + offsetOf a) :
    ∃ u, next_run_at uniform_random (.Calendar n days times) t = some u ∧ t < u := by
  have hne : ((calendarDays n days (dayOf t)).flatMap
      (fun day => times.map (fun a => day * Day + offsetOf a))).filter
      (fun u => decide (t < u)) ≠ [] := by
    intro h
    have hm : day * Day + offsetOf a ∈ ((calendarDays n days (dayOf t)).flatMap
        (fun day => times.map (fun a => day * Day + offsetOf a))).filter
        (fun u => decide (t < u)) := by
      rw [List.mem_filter]
      refine ⟨?_, by simpa using hlater⟩
      rw [List.mem_flatMap]
      exact ⟨day, hday, List.mem_map.mpr ⟨a, ha, rfl⟩⟩
    rw [h] at hm
    simp at hm
  obtain ⟨u, hu⟩ := earliest_isSome _ hne
  have hn : next_run_at uniform_random (.Calendar n days times) t = some u := by
    unfold next_run_at
    exact hu
  exact ⟨u, hn, next_Calendar_later uniform_random n days times t u hn⟩

theorem dayOf_bounds (t : Int) : dayOf t * Day ≤ t ∧ t < (dayOf t + 1) * Day := by
  unfold dayOf Day Second
  constructor <;> omega

/-- The daily trigger of the table, every day at 14:30:00, gives a later time. -/
theorem next_daily (uniform_random : Int → Int → Int → Int) (t : Int) :
    ∃ u, next_run_at uniform_random (.Calendar 1 none [⟨14, 30, 0⟩]) t = some u ∧ t < u := by
  apply next_Calendar_of_candidate uniform_random 1 none _ t (dayOf t + 1) ⟨14, 30, 0⟩
  · simp [calendarDays]
  · simp
  · have := dayOf_bounds t
    simp only [offsetOf, Day, Second] at *
    omega

/-- The weekly trigger of the table, Monday, Wednesday and Friday at
09:00:00, gives a later time. -/
theorem next_weekly (uniform_random : Int → Int → Int → Int) (t : Int) :
    ∃ u, next_run_at uniform_random
      (.Calendar 1 (some [.Monday, .Wednesday, .Friday]) [⟨9, 0, 0⟩]) t = some u ∧ t < u := by
  apply next_Calendar_of_candidate uniform_random 1 _ _ t
    (dayOf t - weekdayOf (dayOf t) + 7 * ((1 : Nat) : Int) + ((1 : Nat) : Int)) ⟨9, 0, 0⟩
  · unfold calendarDays
    simp only
    rw [List.mem_filter]
    constructor
    · rw [List.mem_append]
      right
      exact List.mem_map.mpr ⟨1, by decide, rfl⟩
    · have h1 : weekdayOf (dayOf t - weekdayOf (dayOf t) + 7 * ((1 : Nat) : Int) +
          ((1 : Nat) : Int)) = 1 := by
        unfold weekdayOf
        omega
      rw [h1]
      decide
  · simp
  · have := dayOf_bounds t
    have hw : 0 ≤ weekdayOf (dayOf t) ∧ weekdayOf (dayOf t) < 7 := by
      unfold weekdayOf; omega
    simp only [offsetOf, Day, Second] at *
    push_cast
    omega

end spec

namespace spec

theorem doe_bounds (doe : Int) (h0 : 0 ≤ doe) (h1 : doe < 146097) :
    (0 ≤ (5 * (doe - (365 * ((doe - doe / 1460 + doe / 36524 - doe / 146096) / 365) +
          (doe - doe / 1460 + doe / 36524 - doe / 146096) / 365 / 4 -
          (doe - doe / 1460 + doe / 36524 - doe / 146096) / 365 / 100)) + 2) / 153 ∧
      (5 * (doe - (365 * ((doe - doe / 1460 + doe / 36524 - doe / 146096) / 365) +
          (doe - doe / 1460 + doe / 36524 - doe / 146096) / 365 / 4 -
          (doe - doe / 1460 + doe / 36524 - doe / 146096) / 365 / 100)) + 2) / 153 ≤ 11) ∧
    (1 ≤ doe - (365 * ((doe - doe / 1460 + doe / 36524 - doe / 146096) / 365) +
          (doe - doe / 1460 + doe / 36524 - doe / 146096) / 365 / 4 -
          (doe - doe / 1460 + doe / 36524 - doe / 146096) / 365 / 100) -
        (153 * ((5 * (doe - (365 * ((doe - doe / 1460 + doe / 36524 - doe / 146096) / 365) +
          (doe - doe / 1460 + doe / 36524 - doe / 146096) / 365 / 4 -
          (doe - doe / 1460 + doe / 36524 - doe / 146096) / 365 / 100)) + 2) / 153) + 2) / 5
        + 1 ∧
      doe - (365 * ((doe - doe / 1460 + doe / 36524 - doe / 146096) / 365) +
          (doe - doe / 1460 + doe / 36524 - doe / 146096) / 365 / 4 -
          (doe - doe / 1460 + doe / 36524 - doe / 146096) / 365 / 100) -
        (153 * ((5 * (doe - (365 * ((doe - doe / 1460 + doe / 36524 - doe / 146096) / 365) +
          (doe - doe / 1460 + doe / 36524 - doe / 146096) / 365 / 4 -
          (doe - doe / 1460 + doe / 36524 - doe / 146096) / 365 / 100)) + 2) / 153) + 2) / 5
        + 1 ≤ 31) := by
  have hi : doe / 36524 = 0 ∨ doe / 36524 = 1 ∨ doe / 36524 = 2 ∨ doe / 36524 = 3 ∨
      doe / 36524 = 4 := by omega
  have hf : (doe - doe / 1460 + doe / 36524 - doe / 146096) / 365 / 100 = 0 ∨
      (doe - doe / 1460 + doe / 36524 - doe / 146096) / 365 / 100 = 1 ∨
      (doe - doe / 1460 + doe / 36524 - doe / 146096) / 365 / 100 = 2 ∨
      (doe - doe / 1460 + doe / 36524 - doe / 146096) / 365 / 100 = 3 := by omega
  rcases hi with hi | hi | hi | hi | hi <;> rcases hf with hf | hf | hf | hf <;>
    refine ⟨⟨?_, ?_⟩, ?_, ?_⟩ <;> omega

/-- The month of a date lies between 1 and 12, the day between 1 and 31. -/
theorem civil_bounds (day : Int) :
    (1 ≤ (civil day).2.1 ∧ (civil day).2.1 ≤ 12) ∧
      (1 ≤ (civil day).2.2 ∧ (civil day).2.2 ≤ 31) := by
  have h0 : 0 ≤ day + 719468 - (day + 719468) / 146097 * 146097 := by omega
  have h1 : day + 719468 - (day + 719468) / 146097 * 146097 < 146097 := by omega
  have hb := doe_bounds _ h0 h1
  unfold civil
  simp only
  refine ⟨?_, hb.2⟩
  obtain ⟨⟨hb1, hb2⟩, _⟩ := hb
  split <;> constructor <;> omega

/-- The expression `* * * * *` fires at every whole minute. -/
theorem fires_everyMinute (t : Int) (h : t % Minute = 0) : cron.fires cron.everyMinute t = true := by
  obtain ⟨⟨hm1, hm2⟩, hd1, hd2⟩ := civil_bounds (dayOf t)
  have hw : 0 ≤ weekdayOf (dayOf t) ∧ weekdayOf (dayOf t) ≤ 6 := by
    unfold weekdayOf; omega
  have hb := dayOf_bounds t
  unfold cron.fires
  simp only [cron.everyMinute, cron.has, cron.starred, List.any_cons, List.any_nil,
    Bool.or_false, Bool.or_true, true_or, if_true]
  generalize civil (dayOf t) = date at *
  generalize weekdayOf (dayOf t) = w at *
  generalize dayOf t = d at *
  simp only [Bool.decide_and, Bool.and_eq_true, decide_eq_true_eq, Bool.decide_eq_true]
  unfold Minute at *
  unfold Day at *
  unfold time.Second at *
  push_cast
  refine ⟨?_, ⟨?_, ?_, ?_⟩, ⟨?_, ?_, ?_⟩, ⟨?_, ?_, ?_⟩, ⟨?_, ?_, ?_⟩, ⟨?_, ?_, ?_⟩,
    ⟨?_, ?_, ?_⟩⟩ <;> omega

/-- The cron trigger of the table, `* * * * *`, gives a later time: the next whole minute. -/
theorem next_everyMinute (uniform_random : Int → Int → Int → Int) (t : Int) :
    ∃ u, next_run_at uniform_random (.Cron "* * * * *" false) t = some u ∧ t < u := by
  have hp : cron.parse "* * * * *" false = some cron.everyMinute := by decide
  have hf : cron.fires cron.everyMinute ((t / Minute + 1) * Minute) = true :=
    fires_everyMinute _ (by unfold Minute time.Second; omega)
  refine ⟨(t / Minute + 1) * Minute, ?_, by unfold Minute time.Second; omega⟩
  unfold next_run_at
  simp only [hp, cron.next, Bool.false_eq_true, if_false]
  rw [show 8 * 366 * 1440 = 4216319 + 1 from rfl, cron.search, if_pos hf]

end spec

/-! ## The triggers of the job tables -/

/-- The job definitions of the two tables. -/
theorem definitions_cases (now : Int) :
    ∀ definition ∈ basic_auth.jobs.map (fun job => job.definition) ++
        (getting_started.jobs now).map (fun job => job.definition),
      definition = .DurationJob (10 * time.Second) ∨
      definition = .DurationJob (5 * time.Second) ∨
      definition = .DurationJob (20 * time.Second) ∨
      definition = .CronJob "* * * * *" false ∨
      definition = .DailyJob 1 [⟨14, 30, 0⟩] ∨
      definition = .WeeklyJob 1 [.Monday, .Wednesday, .Friday] [⟨9, 0, 0⟩] ∨
      definition = .DurationJob (12 * time.Second) ∨
      definition = .DurationJob (8 * time.Second) ∨
      definition = .DurationRandomJob (5 * time.Second) (15 * time.Second) ∨
      definition = .DurationJob (7 * time.Second) ∨
      definition = .DurationJob (15 * time.Second) ∨
      definition = .OneTimeJob (now + 30 * time.Second) ∨
      definition = .DurationJob (30 * time.Second) := by
  intro definition h
  simp only [basic_auth.jobs, getting_started.jobs, List.map_cons, List.map_nil,
    List.cons_append, List.nil_append, List.mem_cons, List.not_mem_nil, or_false,
    gocron.NewAtTimes, gocron.NewWeekdays] at h
  rcases h with h | h | h | h | h | h | h | h | h | h | h | h | h | h | h | h | h <;>
    simp [h]

/-- Every job definition of the two tables has a valid trigger. -/
theorem definitions_valid (now : Int) :
    ∀ definition ∈ basic_auth.jobs.map (fun job => job.definition) ++
        (getting_started.jobs now).map (fun job => job.definition),
      (spec.Trigger.ofDefinition definition).valid = true := by
  intro definition h
  rcases definitions_cases now definition h with
    h | h | h | h | h | h | h | h | h | h | h | h | h <;> subst h <;> first | decide | rfl

/-- Every trigger of the two tables but the OneTime one gives, from any
time, a later time. -/
theorem definitions_recur (now : Int) (uniform_random : Int → Int → Int → Int)
    (hdraw : ∀ a b t, a ≤ b → a ≤ uniform_random a b t ∧ uniform_random a b t ≤ b) :
    ∀ definition ∈ basic_auth.jobs.map (fun job => job.definition) ++
        (getting_started.jobs now).map (fun job => job.definition),
      (∀ startDateTime, definition ≠ .OneTimeJob startDateTime) →
      ∀ t, ∃ u, spec.next_run_at uniform_random (spec.Trigger.ofDefinition definition) t =
        some u ∧ t < u := by
  intro definition h hne t
  rcases definitions_cases now definition h with
    h | h | h | h | h | h | h | h | h | h | h | h | h <;> subst h
  · exact spec.next_FixedInterval uniform_random _ (by decide) t
  · exact spec.next_FixedInterval uniform_random _ (by decide) t
  · exact spec.next_FixedInterval uniform_random _ (by decide) t
  · exact spec.next_everyMinute uniform_random t
  · exact spec.next_daily uniform_random t
  · exact spec.next_weekly uniform_random t
  · exact spec.next_FixedInterval uniform_random _ (by decide) t
  · exact spec.next_FixedInterval uniform_random _ (by decide) t
  · exact spec.next_RandomInterval uniform_random _ _ (by decide) (by decide) hdraw t
  · exact spec.next_FixedInterval uniform_random _ (by decide) t
  · exact spec.next_FixedInterval uniform_random _ (by decide) t
  · exact absurd rfl (hne _)
  · exact spec.next_FixedInterval uniform_random _ (by decide) t

/-- Every trigger of the two tables keeps the invariant: a next run time
it gives is later than the time it is computed from. -/
theorem definitions_later (now : Int) (uniform_random : Int → Int → Int → Int)
    (hdraw : ∀ a b t, a ≤ b → a ≤ uniform_random a b t ∧ uniform_random a b t ≤ b) :
    ∀ definition ∈ basic_auth.jobs.map (fun job => job.definition) ++
        (getting_started.jobs now).map (fun job => job.definition),
      ∀ t u, spec.next_run_at uniform_random (spec.Trigger.ofDefinition definition) t = some u →
        t < u := by
  intro definition h t u hu
  by_cases hone : ∃ startDateTime, definition = .OneTimeJob startDateTime
  · obtain ⟨startDateTime, rfl⟩ := hone
    simp only [spec.Trigger.ofDefinition, spec.next_run_at] at hu
    by_cases hlt : t < startDateTime
    · rw [if_pos hlt] at hu
      injection hu with hu
      omega
    · rw [if_neg hlt] at hu
      cases hu
  · obtain ⟨v, hv, hlt⟩ := definitions_recur now uniform_random hdraw definition h
      (fun s hs => hone ⟨s, hs⟩) t
    rw [hv] at hu
    injection hu with hu
    omega

/-- C8: every trigger of the two example job tables other than the OneTime
one meets the conditions of its kind: every DurationJob interval is
positive, the DurationRandomJob bounds are 0 < 5s < 15s, the DailyJob and
the WeeklyJob have interval 1 and at-times with hour < 24, minute < 60 and
second < 60, the WeeklyJob has a weekday, and the CronJob expression
`* * * * *` has exactly 5 fields with seconds disabled. Hence every entry
has a valid trigger and NewJob rejects none of them; and every trigger but
the OneTime one yields, from any time t, a next run time strictly greater
than t (for the random interval: whenever the draw lies within the bounds). -/
theorem example_triggers_valid (now : Int) :
    (∀ definition ∈ basic_auth.jobs.map (fun job => job.definition) ++
        (getting_started.jobs now).map (fun job => job.definition),
      match definition with
      | .DurationJob duration => 0 < duration
      | .DurationRandomJob minDuration maxDuration =>
          minDuration = 5 * time.Second ∧ maxDuration = 15 * time.Second ∧
            0 < minDuration ∧ minDuration < maxDuration
      | .CronJob crontab withSeconds =>
          crontab = "* * * * *" ∧ (spec.cron.fields crontab).length = 5 ∧ withSeconds = false
      | .DailyJob interval atTimes =>
          interval = 1 ∧ 1 ≤ interval ∧
            ∀ a ∈ atTimes, a.hours < 24 ∧ a.minutes < 60 ∧ a.seconds < 60
      | .WeeklyJob interval daysOfTheWeek atTimes =>
          interval = 1 ∧ 1 ≤ interval ∧ daysOfTheWeek ≠ [] ∧
            ∀ a ∈ atTimes, a.hours < 24 ∧ a.minutes < 60 ∧ a.seconds < 60
      | .OneTimeJob startDateTime => startDateTime = now + 30 * time.Second) ∧
    (∀ definition ∈ basic_auth.jobs.map (fun job => job.definition) ++
        (getting_started.jobs now).map (fun job => job.definition),
      (spec.Trigger.ofDefinition definition).valid = true ∧
        ∀ (uniform_random : Int → Int → Int → Int) (s : spec.Scheduler)
          (task : gocron.Task) (options : List gocron.JobOption),
          ∃ s1, s.NewJob uniform_random definition task options = .ok s1) ∧
    (∀ uniform_random : Int → Int → Int → Int,
      (∀ a b t, a ≤ b → a ≤ uniform_random a b t ∧ uniform_random a b t ≤ b) →
      ∀ definition ∈ basic_auth.jobs.map (fun job => job.definition) ++
          (getting_started.jobs now).map (fun job => job.definition),
        (∀ startDateTime, definition ≠ .OneTimeJob startDateTime) →
        ∀ t, ∃ u, spec.next_run_at uniform_random (spec.Trigger.ofDefinition definition) t =
          some u ∧ t < u) := by
  refine ⟨?_, ?_, ?_⟩
  · intro definition h
    rcases definitions_cases now definition h with
      h | h | h | h | h | h | h | h | h | h | h | h | h <;>
      subst h <;> dsimp only <;> decide
  · intro definition h
    have hv := definitions_valid now definition h
    refine ⟨hv, ?_⟩
    intro uniform_random s task options
    unfold spec.Scheduler.NewJob
    simp only [hv, if_true]
    exact ⟨_, rfl⟩
  · intro uniform_random hdraw definition h hne t
    exact definitions_recur now uniform_random hdraw definition h hne t

/-- Witness of C8 with the draw that gives the lower bound, on the
limited-run trigger of the table. -/
theorem example_triggers_valid_witness :
    (∀ a b t : Int, a ≤ b → a ≤ sample.lowest a b t ∧ sample.lowest a b t ≤ b) ∧
      gocron.JobDefinition.DurationJob (7 * time.Second) ∈
        basic_auth.jobs.map (fun job => job.definition) ++
          (getting_started.jobs 0).map (fun job => job.definition) ∧
      ∃ u, spec.next_run_at sample.lowest
        (spec.Trigger.ofDefinition (.DurationJob (7 * time.Second))) 0 = some u ∧ 0 < u :=
  ⟨fun a b _ h => ⟨le_refl a, h⟩, by decide,
    (example_triggers_valid 0).2.2 sample.lowest (fun a b _ h => ⟨le_refl a, h⟩)
      (.DurationJob (7 * time.Second)) (by decide) (by intro _ h; cases h) 0⟩
/-! ## The dispatch loop -/

namespace spec

theorem filter_id_eq_singleton : ∀ (l : List Job) (j : Job),
    (l.map (fun j => j.id)).Nodup → j ∈ l → l.filter (fun x => x.id == j.id) = [j]
  | [], j, _, h => by simp at h
  | x :: l, j, hn, h => by
      rw [List.map_cons, List.nodup_cons] at hn
      rcases List.mem_cons.mp h with h | h
      · subst h
        have hl : l.filter (fun x => x.id == j.id) = [] := by
          rw [List.filter_eq_nil_iff]
          intro y hy hid
          exact hn.1 (List.mem_map.mpr ⟨y, hy, by simpa using hid⟩)
        simp [List.filter_cons, hl]
      · have hx : (x.id == j.id) = false := by
          rw [beq_eq_false_iff_ne]
          intro hid
          exact hn.1 (List.mem_map.mpr ⟨j, h, hid.symm⟩)
        rw [List.filter_cons, hx]
        exact filter_id_eq_singleton l j hn.2 h

/-- Counting completions changes nothing of a job but runs_completed. -/
theorem iterate_count_eq (s : Scheduler) : ∀ (m : Nat) (j : Job),
    ∃ r, Nat.iterate s.count m j = { j with runs_completed := r }
  | 0, j => ⟨j.runs_completed, rfl⟩
  | m + 1, j => by
      obtain ⟨r, hr⟩ := iterate_count_eq s m (s.count j)
      rw [Function.iterate_succ_apply, hr]
      unfold Scheduler.count
      split
      · exact ⟨r, rfl⟩
      · exact ⟨r, rfl⟩

theorem iterate_count_of_destroyed (s : Scheduler) (j : Job) (h : s.destroyed j = true) :
    ∀ m : Nat, Nat.iterate s.count m j = j
  | 0 => rfl
  | m + 1 => by
      have hc : s.count j = j := by
        unfold Scheduler.count
        rw [if_pos h]
      rw [Function.iterate_succ_apply, hc]
      exact iterate_count_of_destroyed s j h m

theorem mem_completions (t : Int) (s : Scheduler) (j1 : Job) :
    j1 ∈ (s.completions t).jobs ↔ ∃ j ∈ s.jobs, j1 = Nat.iterate s.count
      (s.in_flight.filter (fun e => e.job == j.id && decide (e.completes ≤ t))).length j := by
  unfold Scheduler.completions
  simp only [List.mem_map]
  constructor
  · rintro ⟨j, hj, h⟩; exact ⟨j, hj, h.symm⟩
  · rintro ⟨j, hj, h⟩; exact ⟨j, hj, h.symm⟩

theorem mem_fire (uniform_random : Int → Int → Int → Int) (t : Int) (s : Scheduler) (j1 : Job) :
    j1 ∈ (s.fire uniform_random t).jobs ↔ ∃ j ∈ s.jobs, j1 =
      if s.due t j then
        match s.policy j with
        | .execute => { j with next_run_at := next_run_at uniform_random j.trigger t }
        | .skip => { j with next_run_at := next_run_at uniform_random j.trigger t }
        | .defer => j
      else j := by
  unfold Scheduler.fire
  simp only [List.mem_map]
  constructor
  · rintro ⟨j, hj, h⟩; exact ⟨j, hj, h.symm⟩
  · rintro ⟨j, hj, h⟩; exact ⟨j, hj, h.symm⟩

theorem completions_names (t : Int) (s : Scheduler) :
    (s.completions t).jobs.map (fun j => (j.id, j.name, j.trigger)) =
      s.jobs.map (fun j => (j.id, j.name, j.trigger)) := by
  unfold Scheduler.completions
  simp only [List.map_map]
  apply List.map_congr_left
  intro j _
  simp only [Function.comp]
  obtain ⟨r, hr⟩ := iterate_count_eq s
    (s.in_flight.filter (fun e => e.job == j.id && decide (e.completes ≤ t))).length j
  rw [hr]

theorem fire_names (uniform_random : Int → Int → Int → Int) (t : Int) (s : Scheduler) :
    (s.fire uniform_random t).jobs.map (fun j => (j.id, j.name, j.trigger)) =
      s.jobs.map (fun j => (j.id, j.name, j.trigger)) := by
  unfold Scheduler.fire
  simp only [List.map_map]
  apply List.map_congr_left
  intro j _
  simp only [Function.comp]
  split
  · split <;> rfl
  · rfl

theorem dispatch_names (uniform_random : Int → Int → Int → Int) (t : Int) (s : Scheduler) :
    (s.dispatch uniform_random t).jobs.map (fun j => (j.id, j.name, j.trigger)) =
      s.jobs.map (fun j => (j.id, j.name, j.trigger)) := by
  unfold Scheduler.dispatch
  rw [completions_names, fire_names, completions_names]

theorem map_of_names {α : Type} (f : Nat × String × Trigger → α) (l1 l2 : List Job)
    (h : l1.map (fun j => (j.id, j.name, j.trigger)) = l2.map (fun j => (j.id, j.name, j.trigger))) :
    l1.map (fun j => f (j.id, j.name, j.trigger)) = l2.map (fun j => f (j.id, j.name, j.trigger)) := by
  have := congrArg (List.map f) h
  simpa [List.map_map, Function.comp_def] using this

theorem wellFormed_of_names (uniform_random : Int → Int → Int → Int) (s1 s : Scheduler)
    (hn : s1.jobs.map (fun j => (j.id, j.name, j.trigger)) =
      s.jobs.map (fun j => (j.id, j.name, j.trigger)))
    (h : s.WellFormed uniform_random) : s1.WellFormed uniform_random := by
  constructor
  · have := map_of_names (fun x => x.1) _ _ hn
    simp only at this
    rw [this]
    exact h.1
  · intro j1 hj1 x u hx
    have hm : (j1.id, j1.name, j1.trigger) ∈ s1.jobs.map (fun j => (j.id, j.name, j.trigger)) :=
      List.mem_map.mpr ⟨j1, hj1, rfl⟩
    rw [hn, List.mem_map] at hm
    obtain ⟨j, hj, he⟩ := hm
    have ht : j.trigger = j1.trigger := by
      injection he with _ he
      injection he
    rw [← ht] at hx
    exact h.2 j hj x u hx

end spec

namespace spec

theorem filter_and {α : Type} (p q : α → Bool) (l : List α) :
    l.filter (fun e => p e && q e) = (l.filter p).filter q := by
  rw [List.filter_filter]
  apply List.filter_congr
  intro e _
  exact Bool.and_comm _ _

theorem filter_comm {α : Type} (p q : α → Bool) (l : List α) :
    (l.filter p).filter q = (l.filter q).filter p := by
  rw [List.filter_filter, List.filter_filter]
  apply List.filter_congr
  intro e _
  exact Bool.and_comm _ _

/-- A job with a recurring trigger is destroyed exactly when its runs have
reached max_runs. -/
theorem destroyed_iff (uniform_random : Int → Int → Int → Int) (s : Scheduler) (j : Job) (n : Nat)
    (hr : j.trigger.recurring uniform_random) (hm : j.max_runs = some n) :
    s.destroyed j = true ↔ j.runs_completed = n := by
  unfold Scheduler.destroyed
  rw [hm]
  have hne : ∀ instant, j.trigger ≠ .OneTime instant := by
    intro instant h
    obtain ⟨u, hu⟩ := hr instant
    rw [h] at hu
    simp [next_run_at] at hu
  cases ht : j.trigger with
  | OneTime instant => exact absurd ht (hne instant)
  | FixedInterval d => simp; exact eq_comm
  | RandomInterval a b => simp; exact eq_comm
  | Cron e b => simp; exact eq_comm
  | Calendar i d ts => simp; exact eq_comm

theorem next_eq_tick (uniform_random : Int → Int → Int → Int) (trigger : Trigger) (t : Int)
    (hr : trigger.recurring uniform_random) :
    next_run_at uniform_random trigger t = some (tick uniform_random trigger t) := by
  obtain ⟨u, hu⟩ := hr t
  rw [tick, hu]
  rfl

theorem lt_tick (uniform_random : Int → Int → Int → Int) (trigger : Trigger) (t : Int)
    (hr : trigger.recurring uniform_random)
    (hi : ∀ t u, next_run_at uniform_random trigger t = some u → t < u) :
    t < tick uniform_random trigger t :=
  hi t _ (next_eq_tick uniform_random trigger t hr)

theorem duration_nonneg (uniform_random : Int → Int → Int → Int) (t : Int) :
    ∀ body : List gocron.Stmt, 0 ≤ duration uniform_random t body
  | [] => le_refl _
  | .Println _ :: rest => duration_nonneg uniform_random t rest
  | .Printf _ _ :: rest => duration_nonneg uniform_random t rest
  | .Sleep min max :: rest => by
      have := duration_nonneg uniform_random t rest
      unfold duration sleep
      split <;> split <;> omega

/-- Skipping stops at once at a firing time that is not before c. -/
theorem skipTo_of_le (uniform_random : Int → Int → Int → Int) (trigger : Trigger) (c u : Int)
    (h : c ≤ u) : ∀ fuel, skipTo uniform_random trigger c fuel u = u
  | 0 => rfl
  | fuel + 1 => by
      unfold skipTo
      rw [if_pos h]

/-- With enough firing times to try, skipping ends at a time not before c,
and how many more may be tried makes no difference. -/
theorem skipTo_spec (uniform_random : Int → Int → Int → Int) (trigger : Trigger) (c : Int)
    (hr : trigger.recurring uniform_random)
    (hi : ∀ t u, next_run_at uniform_random trigger t = some u → t < u) :
    ∀ (fuel : Nat) (u : Int), (c - u).toNat ≤ fuel →
      c ≤ skipTo uniform_random trigger c fuel u ∧
        skipTo uniform_random trigger c fuel u =
          skipTo uniform_random trigger c (c - u).toNat u
  | 0, u, h => by
      have hcu : c ≤ u := by omega
      exact ⟨by rw [skipTo_of_le _ _ _ _ hcu]; exact hcu,
        by rw [skipTo_of_le _ _ _ _ hcu, skipTo_of_le _ _ _ _ hcu]⟩
  | fuel + 1, u, h => by
      by_cases hcu : c ≤ u
      · exact ⟨by rw [skipTo_of_le _ _ _ _ hcu]; exact hcu,
          by rw [skipTo_of_le _ _ _ _ hcu, skipTo_of_le _ _ _ _ hcu]⟩
      · have hlt := lt_tick uniform_random trigger u hr hi
        have h1 := skipTo_spec uniform_random trigger c hr hi fuel
          (tick uniform_random trigger u) (by omega)
        obtain ⟨m, hm⟩ : ∃ m, (c - u).toNat = m + 1 := ⟨(c - u).toNat - 1, by omega⟩
        have h2 := skipTo_spec uniform_random trigger c hr hi m
          (tick uniform_random trigger u) (by omega)
        have e1 : ∀ f, skipTo uniform_random trigger c (f + 1) u =
            skipTo uniform_random trigger c f (tick uniform_random trigger u) := by
          intro f
          rw [skipTo, if_neg hcu]
        rw [hm, e1, e1]
        exact ⟨h1.1, by rw [h1.2, h2.2]⟩

/-- A job that is next due at or after the completion starts when it is due. -/
theorem resume_of_le (uniform_random : Int → Int → Int → Int) (mode : SingletonMode)
    (trigger : Trigger) (c u : Int) (h : c ≤ u) :
    resume uniform_random mode trigger c u = u := by
  unfold resume
  cases mode with
  | None => rfl
  | SkipIfRunning => exact skipTo_of_le _ _ _ _ h _
  | RescheduleIfRunning =>
      simp only
      split <;> omega

/-- In RescheduleIfRunning mode a job due before the completion starts at
the completion. -/
theorem resume_reschedule (uniform_random : Int → Int → Int → Int) (trigger : Trigger)
    (c u : Int) (h : u ≤ c) :
    resume uniform_random .RescheduleIfRunning trigger c u = c := by
  unfold resume
  simp only
  rw [if_pos h]

/-- In SkipIfRunning mode a tick before the completion is missed: the job
starts where it would when due at the next tick. -/
theorem resume_skip (uniform_random : Int → Int → Int → Int) (trigger : Trigger) (c u : Int)
    (hr : trigger.recurring uniform_random)
    (hi : ∀ t u, next_run_at uniform_random trigger t = some u → t < u) (h : u < c) :
    resume uniform_random .SkipIfRunning trigger c u =
      resume uniform_random .SkipIfRunning trigger c (tick uniform_random trigger u) := by
  unfold resume
  simp only
  have hlt := lt_tick uniform_random trigger u hr hi
  obtain ⟨m, hm⟩ : ∃ m, (c - u).toNat = m + 1 := ⟨(c - u).toNat - 1, by omega⟩
  have e1 : skipTo uniform_random trigger c (m + 1) u =
      skipTo uniform_random trigger c m (tick uniform_random trigger u) := by
    rw [skipTo, if_neg (by omega)]
  rw [hm, e1]
  exact (skipTo_spec uniform_random trigger c hr hi m (tick uniform_random trigger u)
    (by omega)).2

/-- In a singleton mode the next execution never starts before the
completion of the one before. -/
theorem le_resume (uniform_random : Int → Int → Int → Int) (mode : SingletonMode)
    (trigger : Trigger) (c u : Int) (hr : trigger.recurring uniform_random)
    (hi : ∀ t u, next_run_at uniform_random trigger t = some u → t < u)
    (hm : mode ≠ .None) : c ≤ resume uniform_random mode trigger c u := by
  unfold resume
  cases mode with
  | None => exact absurd rfl hm
  | SkipIfRunning =>
      exact (skipTo_spec uniform_random trigger c hr hi (c - u).toNat u (le_refl _)).1
  | RescheduleIfRunning =>
      simp only
      split <;> omega

theorem startTime_succ (uniform_random : Int → Int → Int → Int) (mode : SingletonMode)
    (trigger : Trigger) (task : gocron.Task) (a : Int) (k : Nat) :
    startTime uniform_random mode trigger task a (k + 1) =
      resume uniform_random mode trigger (completion uniform_random mode trigger task a k)
        (tick uniform_random trigger (startTime uniform_random mode trigger task a k)) := rfl

theorem startTime_le_completion (uniform_random : Int → Int → Int → Int) (mode : SingletonMode)
    (trigger : Trigger) (task : gocron.Task) (a : Int) (k : Nat) :
    startTime uniform_random mode trigger task a k ≤
      completion uniform_random mode trigger task a k := by
  have := duration_nonneg uniform_random (startTime uniform_random mode trigger task a k) task.body
  unfold completion
  omega

/-- No execution starts before the one before has completed: by the mode,
or because no execution outlasts the time to the next firing. -/
theorem completion_le_startTime (uniform_random : Int → Int → Int → Int) (mode : SingletonMode)
    (trigger : Trigger) (task : gocron.Task) (n : Nat) (a : Int)
    (hr : trigger.recurring uniform_random)
    (hi : ∀ t u, next_run_at uniform_random trigger t = some u → t < u)
    (hover : mode = .None → ∀ m, m < n → completion uniform_random mode trigger task a m ≤
      startTime uniform_random mode trigger task a (m + 1)) :
    ∀ m, m < n → completion uniform_random mode trigger task a m ≤
      startTime uniform_random mode trigger task a (m + 1) := by
  intro m hm
  by_cases hmode : mode = .None
  · exact hover hmode m hm
  · rw [startTime_succ]
    exact le_resume uniform_random mode trigger _ _ hr hi hmode

theorem startTime_mono (uniform_random : Int → Int → Int → Int) (mode : SingletonMode)
    (trigger : Trigger) (task : gocron.Task) (n : Nat) (a : Int)
    (hgap : ∀ m, m < n → completion uniform_random mode trigger task a m ≤
      startTime uniform_random mode trigger task a (m + 1)) :
    ∀ k m, k ≤ m → m ≤ n → startTime uniform_random mode trigger task a k ≤
      startTime uniform_random mode trigger task a m := by
  intro k m hkm
  induction m with
  | zero =>
      intro _
      have : k = 0 := by omega
      subst this
      exact le_refl _
  | succ m ih =>
      intro hmn
      by_cases h : k = m + 1
      · subst h; exact le_refl _
      · have h1 := ih (by omega) (by omega)
        have h2 := hgap m (by omega)
        have h3 := startTime_le_completion uniform_random mode trigger task a m
        omega

end spec

namespace spec

/-- Taking in the completions up to t keeps track of the job: its execution
in flight is counted when it completes by t. -/
theorem tracks_completions (uniform_random : Int → Int → Int → Int) (s : Scheduler) (id : Nat)
    (mode : SingletonMode) (trigger : Trigger) (task : gocron.Task) (n : Nat) (a : Int)
    (earlier : List Int) (k : Nat) (busy : Bool) (u : Int) (t : Int)
    (hr : trigger.recurring uniform_random)
    (ht : s.Tracks uniform_random id mode trigger task n a earlier k busy u) :
    (s.completions t).Tracks uniform_random id mode trigger task n a earlier k
      (busy && decide (t < completion uniform_random mode trigger task a (k - 1))) u := by
  obtain ⟨j, hj, hid, hmode, htr, htask, hmax, hnext, hruns, hk, hfl, hrec⟩ := ht
  have hrj : j.trigger.recurring uniform_random := by rw [htr]; exact hr
  have hcount : (s.in_flight.filter (fun e => e.job == j.id && decide (e.completes ≤ t))) =
      (s.in_flight.filter (fun e => e.job == id)).filter (fun e => decide (e.completes ≤ t)) := by
    rw [hid]
    exact filter_and _ _ _
  have hfl1 : (s.completions t).in_flight.filter (fun e => e.job == id) =
      (s.in_flight.filter (fun e => e.job == id)).filter (fun e => decide (t < e.completes)) := by
    unfold Scheduler.completions
    exact filter_comm _ _ _
  have hmem := (mem_completions t s _).mpr ⟨j, hj, rfl⟩
  rw [hcount, hfl] at hmem
  rw [hfl] at hfl1
  cases busy with
  | false =>
      simp only [Bool.false_eq_true, if_false, List.filter_nil, List.length_nil,
        Function.iterate_zero, id_eq] at hmem hfl1
      exact ⟨j, hmem, hid, hmode, htr, htask, hmax, hnext, by simpa using hruns, hk,
        by simpa using hfl1, hrec⟩
  | true =>
      simp only [if_true] at hmem hfl1 hruns
      by_cases hc : t < completion uniform_random mode trigger task a (k - 1)
      · have hc1 : ¬ completion uniform_random mode trigger task a (k - 1) ≤ t := by omega
        simp only [List.filter_cons, hc1, hc, decide_True, decide_False, if_true,
          Bool.false_eq_true, if_false, List.filter_nil, List.length_nil,
          Function.iterate_zero, id_eq] at hmem hfl1
        refine ⟨j, hmem, hid, hmode, htr, htask, hmax, hnext, ?_, hk, ?_, hrec⟩
        · simp [hc, hruns]
        · simp [hc, hfl1]
      · have hc1 : completion uniform_random mode trigger task a (k - 1) ≤ t := by omega
        have hnd : s.destroyed j = false := by
          cases hd : s.destroyed j
          · rfl
          · have := (destroyed_iff uniform_random s j n hrj hmax).mp hd
            omega
        simp only [List.filter_cons, hc1, hc, decide_True, decide_False, if_true,
          Bool.false_eq_true, if_false, List.filter_nil, List.length_cons, List.length_nil,
          Function.iterate_succ, Function.iterate_zero, Function.comp, id_eq] at hmem hfl1
        unfold Scheduler.count at hmem
        rw [hnd] at hmem
        simp only [Bool.false_eq_true, if_false] at hmem
        refine ⟨_, hmem, hid, hmode, htr, htask, hmax, hnext, ?_, hk, ?_, hrec⟩
        · simp [hc, hruns]
        · simp [hc, hfl1]

theorem busy_eq_false (s : Scheduler) (id : Nat)
    (h : s.in_flight.filter (fun e => e.job == id) = []) : s.busy id = false := by
  unfold Scheduler.busy
  rw [List.any_eq_false]
  intro e he
  rw [List.filter_eq_nil_iff] at h
  exact h e he

theorem busy_eq_true (s : Scheduler) (id : Nat) (e : Execution)
    (h : s.in_flight.filter (fun e => e.job == id) = [e]) : s.busy id = true := by
  unfold Scheduler.busy
  rw [List.any_eq_true]
  have he : e ∈ s.in_flight.filter (fun e => e.job == id) := by
    rw [h]
    exact List.mem_singleton.mpr rfl
  rw [List.mem_filter] at he
  exact ⟨e, he.1, he.2⟩

theorem fire_runsAt (uniform_random : Int → Int → Int → Int) (t : Int) (s : Scheduler) (j : Job)
    (hn : (s.jobs.map (fun j => j.id)).Nodup) (hj : j ∈ s.jobs) :
    (s.fire uniform_random t).runsAt j.id =
      s.runsAt j.id ++ (if s.executes t j then [t] else []) := by
  unfold Scheduler.runsAt Scheduler.fire
  simp only [List.filter_append, List.map_append, List.filter_map, List.map_map]
  congr 1
  have h1 : (s.jobs.filter (s.executes t)).filter
      ((fun e : Nat × Int => e.1 == j.id) ∘ fun j => (j.id, t)) =
      (s.jobs.filter (fun x => x.id == j.id)).filter (s.executes t) := by
    rw [filter_comm]
    rfl
  rw [h1, filter_id_eq_singleton s.jobs j hn hj]
  by_cases hd : s.executes t j = true
  · simp [List.filter_cons, hd]
  · simp [List.filter_cons, hd]

theorem fire_in_flight (uniform_random : Int → Int → Int → Int) (t : Int) (s : Scheduler)
    (j : Job) (hn : (s.jobs.map (fun j => j.id)).Nodup) (hj : j ∈ s.jobs) :
    (s.fire uniform_random t).in_flight.filter (fun e => e.job == j.id) =
      s.in_flight.filter (fun e => e.job == j.id) ++
        (if s.executes t j then [⟨j.id, t, t + duration uniform_random t j.task.body⟩]
          else []) := by
  unfold Scheduler.fire
  simp only [List.filter_append, List.filter_map]
  congr 1
  have h1 : (s.jobs.filter (s.executes t)).filter
      ((fun e : Execution => e.job == j.id) ∘
        fun j => ⟨j.id, t, t + duration uniform_random t j.task.body⟩) =
      (s.jobs.filter (fun x => x.id == j.id)).filter (s.executes t) := by
    rw [filter_comm]
    rfl
  rw [h1, filter_id_eq_singleton s.jobs j hn hj]
  by_cases hd : s.executes t j = true
  · simp [List.filter_cons, hd]
  · simp [List.filter_cons, hd]

/-- The firings at time t keep track of the job. An idle job within its
budget that is due starts its next execution; a running job that is due
misses the tick in SkipIfRunning mode and is left as it is in
RescheduleIfRunning mode; a job that is not due is left as it is. -/
theorem tracks_fire (uniform_random : Int → Int → Int → Int) (s : Scheduler) (id : Nat)
    (mode : SingletonMode) (trigger : Trigger) (task : gocron.Task) (n : Nat) (a : Int)
    (earlier : List Int) (k : Nat) (busy : Bool) (u : Int) (t : Int)
    (h : s.WellFormed uniform_random) (hr : trigger.recurring uniform_random)
    (ht : s.Tracks uniform_random id mode trigger task n a earlier k busy u)
    (hstart : busy = false → k < n → u ≤ t →
      t = startTime uniform_random mode trigger task a k)
    (hnone : busy = true → mode = .None → t < u) :
    (busy = false ∧ k < n ∧ u ≤ t ∧
        (s.fire uniform_random t).Tracks uniform_random id mode trigger task n a earlier
          (k + 1) true (tick uniform_random trigger t)) ∨
      (busy = true ∧ mode = .SkipIfRunning ∧ u ≤ t ∧
        (s.fire uniform_random t).Tracks uniform_random id mode trigger task n a earlier
          k true (tick uniform_random trigger t)) ∨
      (¬ (busy = false ∧ k < n ∧ u ≤ t) ∧ ¬ (busy = true ∧ mode = .SkipIfRunning ∧ u ≤ t) ∧
        (s.fire uniform_random t).Tracks uniform_random id mode trigger task n a earlier
          k busy u) := by
  obtain ⟨j, hj, hid, hmode, htr, htask, hmax, hnext, hruns, hk, hfl, hrec⟩ := ht
  have hrj : j.trigger.recurring uniform_random := by rw [htr]; exact hr
  have hrunsAt := fire_runsAt uniform_random t s j h.1 hj
  have hflight := fire_in_flight uniform_random t s j h.1 hj
  rw [hid] at hrunsAt hflight
  have hnext1 : next_run_at uniform_random j.trigger t =
      some (tick uniform_random trigger t) := by
    rw [htr]
    exact next_eq_tick uniform_random trigger t hr
  cases busy with
  | false =>
      simp only [Bool.false_eq_true, if_false, Nat.add_zero] at hruns hfl
      have hrun : s.busy j.id = false := by
        rw [hid]
        exact busy_eq_false s id hfl
      by_cases hfire : k < n ∧ u ≤ t
      · obtain ⟨hkn, hle⟩ := hfire
        left
        have hteq := hstart rfl hkn hle
        have hnd : s.destroyed j = false := by
          cases hd : s.destroyed j
          · rfl
          · have := (destroyed_iff uniform_random s j n hrj hmax).mp hd
            omega
        have hdue : s.due t j = true := by
          unfold Scheduler.due
          rw [hnd, hnext]
          simpa using hle
        have hpol : s.policy j = .execute := by
          unfold Scheduler.policy
          rw [hrun]
          cases j.singleton_mode <;> rfl
        have hexec : s.executes t j = true := by
          unfold Scheduler.executes
          rw [hdue, hpol]
          rfl
        refine ⟨rfl, hkn, hle, { j with next_run_at := next_run_at uniform_random j.trigger t },
          ?_, hid, hmode, htr, htask, hmax, hnext1, ?_, by omega, ?_, ?_⟩
        · rw [mem_fire]
          refine ⟨j, hj, ?_⟩
          rw [if_pos hdue, hpol]
        · simp [hruns]
        · rw [hflight, hfl, if_pos hexec, htask, hteq]
          simp [completion]
        · rw [hrunsAt, hrec, if_pos hexec, hteq, List.range_succ]
          simp
      · right
        right
        have hndue : s.due t j = false := by
          unfold Scheduler.due
          rw [hnext]
          by_cases hkn : k < n
          · have hd : ¬ u ≤ t := fun hle => hfire ⟨hkn, hle⟩
            simp [hd]
          · have hd := (destroyed_iff uniform_random s j n hrj hmax).mpr (by omega)
            simp [hd]
        have hexec : s.executes t j = false := by
          unfold Scheduler.executes
          rw [hndue]
          rfl
        refine ⟨fun hx => hfire ⟨hx.2.1, hx.2.2⟩, fun hx => Bool.noConfusion hx.1,
          j, ?_, hid, hmode, htr, htask, hmax, hnext, by simpa using hruns, hk, ?_, ?_⟩
        · rw [mem_fire]
          refine ⟨j, hj, ?_⟩
          rw [hndue]
          simp
        · rw [hflight, hfl, hexec]
          simp
        · rw [hrunsAt, hrec, hexec]
          simp
  | true =>
      simp only [if_true] at hruns hfl
      have hrun : s.busy j.id = true := by
        rw [hid]
        exact busy_eq_true s id _ hfl
      have hnd : s.destroyed j = false := by
        cases hd : s.destroyed j
        · rfl
        · have := (destroyed_iff uniform_random s j n hrj hmax).mp hd
          omega
      have hdue : s.due t j = decide (u ≤ t) := by
        unfold Scheduler.due
        rw [hnd, hnext]
        simp
      by_cases hskip : mode = .SkipIfRunning ∧ u ≤ t
      · obtain ⟨hm, hle⟩ := hskip
        right
        left
        have hpol : s.policy j = .skip := by
          unfold Scheduler.policy
          rw [hrun, hmode, hm]
          rfl
        have hexec : s.executes t j = false := by
          unfold Scheduler.executes
          rw [hpol]
          simp
        refine ⟨rfl, hm, hle, { j with next_run_at := next_run_at uniform_random j.trigger t },
          ?_, hid, hmode, htr, htask, hmax, hnext1, by simpa using hruns, hk, ?_, ?_⟩
        · rw [mem_fire]
          refine ⟨j, hj, ?_⟩
          rw [hdue, hpol]
          simp [hle]
        · rw [hflight, hfl, hexec]
          simp
        · rw [hrunsAt, hrec, hexec]
          simp
      · right
        right
        have hsame : (if s.due t j then
            match s.policy j with
            | .execute => { j with next_run_at := next_run_at uniform_random j.trigger t }
            | .skip => { j with next_run_at := next_run_at uniform_random j.trigger t }
            | .defer => j
          else j) = j ∧ s.executes t j = false := by
          by_cases hle : u ≤ t
          · have hpol : s.policy j = .defer := by
              unfold Scheduler.policy
              rw [hrun, hmode]
              cases hm : mode with
              | None =>
                  have := hnone rfl hm
                  omega
              | SkipIfRunning => exact absurd ⟨hm, hle⟩ hskip
              | RescheduleIfRunning => rfl
            constructor
            · rw [hpol]
              simp
            · unfold Scheduler.executes
              rw [hpol]
              simp
          · constructor
            · rw [hdue]
              simp [hle]
            · unfold Scheduler.executes
              rw [hdue]
              simp [hle]
        refine ⟨fun hx => Bool.noConfusion hx.1, fun hx => hskip ⟨hx.2.1, hx.2.2⟩,
          j, ?_, hid, hmode, htr, htask, hmax, hnext, by simpa using hruns, hk, ?_, ?_⟩
        · rw [mem_fire]
          exact ⟨j, hj, hsame.1.symm⟩
        · rw [hflight, hfl, hsame.2]
          simp
        · rw [hrunsAt, hrec, hsame.2]
          simp

end spec

namespace spec

theorem wake_le_job (s : Scheduler) (j : Job) (b : Int) (hj : j ∈ s.jobs)
    (hd : s.destroyed j = false) (hf : s.deferred j = false) (hb : j.next_run_at = some b) :
    ∃ w, s.wake = some w ∧ w ≤ b := by
  have hm : b ∈ (s.Jobs.filter (fun j => !s.deferred j)).filterMap (fun j => j.next_run_at) ++
      s.in_flight.map (fun e => e.completes) := by
    rw [List.mem_append]
    left
    rw [List.mem_filterMap]
    refine ⟨j, ?_, hb⟩
    unfold Scheduler.Jobs
    rw [List.mem_filter, List.mem_filter]
    exact ⟨⟨hj, by simp [hd]⟩, by simp [hf]⟩
  obtain ⟨w, hw⟩ := earliest_isSome _ (List.ne_nil_of_mem hm)
  exact ⟨w, hw, earliest_le _ _ hw b hm⟩

theorem wake_le_flight (s : Scheduler) (e : Execution) (he : e ∈ s.in_flight) :
    ∃ w, s.wake = some w ∧ w ≤ e.completes := by
  have hm : e.completes ∈
      (s.Jobs.filter (fun j => !s.deferred j)).filterMap (fun j => j.next_run_at) ++
        s.in_flight.map (fun e => e.completes) := by
    rw [List.mem_append]
    right
    exact List.mem_map.mpr ⟨e, he, rfl⟩
  obtain ⟨w, hw⟩ := earliest_isSome _ (List.ne_nil_of_mem hm)
  exact ⟨w, hw, earliest_le _ _ hw _ hm⟩

theorem wake_mem (s : Scheduler) (w : Int) (h : s.wake = some w) :
    (∃ j ∈ s.jobs, s.destroyed j = false ∧ s.deferred j = false ∧ j.next_run_at = some w) ∨
      ∃ e ∈ s.in_flight, e.completes = w := by
  have hm := earliest_mem _ _ h
  rw [List.mem_append] at hm
  rcases hm with hm | hm
  · left
    rw [List.mem_filterMap] at hm
    obtain ⟨j, hj, hw⟩ := hm
    unfold Scheduler.Jobs at hj
    rw [List.mem_filter, List.mem_filter] at hj
    exact ⟨j, hj.1.1, by simpa using hj.1.2, by simpa using hj.2, hw⟩
  · right
    rw [List.mem_map] at hm
    exact hm

theorem dispatch_now (uniform_random : Int → Int → Int → Int) (t : Int) (s : Scheduler) :
    (s.dispatch uniform_random t).now = t := rfl

/-- The loop wakes no later than a tracked job needs it: at the completion
of its execution in flight, and when the job is next due unless that firing
is deferred. -/
theorem tracks_wake (uniform_random : Int → Int → Int → Int) (s : Scheduler) (id : Nat)
    (mode : SingletonMode) (trigger : Trigger) (task : gocron.Task) (n : Nat) (a : Int)
    (earlier : List Int) (k : Nat) (busy : Bool) (u : Int) (t : Int)
    (hr : trigger.recurring uniform_random)
    (ht : s.Tracks uniform_random id mode trigger task n a earlier k busy u)
    (hw : s.wake = some t) :
    (busy = true → t ≤ completion uniform_random mode trigger task a (k - 1)) ∧
      (busy = false → k < n → t ≤ u) ∧
      (busy = true → mode ≠ .RescheduleIfRunning → t ≤ u) := by
  obtain ⟨j, hj, hid, hmode, htr, htask, hmax, hnext, hruns, hk, hfl, hrec⟩ := ht
  have hrj : j.trigger.recurring uniform_random := by rw [htr]; exact hr
  refine ⟨?_, ?_, ?_⟩
  · intro hb
    subst hb
    simp only [if_true] at hfl
    have he : (⟨id, startTime uniform_random mode trigger task a (k - 1),
        completion uniform_random mode trigger task a (k - 1)⟩ : Execution) ∈ s.in_flight := by
      have : (⟨id, startTime uniform_random mode trigger task a (k - 1),
          completion uniform_random mode trigger task a (k - 1)⟩ : Execution) ∈
          s.in_flight.filter (fun e => e.job == id) := by
        rw [hfl]
        exact List.mem_singleton.mpr rfl
      exact (List.mem_filter.mp this).1
    obtain ⟨w, hw1, hw2⟩ := wake_le_flight s _ he
    rw [hw] at hw1
    injection hw1 with hw1
    subst hw1
    exact hw2
  · intro hb hkn
    subst hb
    simp only [Bool.false_eq_true, if_false, Nat.add_zero] at hfl hruns
    have hnd : s.destroyed j = false := by
      cases hd : s.destroyed j
      · rfl
      · have := (destroyed_iff uniform_random s j n hrj hmax).mp hd
        omega
    have hdf : s.deferred j = false := by
      unfold Scheduler.deferred
      rw [hid, busy_eq_false s id hfl]
      simp
    obtain ⟨w, hw1, hw2⟩ := wake_le_job s j _ hj hnd hdf hnext
    rw [hw] at hw1
    injection hw1 with hw1
    subst hw1
    exact hw2
  · intro hb hm
    subst hb
    simp only [if_true] at hruns
    have hnd : s.destroyed j = false := by
      cases hd : s.destroyed j
      · rfl
      · have := (destroyed_iff uniform_random s j n hrj hmax).mp hd
        omega
    have hdf : s.deferred j = false := by
      unfold Scheduler.deferred
      rw [hmode]
      have : (mode == SingletonMode.RescheduleIfRunning) = false := by
        cases mode <;> first | rfl | exact absurd rfl hm
      rw [this]
      rfl
    obtain ⟨w, hw1, hw2⟩ := wake_le_job s j _ hj hnd hdf hnext
    rw [hw] at hw1
    injection hw1 with hw1
    subst hw1
    exact hw2

end spec

namespace spec

/-- One wake-up of the loop keeps track of the job, when no execution of it
starts before the one before has completed. -/
theorem tracks_dispatch (uniform_random : Int → Int → Int → Int) (s : Scheduler) (id : Nat)
    (mode : SingletonMode) (trigger : Trigger) (task : gocron.Task) (n : Nat) (a : Int)
    (earlier : List Int) (k : Nat) (busy : Bool) (u : Int) (t : Int)
    (h : s.WellFormed uniform_random) (hr : trigger.recurring uniform_random)
    (hi : ∀ x y, next_run_at uniform_random trigger x = some y → x < y)
    (hgap : ∀ m, m < n → completion uniform_random mode trigger task a m ≤
      startTime uniform_random mode trigger task a (m + 1))
    (ht : s.Tracks uniform_random id mode trigger task n a earlier k busy u)
    (hp : Pending uniform_random mode trigger task n a k busy u)
    (hw : s.wake = some t) :
    ∃ k1 busy1 u1, (s.dispatch uniform_random t).Tracks uniform_random id mode trigger task n a
        earlier k1 busy1 u1 ∧
      Pending uniform_random mode trigger task n a k1 busy1 u1 ∧ k ≤ k1 := by
  obtain ⟨hwb, hwi, hws⟩ := tracks_wake uniform_random s id mode trigger task n a earlier k busy
    u t hr ht hw
  have hkn : k ≤ n := by
    obtain ⟨j, _, _, _, _, _, _, _, _, hk, _⟩ := ht
    exact hk
  have hk1 : busy = true → 1 ≤ k := by
    intro hb
    obtain ⟨j, _, _, _, _, _, _, _, hruns, _⟩ := ht
    rw [hb] at hruns
    simp only [if_true] at hruns
    omega
  have hgapk : busy = true → completion uniform_random mode trigger task a (k - 1) ≤
      startTime uniform_random mode trigger task a k := by
    intro hb
    have h1 := hgap (k - 1) (by have := hk1 hb; omega)
    have h2 : k - 1 + 1 = k := by have := hk1 hb; omega
    rw [h2] at h1
    exact h1
  have h1 : (s.completions t).WellFormed uniform_random :=
    wellFormed_of_names uniform_random _ s (completions_names t s) h
  have ht1 := tracks_completions uniform_random s id mode trigger task n a earlier k busy u t
    hr ht
  -- what follows the start of the next execution at time t
  have hfired : ((s.completions t).fire uniform_random t).Tracks uniform_random id mode trigger
      task n a earlier (k + 1) true (tick uniform_random trigger t) →
      t = startTime uniform_random mode trigger task a k →
      ∃ k1 busy1 u1, (s.dispatch uniform_random t).Tracks uniform_random id mode trigger task n a
          earlier k1 busy1 u1 ∧
        Pending uniform_random mode trigger task n a k1 busy1 u1 ∧ k ≤ k1 := by
    intro ht2 hteq
    have ht3 := tracks_completions uniform_random _ id mode trigger task n a earlier (k + 1) true
      (tick uniform_random trigger t) t hr ht2
    simp only [Nat.add_sub_cancel, Bool.true_and] at ht3
    refine ⟨k + 1, _, _, ht3, ?_, by omega⟩
    have hlt := lt_tick uniform_random trigger t hr hi
    by_cases hc : t < completion uniform_random mode trigger task a k
    · simp only [Pending, hc, decide_True, if_true, Nat.add_sub_cancel]
      rw [startTime_succ, ← hteq]
    · simp only [Pending, hc, decide_False, Bool.false_eq_true, if_false]
      intro _
      rw [startTime_succ, ← hteq]
      exact (resume_of_le uniform_random mode trigger _ _ (by omega)).symm
  cases busy with
  | false =>
      rw [Bool.false_and] at ht1
      simp only [Pending, Bool.false_eq_true, if_false] at hp
      have hteq : k < n → u ≤ t → t = startTime uniform_random mode trigger task a k := by
        intro hlt hle
        have h2 := hp hlt
        have h3 := hwi rfl hlt
        omega
      rcases tracks_fire uniform_random _ id mode trigger task n a earlier k false u t h1 hr ht1
        (fun _ hlt hle => hteq hlt hle) (fun hx => Bool.noConfusion hx) with
        ⟨_, hlt, hle, ht2⟩ | ⟨hx, _⟩ | ⟨_, _, ht2⟩
      · exact hfired ht2 (hteq hlt hle)
      · exact Bool.noConfusion hx
      · have ht3 := tracks_completions uniform_random _ id mode trigger task n a earlier k false
          u t hr ht2
        rw [Bool.false_and] at ht3
        refine ⟨k, false, u, ht3, ?_, le_refl _⟩
        simp only [Pending, Bool.false_eq_true, if_false]
        exact hp
  | true =>
      simp only [Pending, if_true] at hp
      have hgapk1 := hgapk rfl
      have hwb1 := hwb rfl
      by_cases hc : t < completion uniform_random mode trigger task a (k - 1)
      · simp only [hc, decide_True, Bool.and_self] at ht1
        rcases tracks_fire uniform_random _ id mode trigger task n a earlier k true u t h1 hr ht1
          (fun hx => Bool.noConfusion hx)
          (by
            intro _ hm
            rw [hm] at hp hgapk1 hc
            unfold resume at hp
            simp only at hp
            omega) with
          ⟨hx, _⟩ | ⟨_, hm, hle, ht2⟩ | ⟨_, _, ht2⟩
        · exact Bool.noConfusion hx
        · have hut : t = u := by
            have := hws rfl (by rw [hm]; intro hx; cases hx)
            omega
          have ht3 := tracks_completions uniform_random _ id mode trigger task n a earlier k true
            (tick uniform_random trigger t) t hr ht2
          simp only [hc, decide_True, Bool.and_self] at ht3
          refine ⟨k, true, _, ht3, ?_, le_refl _⟩
          simp only [Pending, if_true]
          rw [hp, hut]
          rw [hm]
          exact resume_skip uniform_random trigger _ u hr hi (by rw [hm] at hc; omega)
        · have ht3 := tracks_completions uniform_random _ id mode trigger task n a earlier k true
            u t hr ht2
          simp only [hc, decide_True, Bool.and_self] at ht3
          refine ⟨k, true, u, ht3, ?_, le_refl _⟩
          simp only [Pending, if_true]
          exact hp
      · simp only [hc, decide_False, Bool.and_false] at ht1
        have htc : t = completion uniform_random mode trigger task a (k - 1) := by omega
        have hteq : k < n → u ≤ t → t = startTime uniform_random mode trigger task a k := by
          intro _ hle
          rw [hp]
          cases hm : mode with
          | None =>
              rw [hm] at hp hgapk1 htc
              unfold resume at hp ⊢
              simp only at hp ⊢
              omega
          | SkipIfRunning =>
              have h2 := hws rfl (by rw [hm]; intro hx; cases hx)
              rw [hm] at htc
              rw [resume_of_le uniform_random _ trigger _ u (by omega)]
              omega
          | RescheduleIfRunning =>
              rw [hm] at htc
              rw [resume_reschedule uniform_random trigger _ u (by omega)]
              exact htc
        rcases tracks_fire uniform_random _ id mode trigger task n a earlier k false u t h1 hr ht1
          (fun _ hlt hle => hteq hlt hle) (fun hx => Bool.noConfusion hx) with
          ⟨_, hlt, hle, ht2⟩ | ⟨hx, _⟩ | ⟨hnA, _, ht2⟩
        · exact hfired ht2 (hteq hlt hle)
        · exact Bool.noConfusion hx
        · have ht3 := tracks_completions uniform_random _ id mode trigger task n a earlier k false
            u t hr ht2
          rw [Bool.false_and] at ht3
          refine ⟨k, false, u, ht3, ?_, le_refl _⟩
          simp only [Pending, Bool.false_eq_true, if_false]
          intro hlt
          have hnle : ¬ u ≤ t := fun hle => hnA ⟨rfl, hlt, hle⟩
          rw [hp]
          exact (resume_of_le uniform_random mode trigger _ u (by omega)).symm

end spec

namespace spec

/-- A destroyed job stays destroyed when the record of executions grows. -/
theorem destroyed_mono (s s1 : Scheduler) (j : Job)
    (he : ∀ e ∈ s.executions, e ∈ s1.executions) (h : s.destroyed j = true) :
    s1.destroyed j = true := by
  unfold Scheduler.destroyed at h ⊢
  rw [Bool.or_eq_true] at h ⊢
  rcases h with h | h
  · exact Or.inl h
  · right
    cases htr : j.trigger with
    | OneTime instant =>
        rw [htr] at h
        simp only [List.any_eq_true] at h ⊢
        obtain ⟨e, hmem, hid⟩ := h
        exact ⟨e, he e hmem, hid⟩
    | FixedInterval d => rw [htr] at h; simp at h
    | RandomInterval a b => rw [htr] at h; simp at h
    | Cron e b => rw [htr] at h; simp at h
    | Calendar i d ts => rw [htr] at h; simp at h

/-- After a dispatch at time t the loop next wakes later than t. -/
theorem wake_dispatch_gt (uniform_random : Int → Int → Int → Int) (t : Int) (s : Scheduler)
    (h : s.WellFormed uniform_random) (w : Int)
    (hw : (s.dispatch uniform_random t).wake = some w) : t < w := by
  have h1 : (s.completions t).WellFormed uniform_random :=
    wellFormed_of_names uniform_random _ s (completions_names t s) h
  rcases wake_mem _ w hw with ⟨j3, hj3, hd3, hf3, hn3⟩ | ⟨e, he, hc⟩
  · unfold Scheduler.dispatch at hj3
    obtain ⟨j2, hj2, h32⟩ := (mem_completions t _ j3).mp hj3
    obtain ⟨j1, hj1, h21⟩ := (mem_fire uniform_random t _ j2).mp hj2
    obtain ⟨r, hr⟩ := iterate_count_eq ((s.completions t).fire uniform_random t)
      ((((s.completions t).fire uniform_random t).in_flight.filter
        (fun e => e.job == j2.id && decide (e.completes ≤ t))).length) j2
    rw [hr] at h32
    by_contra hle
    have hwt : w ≤ t := by omega
    by_cases hdue : (s.completions t).due t j1 = true
    · rw [if_pos hdue] at h21
      cases hpol : (s.completions t).policy j1 with
      | execute =>
          rw [hpol] at h21
          simp only at h21
          rw [h32, h21] at hn3
          simp only at hn3
          have := h1.2 j1 hj1 t w hn3
          omega
      | skip =>
          rw [hpol] at h21
          simp only at h21
          rw [h32, h21] at hn3
          simp only at hn3
          have := h1.2 j1 hj1 t w hn3
          omega
      | defer =>
          rw [hpol] at h21
          simp only at h21
          subst h21
          have hmode : j2.singleton_mode = .RescheduleIfRunning ∧
              (s.completions t).busy j2.id = true := by
            unfold Scheduler.policy at hpol
            cases hm : j2.singleton_mode <;> rw [hm] at hpol <;> simp only at hpol
            · cases hpol
            · split at hpol <;> cases hpol
            · refine ⟨rfl, ?_⟩
              by_contra hrun
              rw [if_neg hrun] at hpol
              cases hpol
          have hrun3 : (s.dispatch uniform_random t).busy j2.id = true := by
            have hrun := hmode.2
            unfold Scheduler.busy at hrun ⊢
            rw [List.any_eq_true] at hrun ⊢
            obtain ⟨e, he, hid⟩ := hrun
            refine ⟨e, ?_, hid⟩
            have hlt : t < e.completes := by
              unfold Scheduler.completions at he
              simp only [List.mem_filter, decide_eq_true_eq] at he
              exact he.2
            unfold Scheduler.dispatch
            show e ∈ (((s.completions t).fire uniform_random t).in_flight.filter
              (fun e => decide (t < e.completes)))
            rw [List.mem_filter]
            refine ⟨?_, by simpa using hlt⟩
            unfold Scheduler.fire
            exact List.mem_append_left _ he
          rw [h32] at hn3
          simp only at hn3
          have : (s.dispatch uniform_random t).deferred j3 = true := by
            unfold Scheduler.deferred
            rw [h32]
            simp only
            rw [hmode.1, hrun3, hn3, dispatch_now]
            simpa using hwt
          rw [this] at hf3
          exact Bool.noConfusion hf3
    · rw [if_neg hdue] at h21
      subst h21
      rw [h32] at hn3
      simp only at hn3
      have hd1 : (s.completions t).destroyed j2 = true := by
        unfold Scheduler.due at hdue
        rw [hn3] at hdue
        cases hd : (s.completions t).destroyed j2
        · rw [hd] at hdue
          simp at hdue
          omega
        · rfl
      have hd2 : ((s.completions t).fire uniform_random t).destroyed j2 = true := by
        refine destroyed_mono _ _ j2 ?_ hd1
        intro e he
        unfold Scheduler.fire
        exact List.mem_append_left _ he
      have h33 := (mem_completions t _ j3).mp hj3
      have hj3eq : j3 = j2 := by
        have := iterate_count_of_destroyed _ j2 hd2
          ((((s.completions t).fire uniform_random t).in_flight.filter
            (fun e => e.job == j2.id && decide (e.completes ≤ t))).length)
        rw [this] at hr
        rw [h32, ← hr]
      have hd3' : (s.dispatch uniform_random t).destroyed j3 = true := by
        rw [hj3eq]
        exact destroyed_mono _ _ j2 (fun e he => he) hd2
      rw [hd3'] at hd3
      exact Bool.noConfusion hd3
  · unfold Scheduler.dispatch at he
    have he1 : e ∈ (((s.completions t).fire uniform_random t).in_flight.filter
        (fun e => decide (t < e.completes))) := he
    rw [List.mem_filter] at he1
    have := he1.2
    simp only [decide_eq_true_eq] at this
    omega

end spec

namespace spec

theorem loop_names (uniform_random : Int → Int → Int → Int) (T : Int) :
    ∀ (fuel : Nat) (s : Scheduler),
      (Scheduler.loop uniform_random T fuel s).jobs.map (fun j => (j.id, j.name, j.trigger)) =
        s.jobs.map (fun j => (j.id, j.name, j.trigger))
  | 0, s => rfl
  | fuel + 1, s => by
      unfold Scheduler.loop
      rcases hw : s.wake with _ | t
      · rfl
      · simp only
        by_cases htT : t ≤ T
        · rw [if_pos htT, loop_names uniform_random T fuel, dispatch_names]
        · rw [if_neg htT]

theorem runUntil_names (uniform_random : Int → Int → Int → Int) (T : Int) (s : Scheduler) :
    (s.runUntil uniform_random T).jobs.map (fun j => (j.id, j.name, j.trigger)) =
      s.jobs.map (fun j => (j.id, j.name, j.trigger)) := by
  unfold Scheduler.runUntil
  rcases hw : s.wake with _ | t
  · rfl
  · exact loop_names uniform_random T _ s

/-- The dispatch loop, given enough wake-ups, keeps track of the job up to
the time T: it stops with nothing left to wake for by T. -/
theorem loop_tracks (uniform_random : Int → Int → Int → Int) (T : Int) (id : Nat)
    (mode : SingletonMode) (trigger : Trigger) (task : gocron.Task) (n : Nat) (a : Int)
    (earlier : List Int) (hr : trigger.recurring uniform_random)
    (hi : ∀ x y, next_run_at uniform_random trigger x = some y → x < y)
    (hgap : ∀ m, m < n → completion uniform_random mode trigger task a m ≤
      startTime uniform_random mode trigger task a (m + 1)) :
    ∀ (fuel : Nat) (s : Scheduler) (k : Nat) (busy : Bool) (u : Int),
      s.WellFormed uniform_random →
      s.Tracks uniform_random id mode trigger task n a earlier k busy u →
      Pending uniform_random mode trigger task n a k busy u →
      (∀ t, s.wake = some t → t ≤ T → (T - t).toNat + 1 ≤ fuel) →
      ∃ k1 busy1 u1, (Scheduler.loop uniform_random T fuel s).Tracks uniform_random id mode
          trigger task n a earlier k1 busy1 u1 ∧
        Pending uniform_random mode trigger task n a k1 busy1 u1 ∧
        (Scheduler.loop uniform_random T fuel s).WellFormed uniform_random ∧
        ∀ t, (Scheduler.loop uniform_random T fuel s).wake = some t → T < t
  | 0, s, k, busy, u, h, ht, hp, hf => by
      refine ⟨k, busy, u, ht, hp, h, ?_⟩
      intro t hw
      by_contra hle
      have := hf t hw (by omega)
      omega
  | fuel + 1, s, k, busy, u, h, ht, hp, hf => by
      unfold Scheduler.loop
      rcases hw : s.wake with _ | t
      · refine ⟨k, busy, u, ht, hp, h, ?_⟩
        intro t hw1
        rw [hw] at hw1
        cases hw1
      · simp only
        by_cases htT : t ≤ T
        · rw [if_pos htT]
          obtain ⟨k1, busy1, u1, ht1, hp1, _⟩ :=
            tracks_dispatch uniform_random s id mode trigger task n a earlier k busy u t h hr hi
              hgap ht hp hw
          have h1 : (s.dispatch uniform_random t).WellFormed uniform_random :=
            wellFormed_of_names uniform_random _ s (dispatch_names uniform_random t s) h
          have hf1 : ∀ t1, (s.dispatch uniform_random t).wake = some t1 → t1 ≤ T →
              (T - t1).toNat + 1 ≤ fuel := by
            intro t1 hw1 ht1T
            have hgt := wake_dispatch_gt uniform_random t s h t1 hw1
            have := hf t hw htT
            omega
          exact loop_tracks uniform_random T id mode trigger task n a earlier hr hi hgap fuel
            (s.dispatch uniform_random t) k1 busy1 u1 h1 ht1 hp1 hf1
        · rw [if_neg htT]
          refine ⟨k, busy, u, ht, hp, h, ?_⟩
          intro t1 hw1
          rw [hw] at hw1
          injection hw1 with hw1
          omega

theorem runUntil_tracks (uniform_random : Int → Int → Int → Int) (T : Int) (id : Nat)
    (mode : SingletonMode) (trigger : Trigger) (task : gocron.Task) (n : Nat) (a : Int)
    (earlier : List Int) (hr : trigger.recurring uniform_random)
    (hi : ∀ x y, next_run_at uniform_random trigger x = some y → x < y)
    (hgap : ∀ m, m < n → completion uniform_random mode trigger task a m ≤
      startTime uniform_random mode trigger task a (m + 1))
    (s : Scheduler) (k : Nat) (busy : Bool) (u : Int) (h : s.WellFormed uniform_random)
    (ht : s.Tracks uniform_random id mode trigger task n a earlier k busy u)
    (hp : Pending uniform_random mode trigger task n a k busy u) :
    ∃ k1 busy1 u1, (s.runUntil uniform_random T).Tracks uniform_random id mode trigger task
        n a earlier k1 busy1 u1 ∧
      Pending uniform_random mode trigger task n a k1 busy1 u1 ∧
      (s.runUntil uniform_random T).WellFormed uniform_random ∧
      ∀ t, (s.runUntil uniform_random T).wake = some t → T < t := by
  unfold Scheduler.runUntil
  rcases hw : s.wake with _ | t
  · refine ⟨k, busy, u, ht, hp, h, ?_⟩
    intro t hw1
    simp only at hw1
    rw [hw] at hw1
    cases hw1
  · simp only
    exact loop_tracks uniform_random T id mode trigger task n a earlier hr hi hgap _ s k busy u
      h ht hp (by
        intro t1 hw1 _
        rw [hw] at hw1
        injection hw1 with hw1
        rw [hw1])

/-- A new job with max_runs = n and a recurring trigger, whose executions
do not overlap, by its singleton mode or because none outlasts the time to
the next firing: at every time its executions are the first of its start
times, at most n of them; once the scheduler has run to the completion of
the n-th, they are n, and the job is no longer among Jobs(). -/
theorem runUntil_limited (uniform_random : Int → Int → Int → Int) (T : Int) (s : Scheduler)
    (j : Job) (n : Nat) (a : Int) (h : s.WellFormed uniform_random) (hj : j ∈ s.jobs)
    (hr : j.trigger.recurring uniform_random) (hmax : j.max_runs = some n)
    (hruns : j.runs_completed = 0) (hnext : j.next_run_at = some a)
    (hidle : s.busy j.id = false)
    (hover : j.singleton_mode = .None → ∀ m, m < n →
      completion uniform_random j.singleton_mode j.trigger j.task a m ≤
        startTime uniform_random j.singleton_mode j.trigger j.task a (m + 1)) :
    (∃ m, m ≤ n ∧ (s.runUntil uniform_random T).runsAt j.id =
        s.runsAt j.id ++
          (List.range m).map (startTime uniform_random j.singleton_mode j.trigger j.task a)) ∧
      ((n = 0 ∨ completion uniform_random j.singleton_mode j.trigger j.task a (n - 1) ≤ T) →
        (s.runUntil uniform_random T).runsAt j.id =
            s.runsAt j.id ++
              (List.range n).map (startTime uniform_random j.singleton_mode j.trigger j.task a) ∧
          ∀ k ∈ (s.runUntil uniform_random T).Jobs, k.id ≠ j.id) := by
  have hfl : s.in_flight.filter (fun e => e.job == j.id) = [] := by
    rw [List.filter_eq_nil_iff]
    intro e he
    unfold Scheduler.busy at hidle
    rw [List.any_eq_false] at hidle
    exact hidle e he
  have hinv : ∀ t u, next_run_at uniform_random j.trigger t = some u → t < u :=
    fun t u hu => h.2 j hj t u hu
  have hgap := completion_le_startTime uniform_random j.singleton_mode j.trigger j.task n a hr
    hinv hover
  have ht : s.Tracks uniform_random j.id j.singleton_mode j.trigger j.task n a (s.runsAt j.id)
      0 false a :=
    ⟨j, hj, rfl, rfl, rfl, rfl, hmax, hnext, by simp [hruns], Nat.zero_le _,
      by simpa using hfl, by simp⟩
  have hp : Pending uniform_random j.singleton_mode j.trigger j.task n a 0 false a := by
    simp only [Pending, Bool.false_eq_true, if_false]
    intro _
    rfl
  obtain ⟨k1, busy1, u1, ht1, hp1, h1, hend⟩ := runUntil_tracks uniform_random T j.id
    j.singleton_mode j.trigger j.task n a (s.runsAt j.id) hr hinv hgap s 0 false a h ht hp
  obtain ⟨j1, hj1, hid1, hmode1, htr1, htask1, hmax1, hnext1, hruns1, hk1, hfl1, hrec1⟩ := ht1
  refine ⟨⟨k1, hk1, hrec1⟩, ?_⟩
  intro hT
  have hrj1 : j1.trigger.recurring uniform_random := by rw [htr1]; exact hr
  have hdone : busy1 = false ∧ k1 = n := by
    by_contra hne
    have hn0 : n ≠ 0 := by
      intro hn0
      subst hn0
      have hk0 : k1 = 0 := by omega
      subst hk0
      cases busy1 with
      | false => exact hne ⟨rfl, rfl⟩
      | true => simp at hruns1
    have hT1 : completion uniform_random j.singleton_mode j.trigger j.task a (n - 1) ≤ T := by
      rcases hT with hT | hT
      · exact absurd hT hn0
      · exact hT
    have hlast := startTime_le_completion uniform_random j.singleton_mode j.trigger j.task a
      (n - 1)
    cases busy1 with
    | true =>
        simp only [if_true] at hfl1 hruns1
        have he : (⟨j.id, startTime uniform_random j.singleton_mode j.trigger j.task a (k1 - 1),
            completion uniform_random j.singleton_mode j.trigger j.task a (k1 - 1)⟩ :
              Execution) ∈ (s.runUntil uniform_random T).in_flight := by
          have : (⟨j.id, startTime uniform_random j.singleton_mode j.trigger j.task a (k1 - 1),
              completion uniform_random j.singleton_mode j.trigger j.task a (k1 - 1)⟩ :
                Execution) ∈
              (s.runUntil uniform_random T).in_flight.filter (fun e => e.job == j.id) := by
            rw [hfl1]
            exact List.mem_singleton.mpr rfl
          exact (List.mem_filter.mp this).1
        obtain ⟨w, hw1, hw2⟩ := wake_le_flight _ _ he
        have hTw := hend w hw1
        simp only at hw2
        by_cases hkn : k1 = n
        · rw [hkn] at hw2
          omega
        · have h2 := hgap (k1 - 1) (by omega)
          have h3 : k1 - 1 + 1 = k1 := by omega
          rw [h3] at h2
          have hmono := startTime_mono uniform_random j.singleton_mode j.trigger j.task n a hgap
            k1 (n - 1) (by omega) (by omega)
          omega
    | false =>
        simp only [Bool.false_eq_true, if_false, Nat.add_zero] at hfl1 hruns1
        simp only [Pending, Bool.false_eq_true, if_false] at hp1
        have hlt : k1 < n := by
          rcases Nat.lt_or_ge k1 n with hlt | hge
          · exact hlt
          · exact absurd ⟨rfl, by omega⟩ hne
        have hu1 := hp1 hlt
        have hnd : (s.runUntil uniform_random T).destroyed j1 = false := by
          cases hd : (s.runUntil uniform_random T).destroyed j1
          · rfl
          · have := (destroyed_iff uniform_random _ j1 n hrj1 hmax1).mp hd
            omega
        have hdf : (s.runUntil uniform_random T).deferred j1 = false := by
          unfold Scheduler.deferred
          rw [hid1, busy_eq_false _ j.id hfl1]
          simp
        obtain ⟨w, hw1, hw2⟩ := wake_le_job _ j1 _ hj1 hnd hdf hnext1
        have hTw := hend w hw1
        have hmono := startTime_mono uniform_random j.singleton_mode j.trigger j.task n a hgap
          k1 (n - 1) (by omega) (by omega)
        omega
  obtain ⟨hb, hk⟩ := hdone
  subst hb
  subst hk
  simp only [Bool.false_eq_true, if_false, Nat.add_zero] at hruns1
  refine ⟨hrec1, ?_⟩
  intro k hk hkid
  unfold Scheduler.Jobs at hk
  rw [List.mem_filter] at hk
  have hkj : k = j1 := by
    have hf := filter_id_eq_singleton _ j1 h1.1 hj1
    have hmem : k ∈ (s.runUntil uniform_random T).jobs.filter (fun x => x.id == j1.id) := by
      rw [List.mem_filter]
      exact ⟨hk.1, by simp [hkid, hid1]⟩
    rw [hf] at hmem
    simpa using hmem
  have hd := (destroyed_iff uniform_random (s.runUntil uniform_random T) j1 k1 hrj1 hmax1).mpr
    hruns1
  rw [hkj, hd] at hk
  simp at hk

end spec

namespace spec

theorem register_cons (uniform_random : Int → Int → Int → Int) (s : Scheduler)
    (definition : gocron.JobDefinition) (task : gocron.Task) (options : List gocron.JobOption)
    (rest : List (gocron.JobDefinition × gocron.Task × List gocron.JobOption))
    (hv : (Trigger.ofDefinition definition).valid = true) :
    Scheduler.register uniform_random s ((definition, task, options) :: rest) =
      Scheduler.register uniform_random { s with jobs := s.jobs ++ [{
        id := s.jobs.length
        name := nameOf options
        trigger := Trigger.ofDefinition definition
        task := task
        tags := tagsOf options
        singleton_mode := modeOf options
        max_runs := maxRunsOf options
        runs_completed := 0
        next_run_at := next_run_at uniform_random (Trigger.ofDefinition definition) s.now }] }
        rest := by
  rw [Scheduler.register]
  unfold Scheduler.NewJob
  simp only [hv, if_true]

/-- Registering a table of valid entries adds one job per entry, in order,
with the ids that follow those of the jobs already there. -/
theorem register_valid (uniform_random : Int → Int → Int → Int) :
    ∀ (table : List (gocron.JobDefinition × gocron.Task × List gocron.JobOption))
      (s : Scheduler), (∀ e ∈ table, (Trigger.ofDefinition e.1).valid = true) →
      Scheduler.register uniform_random s table =
        { s with jobs := s.jobs ++ admitted uniform_random s.now s.jobs.length table }
  | [], s, _ => by simp [Scheduler.register, admitted]
  | (definition, task, options) :: rest, s, hv => by
      rw [register_cons uniform_random s definition task options rest
        (hv _ (List.mem_cons_self _ _))]
      rw [register_valid uniform_random rest _ (fun e he => hv e (List.mem_cons_of_mem _ he))]
      simp [admitted]

theorem admitted_ids (uniform_random : Int → Int → Int → Int) (now : Int) :
    ∀ (table : List (gocron.JobDefinition × gocron.Task × List gocron.JobOption)) (k : Nat),
      (admitted uniform_random now k table).map (fun j => j.id) = List.range' k table.length
  | [], k => rfl
  | (definition, task, options) :: rest, k => by
      simp [admitted, List.range', admitted_ids uniform_random now rest (k + 1)]

theorem admitted_trigger (uniform_random : Int → Int → Int → Int) (now : Int) :
    ∀ (table : List (gocron.JobDefinition × gocron.Task × List gocron.JobOption)) (k : Nat),
      ∀ j ∈ admitted uniform_random now k table,
        ∃ e ∈ table, j.trigger = Trigger.ofDefinition e.1
  | [], k, j, h => by simp [admitted] at h
  | (definition, task, options) :: rest, k, j, h => by
      simp only [admitted, List.mem_cons] at h
      rcases h with h | h
      · exact ⟨(definition, task, options), List.mem_cons_self _ _, by rw [h]⟩
      · obtain ⟨e, he, ht⟩ := admitted_trigger uniform_random now rest (k + 1) j h
        exact ⟨e, List.mem_cons_of_mem _ he, ht⟩

theorem mem_table (now : Int)
    (e : gocron.JobDefinition × gocron.Task × List gocron.JobOption)
    (he : e ∈ (getting_started.jobs now).map
      (fun job => (job.definition, job.task, job.options))) :
    e.1 ∈ basic_auth.jobs.map (fun job => job.definition) ++
      (getting_started.jobs now).map (fun job => job.definition) := by
  rw [List.mem_append]
  right
  rw [List.mem_map] at he ⊢
  obtain ⟨job, hjob, rfl⟩ := he
  exact ⟨job, hjob, rfl⟩

/-- The scheduler of getting_started holds one job per entry of the table,
with no execution started. -/
theorem started_eq (uniform_random : Int → Int → Int → Int) (now : Int) :
    started uniform_random now =
      ⟨now, admitted uniform_random now 0
        ((getting_started.jobs now).map (fun job => (job.definition, job.task, job.options))),
        [], []⟩ := by
  unfold started
  rw [register_valid uniform_random _ _
    (fun e he => definitions_valid now e.1 (mem_table now e he))]
  simp

theorem started_wellFormed (uniform_random : Int → Int → Int → Int) (now : Int)
    (hdraw : ∀ a b t, a ≤ b → a ≤ uniform_random a b t ∧ uniform_random a b t ≤ b) :
    (started uniform_random now).WellFormed uniform_random := by
  rw [started_eq]
  refine ⟨?_, ?_⟩
  · simp only [admitted_ids]
    exact List.nodup_range' _ _
  · intro j hj t u hu
    obtain ⟨e, he, ht⟩ := admitted_trigger uniform_random now _ 0 j hj
    rw [ht] at hu
    exact definitions_later now uniform_random hdraw e.1 (mem_table now e he) t u hu

/-- The names of the jobs of the scheduler of getting_started, by id. -/
theorem started_names (uniform_random : Int → Int → Int → Int) (now : Int) :
    (started uniform_random now).jobs.map (fun j => (j.id, j.name)) =
      [(0, "simple-10s-interval"), (1, "simple-5s-interval"), (2, "cron-every-minute"),
       (3, "daily-afternoon-report"), (4, "weekly-mwf-morning"), (5, "parameterized-job"),
       (6, "context-aware-job"), (7, "random-interval-job"), (8, "singleton-mode-job"),
       (9, "limited-run-job"), (10, "event-listener-job"), (11, "one-time-job"),
       (12, "data-processor-job"), (13, "health-check-job")] := by
  rw [started_eq]
  rfl

/-- The limited-run job of the scheduler of getting_started. -/
theorem started_limited (uniform_random : Int → Int → Int → Int) (now : Int) :
    (⟨9, "limited-run-job", .FixedInterval (7 * time.Second),
        gocron.NewTask [] [.Println "Limited run job executed"] [], ["limited", "demo"], .None,
        some 3, 0, some (now + 7 * time.Second)⟩ : Job) ∈ (started uniform_random now).jobs := by
  rw [started_eq]
  simp only [getting_started.jobs, List.map_cons, List.map_nil, admitted]
  simp only [List.mem_cons]
  iterate 9 right
  left
  rfl

theorem loop_of_wake_none (uniform_random : Int → Int → Int → Int) (T : Int) (s : Scheduler)
    (h : s.wake = none) : ∀ fuel, Scheduler.loop uniform_random T fuel s = s
  | 0 => rfl
  | fuel + 1 => by
      unfold Scheduler.loop
      rw [h]

end spec


/-- Counterexample to C5 as stated, on two schedulers started at time 0. A
Job with max_runs = 2 and a OneTime trigger at 30 seconds has run once, at 30
seconds, when the scheduler has run for 100 seconds, and at no time has it
run twice. A Job with max_runs = 3, no singleton mode, an interval of 1
second and a task that takes 5 seconds has by then run 7 times, every second
from 1 to 7 seconds: its third completion comes at 8 seconds; it is then
absent from Jobs() and the loop has nothing left to wake for. -/
theorem max_runs_is_not_always_the_number_of_executions :
    sample.oneTimeTwice.jobs.map (fun j => (j.id, j.trigger, j.max_runs)) =
        [(0, .OneTime (30 * time.Second), some 2)] ∧
      (sample.oneTimeTwice.runUntil sample.lowest (100 * time.Second)).runsAt 0 =
        [30 * time.Second] ∧
      (∀ T, (sample.oneTimeTwice.runUntil sample.lowest T).runs 0 ≠ 2) ∧
      sample.overlapping.jobs.map
          (fun j => (j.id, j.trigger, j.task.body, j.singleton_mode, j.max_runs)) =
        [(0, .FixedInterval (1 * time.Second),
          [.Println "started", .Sleep (5 * time.Second) (5 * time.Second)], .None, some 3)] ∧
      (sample.overlapping.runUntil sample.lowest (100 * time.Second)).runsAt 0 =
        [1 * time.Second, 2 * time.Second, 3 * time.Second, 4 * time.Second, 5 * time.Second,
          6 * time.Second, 7 * time.Second] ∧
      (sample.overlapping.runUntil sample.lowest (100 * time.Second)).runs 0 = 7 ∧
      (sample.overlapping.runUntil sample.lowest (100 * time.Second)).Jobs = [] ∧
      (sample.overlapping.runUntil sample.lowest (100 * time.Second)).wake = none := by
  refine ⟨by decide, by decide, ?_, by decide, by decide, by decide, by decide, by decide⟩
  intro T
  have hw : sample.oneTimeTwice.wake = some (30 * time.Second) := by decide
  have hw1 : (sample.oneTimeTwice.dispatch sample.lowest (30 * time.Second)).wake = none := by
    decide
  have hr0 : sample.oneTimeTwice.runs 0 = 0 := by decide
  have hr1 : (sample.oneTimeTwice.dispatch sample.lowest (30 * time.Second)).runs 0 = 1 := by
    decide
  unfold spec.Scheduler.runUntil
  rw [hw]
  simp only
  unfold spec.Scheduler.loop
  rw [hw]
  simp only
  by_cases hT : 30 * time.Second ≤ T
  · rw [if_pos hT, spec.loop_of_wake_none _ _ _ hw1, hr1]
    decide
  · rw [if_neg hT, hr0]
    decide

/-- C5, as amended: take a Job with max_runs = n that is new (no run
completed, none in flight), whose trigger recurs and whose executions do not
overlap: it is in a singleton mode, or none of its first n executions
outlasts the time to its next firing; the scheduler has jobs with different
ids and triggers that keep the trigger invariant. Its executions start at
the times start 0, start 1 and so on, which without a singleton mode are its
firing times. At every time the executions that have occurred are the first
of these, never more than n; once the scheduler has run to the completion of
the n-th, the executions are exactly n, and the job is absent from Jobs(). In
particular the limited-run-job of getting_started, DurationJob(7s) with
WithLimitedRuns(3) and a task that only prints, has never run more than 3
times; whenever the scheduler has run for 21 seconds or more it has run
exactly 3 times, 7, 14 and 21 seconds after the creation of the scheduler,
and is not returned by Jobs(). -/
theorem limited_job_runs_exactly_n_times (uniform_random : Int → Int → Int → Int)
    (hdraw : ∀ a b t, a ≤ b → a ≤ uniform_random a b t ∧ uniform_random a b t ≤ b) :
    (∀ (T : Int) (s : spec.Scheduler) (j : spec.Job) (n : Nat) (a : Int) (start : Nat → Int),
      start = spec.startTime uniform_random j.singleton_mode j.trigger j.task a →
      s.WellFormed uniform_random → j ∈ s.jobs → j.trigger.recurring uniform_random →
      j.max_runs = some n → j.runs_completed = 0 → j.next_run_at = some a →
      s.busy j.id = false →
      (j.singleton_mode = .None → ∀ m, m < n →
        start m + spec.duration uniform_random (start m) j.task.body ≤ start (m + 1)) →
      (∃ m, m ≤ n ∧ (s.runUntil uniform_random T).runsAt j.id =
          s.runsAt j.id ++ (List.range m).map start) ∧
        ((n = 0 ∨
            start (n - 1) + spec.duration uniform_random (start (n - 1)) j.task.body ≤ T) →
          (s.runUntil uniform_random T).runsAt j.id =
              s.runsAt j.id ++ (List.range n).map start ∧
            ∀ k ∈ (s.runUntil uniform_random T).Jobs, k.id ≠ j.id)) ∧
    (∀ (now T : Int),
      (∃ j ∈ (spec.started uniform_random now).jobs, j.id = 9 ∧ j.name = "limited-run-job" ∧
        j.trigger = .FixedInterval (7 * time.Second) ∧
        j.task = gocron.NewTask [] [.Println "Limited run job executed"] [] ∧
        j.singleton_mode = .None ∧ j.max_runs = some 3) ∧
      (spec.started uniform_random now).runsAt 9 = [] ∧
      ((spec.started uniform_random now).runUntil uniform_random T).runs 9 ≤ 3 ∧
      (now + 21 * time.Second ≤ T →
        ((spec.started uniform_random now).runUntil uniform_random T).runsAt 9 =
            [now + 7 * time.Second, now + 14 * time.Second, now + 21 * time.Second] ∧
          ((spec.started uniform_random now).runUntil uniform_random T).runs 9 = 3 ∧
          ∀ k ∈ ((spec.started uniform_random now).runUntil uniform_random T).Jobs,
            k.id ≠ 9 ∧ k.name ≠ "limited-run-job")) := by
  constructor
  · intro T s j n a start hstart h hj hr hmax hruns hnext hidle hover
    subst hstart
    exact spec.runUntil_limited uniform_random T s j n a h hj hr hmax hruns hnext hidle hover
  · intro now T
    have hj := spec.started_limited uniform_random now
    have hrec : spec.Trigger.recurring uniform_random (.FixedInterval (7 * time.Second)) :=
      fun t => ⟨t + 7 * time.Second, rfl⟩
    have hstep : ∀ m, spec.startTime uniform_random .None (.FixedInterval (7 * time.Second))
        (gocron.NewTask [] [.Println "Limited run job executed"] [])
        (now + 7 * time.Second) (m + 1) =
        spec.startTime uniform_random .None (.FixedInterval (7 * time.Second))
          (gocron.NewTask [] [.Println "Limited run job executed"] [])
          (now + 7 * time.Second) m + 7 * time.Second := by
      intro m
      simp only [spec.startTime, spec.resume, spec.tick, spec.next_run_at, Option.getD_some]
    have hf0 : spec.startTime uniform_random .None (.FixedInterval (7 * time.Second))
        (gocron.NewTask [] [.Println "Limited run job executed"] [])
        (now + 7 * time.Second) 0 = now + 7 * time.Second := rfl
    have hf1 : spec.startTime uniform_random .None (.FixedInterval (7 * time.Second))
        (gocron.NewTask [] [.Println "Limited run job executed"] [])
        (now + 7 * time.Second) 1 = now + 14 * time.Second := by
      rw [hstep, hf0]
      unfold time.Second
      omega
    have hf2 : spec.startTime uniform_random .None (.FixedInterval (7 * time.Second))
        (gocron.NewTask [] [.Println "Limited run job executed"] [])
        (now + 7 * time.Second) 2 = now + 21 * time.Second := by
      rw [hstep, hf1]
      unfold time.Second
      omega
    have h0 : (spec.started uniform_random now).runsAt 9 = [] := by
      rw [spec.started_eq]
      rfl
    have hidle : (spec.started uniform_random now).busy 9 = false := by
      rw [spec.started_eq]
      rfl
    obtain ⟨⟨m, hm, hfirst⟩, hfull⟩ := spec.runUntil_limited uniform_random T _ _ 3
      (now + 7 * time.Second) (spec.started_wellFormed uniform_random now hdraw) hj hrec rfl rfl
      rfl hidle (by
        intro _ m _
        show spec.startTime uniform_random .None (.FixedInterval (7 * time.Second))
            (gocron.NewTask [] [.Println "Limited run job executed"] [])
            (now + 7 * time.Second) m + 0 ≤
          spec.startTime uniform_random .None (.FixedInterval (7 * time.Second))
            (gocron.NewTask [] [.Println "Limited run job executed"] [])
            (now + 7 * time.Second) (m + 1)
        rw [hstep]
        unfold time.Second
        omega)
    simp only at hfirst hfull
    refine ⟨⟨_, hj, rfl, rfl, rfl, rfl, rfl, rfl⟩, h0, ?_, ?_⟩
    · unfold spec.Scheduler.runs
      rw [hfirst, h0]
      simpa using hm
    · intro hT
      obtain ⟨hruns, habsent⟩ := hfull (Or.inr (by
        show spec.startTime uniform_random .None (.FixedInterval (7 * time.Second))
          (gocron.NewTask [] [.Println "Limited run job executed"] [])
          (now + 7 * time.Second) 2 + 0 ≤ T
        rw [hf2]
        omega))
      have hlist : ((spec.started uniform_random now).runUntil uniform_random T).runsAt 9 =
          [now + 7 * time.Second, now + 14 * time.Second, now + 21 * time.Second] := by
        rw [hruns, h0]
        show List.map _ [0, 1, 2] = _
        simp only [List.map_cons, List.map_nil, hf0, hf1, hf2]
      refine ⟨hlist, ?_, ?_⟩
      · unfold spec.Scheduler.runs
        rw [hlist]
        rfl
      · intro k hk
        refine ⟨habsent k hk, ?_⟩
        intro hname
        have hmem : (k.id, k.name, k.trigger) ∈
            ((spec.started uniform_random now).runUntil uniform_random T).jobs.map
              (fun j => (j.id, j.name, j.trigger)) := by
          unfold spec.Scheduler.Jobs at hk
          exact List.mem_map.mpr ⟨k, (List.mem_filter.mp hk).1, rfl⟩
        rw [spec.runUntil_names, List.mem_map] at hmem
        obtain ⟨j0, hj0, he⟩ := hmem
        simp only [Prod.mk.injEq] at he
        have hid0 : j0.id = k.id := he.1
        have hname0 : j0.name = k.name := he.2.1
        have hmem2 : (j0.id, j0.name) ∈
            (spec.started uniform_random now).jobs.map (fun j => (j.id, j.name)) :=
          List.mem_map.mpr ⟨j0, hj0, rfl⟩
        rw [spec.started_names, hid0, hname0, hname] at hmem2
        have hid : k.id = 9 := by
          simp only [List.mem_cons, Prod.mk.injEq, List.not_mem_nil, or_false] at hmem2
          rcases hmem2 with h | h | h | h | h | h | h | h | h | h | h | h | h | h
          all_goals first
            | exact h.1
            | exact absurd h.2 (by decide)
        exact habsent k hk hid


namespace sample

/-- The one job of the sample scheduler in singleton mode. -/
theorem singleton_jobs :
    singleton.jobs = [⟨0, "singleton-mode-job", .FixedInterval (5 * time.Second),
      gocron.NewTask []
        [.Println "Singleton job started",
         .Sleep (8 * time.Second) (8 * time.Second),
         .Println "Singleton job completed"] [],
      [], .RescheduleIfRunning, some 3, 0, some (5 * time.Second)⟩] := by
  decide

theorem singleton_wellFormed : singleton.WellFormed lowest := by
  unfold spec.Scheduler.WellFormed
  rw [singleton_jobs]
  refine ⟨by decide, ?_⟩
  intro j hj t u hu
  rw [List.mem_singleton] at hj
  subst hj
  simp only [spec.next_run_at, Option.some.injEq] at hu
  unfold time.Second at hu
  omega

end sample

/-- Witness of the amended C5, with the draw that gives the lower bound. The
scheduler of getting_started started at time 0 has run the limited-run-job
at 7, 14 and 21 seconds when it has run for 21 seconds, by the general
statement and by the particular one. By the general statement again, a job
with max_runs = 3 that is due every 5 seconds, takes 8 seconds and is in
RescheduleIfRunning mode has run at 5, 13 and 21 seconds when the third run
completes, at 29 seconds. -/
theorem limited_job_runs_exactly_n_times_witness :
    (∀ a b t : Int, a ≤ b → a ≤ sample.lowest a b t ∧ sample.lowest a b t ≤ b) ∧
      (spec.started sample.lowest 0).WellFormed sample.lowest ∧
      (⟨9, "limited-run-job", .FixedInterval (7 * time.Second),
        gocron.NewTask [] [.Println "Limited run job executed"] [], ["limited", "demo"], .None,
        some 3, 0, some (0 + 7 * time.Second)⟩ : spec.Job) ∈ (spec.started sample.lowest 0).jobs ∧
      (spec.started sample.lowest 0).busy 9 = false ∧
      ((spec.started sample.lowest 0).runUntil sample.lowest (21 * time.Second)).runsAt 9 =
        (spec.started sample.lowest 0).runsAt 9 ++
          (List.range 3).map (spec.startTime sample.lowest .None
            (.FixedInterval (7 * time.Second))
            (gocron.NewTask [] [.Println "Limited run job executed"] [])
            (0 + 7 * time.Second)) ∧
      (0 : Int) + 21 * time.Second ≤ 21 * time.Second ∧
      ((spec.started sample.lowest 0).runUntil sample.lowest (21 * time.Second)).runsAt 9 =
        [0 + 7 * time.Second, 0 + 14 * time.Second, 0 + 21 * time.Second] ∧
      sample.singleton.WellFormed sample.lowest ∧
      (sample.singleton.runUntil sample.lowest (29 * time.Second)).runsAt 0 =
        sample.singleton.runsAt 0 ++
          (List.range 3).map (spec.startTime sample.lowest .RescheduleIfRunning
            (.FixedInterval (5 * time.Second))
            (gocron.NewTask []
              [.Println "Singleton job started",
               .Sleep (8 * time.Second) (8 * time.Second),
               .Println "Singleton job completed"] [])
            (5 * time.Second)) ∧
      sample.singleton.runsAt 0 ++
          (List.range 3).map (spec.startTime sample.lowest .RescheduleIfRunning
            (.FixedInterval (5 * time.Second))
            (gocron.NewTask []
              [.Println "Singleton job started",
               .Sleep (8 * time.Second) (8 * time.Second),
               .Println "Singleton job completed"] [])
            (5 * time.Second)) =
        [5 * time.Second, 13 * time.Second, 21 * time.Second] :=
  ⟨fun a b _ h => ⟨le_refl a, h⟩,
    spec.started_wellFormed sample.lowest 0 (fun a b _ h => ⟨le_refl a, h⟩),
    spec.started_limited sample.lowest 0,
    by rw [spec.started_eq]; rfl,
    (((limited_job_runs_exactly_n_times sample.lowest (fun a b _ h => ⟨le_refl a, h⟩)).1
      (21 * time.Second) (spec.started sample.lowest 0) _ 3 (0 + 7 * time.Second) _ rfl
      (spec.started_wellFormed sample.lowest 0 (fun a b _ h => ⟨le_refl a, h⟩))
      (spec.started_limited sample.lowest 0)
      (fun t => ⟨t + 7 * time.Second, rfl⟩) rfl rfl rfl (by rw [spec.started_eq]; rfl)
      (by intro _ m hm; interval_cases m <;> decide)).2 (Or.inr (by decide))).1,
    by decide,
    (((limited_job_runs_exactly_n_times sample.lowest (fun a b _ h => ⟨le_refl a, h⟩)).2 0
      (21 * time.Second)).2.2.2 (by decide)).1,
    sample.singleton_wellFormed,
    (((limited_job_runs_exactly_n_times sample.lowest (fun a b _ h => ⟨le_refl a, h⟩)).1
      (29 * time.Second) sample.singleton
      ⟨0, "singleton-mode-job", .FixedInterval (5 * time.Second),
        gocron.NewTask []
          [.Println "Singleton job started",
           .Sleep (8 * time.Second) (8 * time.Second),
           .Println "Singleton job completed"] [],
        [], .RescheduleIfRunning, some 3, 0, some (5 * time.Second)⟩ 3 (5 * time.Second) _ rfl
      sample.singleton_wellFormed (by rw [sample.singleton_jobs]; exact List.mem_singleton.mpr rfl)
      (fun t => ⟨t + 5 * time.Second, rfl⟩) rfl rfl rfl (by decide)
      (by intro h; cases h)).2 (Or.inr (by decide))).1,
    by decide⟩

